import Mathlib

/-!
# libfabric memory pools: free stacks and the growable buffer pool

A shallow embedding of `include/ofi_mem.h` and `prov/util/src/util_buf.c`.

Conventions of the embedding.

* Addresses of pool buffers and `size_t` quantities are natural numbers; `NULL` is `0`.
  Sums and products of `size_t` values are taken without wrap-around, which is exact
  as long as `num_allocated` and the region sizes `chunk_cnt * entry_sz` stay below
  `2 ^ 64`, that is, whenever the regions fit into the address space. The one place
  where the code converts a negative `ssize_t` to `size_t` is modelled with the
  explicit modulus (`ssize_to_size`).
  Free-stack addresses are integers, because the shared-region variant subtracts
  addresses of two different mappings of one image. The `int` that `name_index`
  returns is modelled with the explicit conversion (`ptrdiff_to_int`), and the byte
  count that the fixed-capacity `name_create` passes to `calloc` with the explicit
  modulus.
* The free list of the pool is intrusive: `union util_buf` overlays the list link on
  the first `sizeof_slist_entry` bytes of a buffer, while the footer of a buffer
  starts `attr.size` bytes into it. Every link store of the list functions is
  applied to the footer memory (`slist_store_link`): a footer that has a byte in
  common with a stored link does not hold its value afterwards.
* A pointer to a `struct util_buf_region` is represented by the position of the
  descriptor in `region_list`: descriptors are appended at the tail and stay there
  until the pool is destroyed.
* Everything the code obtains from outside (memory allocators, the region hooks,
  the huge page size) is supplied by an environment record, and every call to the
  outside is recorded as an `event`.
* `ENABLE_DEBUG` is the field `debug` of `build_cfg`; both variants of every
  conditionally compiled function are embedded.
* A result of type `Option` is `none` when the C code has no defined result there
  (a failed `assert`, a read of memory that was never written, a precondition of
  the list primitives that does not hold). An `assert` whose condition can also
  fail without any undefined behaviour following is checked in debug builds only,
  since optimised builds compile assertions out.
-/

namespace OfiMem

/-! ## Constants and helpers that live outside the two source files -/

/-- Size of a pointer in bytes (LP64). -/
def sizeof_ptr : Int := 8

/-- Size of `struct util_buf_footer` in bytes: a pointer and a `size_t`. -/
def sizeof_util_buf_footer : Nat := 16

/-- Size of `struct slist_entry` in bytes: its one link pointer. `union util_buf`
overlays it on the first bytes of every pool buffer. -/
def sizeof_slist_entry : Nat := 8

/-- Value of `UTIL_BUF_POOL_REGION_CHUNK_CNT`. -/
def UTIL_BUF_POOL_REGION_CHUNK_CNT : Nat := 16

/-- Modelled from the spec: the error code `FI_ENOMEM` is declared in a header
that is not among the sources; only its being non-zero is used. -/
def FI_ENOMEM : Int := 12

/-- Conversion of an `ssize_t` to `size_t` (64 bit), as C performs it when the two
are compared. -/
def ssize_to_size (x : Int) : Nat := (x % 2 ^ 64).toNat

/-- Build configuration: `debug` is `ENABLE_DEBUG`; `fi_get_aligned_sz` is the
alignment helper of `ofi.h`, which is not among the sources and is therefore a
parameter. -/
structure build_cfg where
  debug : Bool
  fi_get_aligned_sz : Nat → Nat → Nat

/-- Modelled from the spec: `fi_get_aligned_sz` of `ofi.h`, the `align(size,
alignment)` of the pool creation, which rounds `size` up to a multiple of
`alignment`. The helper divides by the alignment, so it is meaningful for a
non-zero alignment only. -/
def fi_get_aligned_sz (size alignment : Nat) : Nat :=
  if size % alignment = 0 then size else (size / alignment + 1) * alignment

/-- Build configuration whose alignment helper is `fi_get_aligned_sz`. -/
def ofi_cfg (debug : Bool) : build_cfg :=
  { debug := debug, fi_get_aligned_sz := fi_get_aligned_sz }

/-- Modelled from the spec: `slist_empty` of `ofi_list.h` (the generic intrusive
singly linked list is an external building block). A list of entries is the
sequence of their addresses, head first; entries are distinct objects. -/
def slist_empty (l : List Nat) : Bool := l.isEmpty

/-- Modelled from the spec: `slist_insert_tail` of `ofi_list.h`, as far as the
sequence of entries goes; what its link stores do to the memory of pool buffers
is `slist_insert_tail_links`. -/
def slist_insert_tail {α : Type} (item : α) (l : List α) : List α := l ++ [item]

/-- Modelled from the spec: `slist_insert_head` of `ofi_list.h`, as far as the
sequence of entries goes; what its link store does to the memory of the buffer is
`slist_store_link`. -/
def slist_insert_head (item : Nat) (l : List Nat) : List Nat := item :: l

/-- Modelled from the spec: `slist_remove_head` of `ofi_list.h`; the callers
require a non-empty list. -/
def slist_remove_head {α : Type} (l : List α) : Option (α × List α) :=
  match l with
  | [] => none
  | item :: rest => some (item, rest)

/-! ## Data model of the buffer pool -/

/-- The C `struct util_buf_attr`; a handler field records whether the function
pointer is non-NULL. -/
structure util_buf_attr where
  size : Nat
  alignment : Nat
  max_cnt : Nat
  chunk_cnt : Nat
  alloc_hndlr : Bool
  free_hndlr : Bool
  init : Bool
  ctx : Nat
  track_used : Bool
  is_mmap_region : Bool
  use_ftr : Bool
deriving DecidableEq

/-- The C `struct util_buf_region` (without its list link); `num_used` exists in
debug builds only and stays `0` otherwise. -/
structure util_buf_region where
  mem_region : Nat
  size : Nat
  context : Nat
  num_used : Nat
deriving DecidableEq

/-- The C `struct util_buf_footer`. -/
structure util_buf_footer where
  region : Nat
  index : Nat
deriving DecidableEq

/-- The C `struct util_buf_pool`. A slot of `regions_table` is `none` while it has
not been written since `realloc` handed it out. -/
structure util_buf_pool where
  entry_sz : Nat
  num_allocated : Nat
  buf_list : List Nat
  region_list : List util_buf_region
  regions_table : List (Option Nat)
  regions_cnt : Nat
  attr : util_buf_attr

/-- A pool together with the footers stored in the memory of its regions, keyed by
the address of the footer: `footers a = some f` says that the
`sizeof_util_buf_footer` bytes at `a` hold the footer `f`, `none` that they hold no
footer (they were never written, or a later store changed some of them). -/
structure pool_mem where
  pool : util_buf_pool
  footers : Nat → Option util_buf_footer

/-- Whether the bytes of the list link of the entry at `entry` and the bytes of a
footer at address `a` have a byte in common. -/
def link_hits (entry a : Nat) : Bool :=
  decide (a < entry + sizeof_slist_entry ∧ entry < a + sizeof_util_buf_footer)

/-- Modelled from the spec: the store of the link of a list entry, as the insert
functions of `ofi_list.h` perform it (`item->next = ...`). The link is the first
`sizeof_slist_entry` bytes of the buffer, so a footer that has a byte in common
with them does not hold its value afterwards. -/
def slist_store_link (entry : Nat) (footers : Nat → Option util_buf_footer) :
    Nat → Option util_buf_footer :=
  fun a => if link_hits entry a then none else footers a

/-- Modelled from the spec: the link stores of `slist_insert_tail` of `ofi_list.h`
for a list of pool buffers: the link of the former tail, if there is one, is set
to the new entry, and the link of the new entry is set to `NULL`. -/
def slist_insert_tail_links (item : Nat) (l : List Nat)
    (footers : Nat → Option util_buf_footer) : Nat → Option util_buf_footer :=
  slist_store_link item
    (match l.getLast? with
     | none => footers
     | some tail => slist_store_link tail footers)

/-- Calls that leave the pool code. -/
inductive event where
  | calloc_region (ok : Bool)
  | free_region
  | alloc_hugepage (size : Nat) (ret : Int) (mem : Nat)
  | memalign (alignment size : Nat) (ret : Int) (mem : Nat)
  | alloc_hndlr (pool_ctx addr len : Nat) (ret : Int) (context : Nat)
  | free_hndlr (pool_ctx context : Nat)
  | realloc_table (slots : Nat) (ok : Bool)
  | init (pool_ctx buf : Nat)
  | freealign (mem : Nat)
  | free_hugepage (mem size : Nat) (ret : Int)
  | free_pool
deriving DecidableEq

/-- What the outside answers during one call of `util_buf_grow`. -/
structure grow_env where
  calloc_ok : Bool
  hp_size : Int
  hugepage_ret : Int
  hugepage_mem : Nat
  memalign_ret : Int
  memalign_mem : Nat
  hndlr_ret : Int
  hndlr_context : Nat
  realloc_ok : Bool

/-- One invocation of `util_buf_grow`: its return value and its outside calls. -/
structure grow_call where
  ret : Int
  events : List event
deriving DecidableEq

/-- What the outside answers during `util_buf_pool_create_attr`. -/
structure create_env where
  calloc_ok : Bool
  hp_size : Int
  grow : grow_env

/-! ## The buffer pool: `util_buf.c` and the inline functions of `ofi_mem.h` -/

/-- The two variants of `util_buf_use_ftr`. -/
def util_buf_use_ftr (cfg : build_cfg) (pool : util_buf_pool) : Bool :=
  if cfg.debug then true
  else pool.attr.alloc_hndlr || pool.attr.free_hndlr || pool.attr.use_ftr

/-- Address of the footer of `buf`: `(char *) buf + pool->attr.size`. -/
def util_buf_ftr_addr (pool : util_buf_pool) (buf : Nat) : Nat := buf + pool.attr.size

/-- The C `util_buf_set_ftr`: writes `ftr` at the footer address of `buf`. -/
def util_buf_set_ftr (buf : Nat) (ftr : util_buf_footer) (s : pool_mem) :
    Nat → Option util_buf_footer :=
  fun a => if a = util_buf_ftr_addr s.pool buf then some ftr else s.footers a

/-- Body of the provisioning loop of `util_buf_grow` for entry `i`. The pool-wide
initializer is an outside call, recorded as an event; the assertion that follows it
in the source is about what that callback does to the entry; the debug store of
`OFI_MAGIC_64` before the callback goes to the link of the new buffer, the bytes that
`slist_insert_tail` writes again below. The footer is written first;
`slist_insert_tail` then stores list links into the former tail and into the first
bytes of the new buffer. -/
def util_buf_grow_entry (cfg : build_cfg) (buf_region mem_region : Nat)
    (acc : pool_mem × List event) (i : Nat) : pool_mem × List event :=
  let s := acc.1
  let pool := s.pool
  let util_buf := mem_region + i * pool.entry_sz
  let evs := if pool.attr.init then acc.2 ++ [event.init pool.attr.ctx util_buf] else acc.2
  let footers :=
    if util_buf_use_ftr cfg pool then
      util_buf_set_ftr util_buf { region := buf_region, index := pool.num_allocated + i } s
    else s.footers
  ({ pool := { pool with buf_list := slist_insert_tail util_buf pool.buf_list },
     footers := slist_insert_tail_links util_buf pool.buf_list footers }, evs)

/-- The C `realloc` of the reverse table to `n` slots: old contents are kept, new
slots are unwritten. -/
def realloc_table (t : List (Option Nat)) (n : Nat) : List (Option Nat) :=
  (t ++ List.replicate (n - t.length) none).take n

/-- Part of `util_buf_grow` from the provisioning loop to the successful return
(lines 122-145), for the region descriptor `region`, which becomes the last
element of `region_list`. -/
def util_buf_grow_finish (cfg : build_cfg) (s : pool_mem) (region : util_buf_region)
    (evs : List event) : Int × pool_mem × List event :=
  let buf_region := s.pool.region_list.length
  let looped :=
    (List.range s.pool.attr.chunk_cnt).foldl
      (util_buf_grow_entry cfg buf_region region.mem_region) (s, evs)
  let pool2 := looped.1.pool
  (0,
   { pool := { pool2 with
               region_list := slist_insert_tail region pool2.region_list,
               num_allocated := pool2.num_allocated + pool2.attr.chunk_cnt },
     footers := looped.1.footers },
   looped.2)

/-- Part of `util_buf_grow` from the alloc hook to the end (lines 99-153), for a
region whose memory `mem_region` of `size` bytes has been obtained. -/
def util_buf_grow_provision (cfg : build_cfg) (env : grow_env) (s : pool_mem)
    (mem_region size : Nat) (evs : List event) : Int × pool_mem × List event :=
  let pool := s.pool
  let buf_region := pool.region_list.length
  let err2 (es : List event) : Int × pool_mem × List event :=
    (-1, s, es ++ [event.freealign mem_region, event.free_region])
  let hook : Int × Nat × List event :=
    if pool.attr.alloc_hndlr then
      (env.hndlr_ret, env.hndlr_context,
        evs ++ [event.alloc_hndlr pool.attr.ctx mem_region size env.hndlr_ret
                  env.hndlr_context])
    else (0, 0, evs)
  if hook.1 ≠ 0 then err2 hook.2.2
  else
    let region : util_buf_region :=
      { mem_region := mem_region, size := size, context := hook.2.1, num_used := 0 }
    let evs1 := hook.2.2
    if util_buf_use_ftr cfg pool &&
        pool.regions_cnt % UTIL_BUF_POOL_REGION_CHUNK_CNT == 0 then
      let evs2 :=
        evs1 ++ [event.realloc_table (pool.regions_cnt + UTIL_BUF_POOL_REGION_CHUNK_CNT)
                  env.realloc_ok]
      if !env.realloc_ok then
        err2 (if pool.attr.free_hndlr then
                evs2 ++ [event.free_hndlr pool.attr.ctx region.context]
              else evs2)
      else
        util_buf_grow_finish cfg
          { s with pool := { pool with
              regions_table :=
                (realloc_table pool.regions_table
                  (pool.regions_cnt + UTIL_BUF_POOL_REGION_CHUNK_CNT)).set
                  pool.regions_cnt (some buf_region),
              regions_cnt := pool.regions_cnt + 1 } }
          region evs2
    else util_buf_grow_finish cfg s region evs1

/-- Part of `util_buf_grow` that obtains the region by aligned allocation
(lines 90-97) and continues. -/
def util_buf_grow_memalign (cfg : build_cfg) (env : grow_env) (s : pool_mem)
    (evs : List event) : Int × pool_mem × List event :=
  let pool := s.pool
  let size := pool.attr.chunk_cnt * pool.entry_sz
  let evs1 := evs ++ [event.memalign pool.attr.alignment size env.memalign_ret
                        env.memalign_mem]
  if env.memalign_ret ≠ 0 then (-1, s, evs1 ++ [event.free_region])
  else util_buf_grow_provision cfg env s env.memalign_mem size evs1

/-- The C `util_buf_grow`. -/
def util_buf_grow (cfg : build_cfg) (env : grow_env) (s : pool_mem) :
    Int × pool_mem × List event :=
  let pool := s.pool
  if pool.attr.max_cnt ≠ 0 ∧ pool.num_allocated ≥ pool.attr.max_cnt then (-1, s, [])
  else if !env.calloc_ok then (-1, s, [event.calloc_region false])
  else
    let evs := [event.calloc_region true]
    if pool.attr.is_mmap_region then
      if env.hp_size < 0 then (-1, s, evs ++ [event.free_region])
      else
        let size := cfg.fi_get_aligned_sz (pool.attr.chunk_cnt * pool.entry_sz)
                      (ssize_to_size env.hp_size)
        let evs1 := evs ++ [event.alloc_hugepage size env.hugepage_ret env.hugepage_mem]
        if env.hugepage_ret ≠ 0 then
          if pool.num_allocated > 0 then (-1, s, evs1 ++ [event.free_region])
          else
            util_buf_grow_memalign cfg env
              { s with pool := { pool with attr := { pool.attr with is_mmap_region := false } } }
              evs1
        else util_buf_grow_provision cfg env s env.hugepage_mem size evs1
    else util_buf_grow_memalign cfg env s evs

/-- The pool as `calloc` and the first lines of `util_buf_pool_create_attr` set it
up, before the first region is provisioned. -/
def util_buf_pool_create_init (cfg : build_cfg) (hp_size : Int) (attr : util_buf_attr) :
    util_buf_pool :=
  let pool0 : util_buf_pool :=
    { entry_sz := 0, num_allocated := 0, buf_list := [], region_list := [],
      regions_table := [], regions_cnt := 0, attr := attr }
  let entry_sz :=
    if util_buf_use_ftr cfg pool0 then attr.size + sizeof_util_buf_footer else attr.size
  let aligned := cfg.fi_get_aligned_sz entry_sz attr.alignment
  { pool0 with
    entry_sz := aligned,
    attr := { attr with
              is_mmap_region :=
                if attr.chunk_cnt * aligned < ssize_to_size hp_size then false else true } }

/-- The C `util_buf_pool_create_attr`: return value, the pool when one is
returned, and the `util_buf_grow` invocation it made. -/
def util_buf_pool_create_attr (cfg : build_cfg) (env : create_env) (attr : util_buf_attr) :
    Int × Option pool_mem × List grow_call :=
  if !env.calloc_ok then (-FI_ENOMEM, none, [])
  else
    let s0 : pool_mem :=
      { pool := util_buf_pool_create_init cfg env.hp_size attr, footers := fun _ => none }
    let r := util_buf_grow cfg env.grow s0
    if r.1 ≠ 0 then (-FI_ENOMEM, none, [{ ret := r.1, events := r.2.2 }])
    else (0, some r.2.1, [{ ret := r.1, events := r.2.2 }])

/-- The C `util_buf_pool_create_ex`. -/
def util_buf_pool_create_ex (cfg : build_cfg) (env : create_env)
    (size alignment max_cnt chunk_cnt : Nat) (alloc_hndlr free_hndlr : Bool)
    (pool_ctx : Nat) : Int × Option pool_mem × List grow_call :=
  util_buf_pool_create_attr cfg env
    { size := size, alignment := alignment, max_cnt := max_cnt, chunk_cnt := chunk_cnt,
      alloc_hndlr := alloc_hndlr, free_hndlr := free_hndlr, init := false, ctx := pool_ctx,
      track_used := true, is_mmap_region := false, use_ftr := cfg.debug }

/-- The C `util_buf_avail`. -/
def util_buf_avail (s : pool_mem) : Bool := !slist_empty s.pool.buf_list

/-- Region descriptor a footer at the footer address of `buf` points to. -/
def util_buf_ftr_region (s : pool_mem) (buf : Nat) : Option (Nat × util_buf_region) :=
  match s.footers (util_buf_ftr_addr s.pool buf) with
  | none => none
  | some ftr =>
    match s.pool.region_list[ftr.region]? with
    | none => none
    | some r => some (ftr.region, r)

/-- The two variants of `util_buf_get`. -/
def util_buf_get (cfg : build_cfg) (s : pool_mem) : Option (Nat × pool_mem) :=
  match slist_remove_head s.pool.buf_list with
  | none => none
  | some (entry, rest) =>
    if cfg.debug then
      match util_buf_ftr_region { s with pool := { s.pool with buf_list := rest } } entry with
      | none => none
      | some (k, r) =>
        some (entry,
          { s with pool := { s.pool with
              buf_list := rest,
              region_list := s.pool.region_list.set k { r with num_used := r.num_used + 1 } } })
    else some (entry, { s with pool := { s.pool with buf_list := rest } })

/-- The two variants of `util_buf_release`. In both, `slist_insert_head` stores the
list link into the first bytes of the buffer. -/
def util_buf_release (cfg : build_cfg) (s : pool_mem) (buf : Nat) : Option pool_mem :=
  if cfg.debug then
    match util_buf_ftr_region s buf with
    | none => none
    | some (k, r) =>
      if r.num_used = 0 then none
      else
        some { pool := { s.pool with
                 region_list := s.pool.region_list.set k { r with num_used := r.num_used - 1 },
                 buf_list := slist_insert_head buf s.pool.buf_list },
               footers := slist_store_link buf s.footers }
  else
    some { pool := { s.pool with buf_list := slist_insert_head buf s.pool.buf_list },
           footers := slist_store_link buf s.footers }

/-- The two variants of `util_get_buf_index`. -/
def util_get_buf_index (cfg : build_cfg) (s : pool_mem) (buf : Nat) : Option Nat :=
  match s.footers (util_buf_ftr_addr s.pool buf) with
  | none => none
  | some ftr =>
    if cfg.debug then
      match s.pool.region_list[ftr.region]? with
      | none => none
      | some r => if r.num_used = 0 then none else some ftr.index
    else some ftr.index

/-- The two variants of `util_buf_get_by_index`. -/
def util_buf_get_by_index (cfg : build_cfg) (s : pool_mem) (index : Nat) : Option Nat :=
  if s.pool.attr.chunk_cnt = 0 then none
  else
    match s.pool.regions_table[index / s.pool.attr.chunk_cnt]? with
    | some (some k) =>
      match s.pool.region_list[k]? with
      | none => none
      | some buf_region =>
        let buf := buf_region.mem_region + (index % s.pool.attr.chunk_cnt) * s.pool.entry_sz
        if cfg.debug then
          match util_buf_ftr_region s buf with
          | none => none
          | some (_, r) => if r.num_used = 0 then none else some buf
        else some buf
    | _ => none

/-- The C `util_buf_get_ex`: the buffer and the value stored through `context`. -/
def util_buf_get_ex (cfg : build_cfg) (s : pool_mem) : Option (Nat × Nat × pool_mem) :=
  match util_buf_get cfg s with
  | none => none
  | some (buf, s1) =>
    match util_buf_ftr_region s1 buf with
    | none => none
    | some (_, r) => some (buf, r.context, s1)

/-- The C `util_buf_alloc`: returned pointer (`0` is `NULL`), new state, and the
`util_buf_grow` invocations made. -/
def util_buf_alloc (cfg : build_cfg) (env : grow_env) (s : pool_mem) :
    Option (Nat × pool_mem × List grow_call) :=
  if !util_buf_avail s then
    let r := util_buf_grow cfg env s
    if r.1 ≠ 0 then some (0, r.2.1, [{ ret := r.1, events := r.2.2 }])
    else
      match util_buf_get cfg r.2.1 with
      | none => none
      | some (buf, s1) => some (buf, s1, [{ ret := r.1, events := r.2.2 }])
  else
    match util_buf_get cfg s with
    | none => none
    | some (buf, s1) => some (buf, s1, [])

/-- The C `util_buf_alloc_ex`: returned pointer, the value stored through
`context` (`none` when nothing is stored), new state, `util_buf_grow` invocations. -/
def util_buf_alloc_ex (cfg : build_cfg) (env : grow_env) (s : pool_mem) :
    Option (Nat × Option Nat × pool_mem × List grow_call) :=
  match util_buf_alloc cfg env s with
  | none => none
  | some (buf, s1, log) =>
    if buf = 0 then some (0, none, s1, log)
    else
      match util_buf_ftr_region s1 buf with
      | none => none
      | some (_, r) => some (buf, some r.context, s1, log)

/-- The C `util_buf_get_ctx`. -/
def util_buf_get_ctx (cfg : build_cfg) (s : pool_mem) (buf : Nat) : Option Nat :=
  if util_buf_use_ftr cfg s.pool then
    match util_buf_ftr_region s buf with
    | none => none
    | some (_, r) => some r.context
  else none

/-- Loop of `util_buf_pool_destroy` over the region list; `unmap_ret` is the
result of `ofi_free_hugepage_buf` for a region address. A failed unmapping runs
into `assert(0)`, which stops a debug build and is compiled out otherwise. -/
def util_buf_pool_destroy_loop (cfg : build_cfg) (attr : util_buf_attr)
    (unmap_ret : Nat → Int) : List util_buf_region → Option (List event)
  | [] => some []
  | buf_region :: rest =>
    if cfg.debug && attr.track_used && buf_region.num_used != 0 then none
    else
      let hook := if attr.free_hndlr then [event.free_hndlr attr.ctx buf_region.context] else []
      if attr.is_mmap_region then
        if cfg.debug && unmap_ret buf_region.mem_region != 0 then none
        else
          (util_buf_pool_destroy_loop cfg attr unmap_ret rest).map fun evs =>
            hook ++ [event.free_hugepage buf_region.mem_region buf_region.size
                      (unmap_ret buf_region.mem_region), event.free_region] ++ evs
      else
        (util_buf_pool_destroy_loop cfg attr unmap_ret rest).map fun evs =>
          hook ++ [event.freealign buf_region.mem_region, event.free_region] ++ evs

/-- The C `util_buf_pool_destroy`: the outside calls it makes. -/
def util_buf_pool_destroy (cfg : build_cfg) (unmap_ret : Nat → Int) (s : pool_mem) :
    Option (List event) :=
  (util_buf_pool_destroy_loop cfg s.pool.attr unmap_ret s.pool.region_list).map
    fun evs => evs ++ [event.free_pool]

/-! ## Sequences of pool operations -/

/-- Whether an event is an invocation of the alloc hook. -/
def event.is_alloc_hndlr : event → Bool
  | event.alloc_hndlr _ _ _ _ _ => true
  | _ => false

/-- Whether an event is an invocation of the free hook. -/
def event.is_free_hndlr : event → Bool
  | event.free_hndlr _ _ => true
  | _ => false

/-- Alloc hook invocations made by the `util_buf_grow` calls that returned `0`, one
list per such call, in call order. -/
def region_hook_calls (log : List grow_call) : List (List event) :=
  (log.filter fun c => c.ret == 0).map fun c => c.events.filter event.is_alloc_hndlr

/-- Contract of the memory allocators for a block returned at `mem`: it is not
`NULL` and the bytes the pool will carve into buffers are disjoint from the
buffers of every region the pool already owns. -/
def block_fresh (s : pool_mem) (mem : Nat) : Prop :=
  mem ≠ 0 ∧ ∀ r ∈ s.pool.region_list,
    mem + s.pool.attr.chunk_cnt * s.pool.entry_sz ≤ r.mem_region ∨
    r.mem_region + s.pool.attr.chunk_cnt * s.pool.entry_sz ≤ mem

/-- The allocator answers of `env` respect the allocator contract in state `s`. -/
def grow_env_fresh (s : pool_mem) (env : grow_env) : Prop :=
  (env.hugepage_ret = 0 → block_fresh s env.hugepage_mem) ∧
  (env.memalign_ret = 0 → block_fresh s env.memalign_mem)

/-- States a pool can be in: `pool_reach cfg s log held` says that some sequence
create, then any of grow, alloc, get, release, leads to state `s`, having made the
`util_buf_grow` invocations `log`, with the buffers `held` handed out and not yet
released. The `_ex` variants of alloc and get change the state as alloc and get
do. Callers release only buffers they hold. -/
inductive pool_reach (cfg : build_cfg) : pool_mem → List grow_call → List Nat → Prop
  | create (env : create_env) (attr : util_buf_attr) {s : pool_mem} {log : List grow_call} :
      util_buf_pool_create_attr cfg env attr = (0, some s, log) →
      grow_env_fresh
        { pool := util_buf_pool_create_init cfg env.hp_size attr, footers := fun _ => none }
        env.grow →
      pool_reach cfg s log []
  | grow {s : pool_mem} {log : List grow_call} {held : List Nat} (env : grow_env) :
      pool_reach cfg s log held →
      grow_env_fresh s env →
      pool_reach cfg (util_buf_grow cfg env s).2.1
        (log ++ [{ ret := (util_buf_grow cfg env s).1, events := (util_buf_grow cfg env s).2.2 }])
        held
  | alloc {s s1 : pool_mem} {log l : List grow_call} {held : List Nat} (env : grow_env)
      {buf : Nat} :
      pool_reach cfg s log held →
      grow_env_fresh s env →
      util_buf_alloc cfg env s = some (buf, s1, l) →
      pool_reach cfg s1 (log ++ l) (if buf = 0 then held else buf :: held)
  | get {s s1 : pool_mem} {log : List grow_call} {held : List Nat} {buf : Nat} :
      pool_reach cfg s log held →
      util_buf_get cfg s = some (buf, s1) →
      pool_reach cfg s1 log (buf :: held)
  | release {s s1 : pool_mem} {log : List grow_call} {held : List Nat} (buf : Nat) :
      pool_reach cfg s log held →
      buf ∈ held →
      util_buf_release cfg s buf = some s1 →
      pool_reach cfg s1 log (held.erase buf)

/-- The environment answers of one `util_buf_grow` call all report success. -/
def grow_env_ok (env : grow_env) : Prop :=
  env.calloc_ok = true ∧ 0 ≤ env.hp_size ∧
  env.hugepage_ret = 0 ∧ env.hugepage_mem ≠ 0 ∧
  env.memalign_ret = 0 ∧ env.memalign_mem ≠ 0 ∧
  env.hndlr_ret = 0 ∧ env.realloc_ok = true

/-- Calls `util_buf_alloc` once for every environment of the list, in order:
the returned pointers, the final state and all `util_buf_grow` invocations. -/
def util_buf_alloc_seq (cfg : build_cfg) :
    List grow_env → pool_mem → Option (List Nat × pool_mem × List grow_call)
  | [], s => some ([], s, [])
  | env :: envs, s =>
    match util_buf_alloc cfg env s with
    | none => none
    | some (buf, s1, l) =>
      match util_buf_alloc_seq cfg envs s1 with
      | none => none
      | some (bufs, s2, l2) => some (buf :: bufs, s2, l ++ l2)

/-! ## Fixed-capacity free stack (`DECLARE_FREESTACK`) -/

/-- Value of `FREESTACK_EMPTY` and `SMR_FREESTACK_EMPTY` (`NULL`). -/
def FREESTACK_EMPTY : Int := 0

/-- The header of a free stack (`FREESTACK_HEADER`) together with the memory that
holds the link slots of its entries: `mem a` is the pointer stored at address `a`. -/
structure freestack where
  size : Nat
  next : Int
  mem : Int → Int

/-- Store of one pointer-sized word. -/
def mem_write (mem : Int → Int) (addr val : Int) : Int → Int :=
  fun a => if a = addr then val else mem a

/-- The C `freestack_get_next`: the link slot in front of a user buffer. -/
def freestack_get_next (user_buf : Int) : Int := user_buf - sizeof_ptr

/-- The C `freestack_get_user_buf`: the user buffer behind a link slot. -/
def freestack_get_user_buf (entry : Int) : Int := entry + sizeof_ptr

/-- The C `freestack_isempty`. -/
def freestack_isempty (fs : freestack) : Bool := fs.next == FREESTACK_EMPTY

/-- The C `freestack_push`; in debug builds `freestack_check_next` asserts that the
link slot is `NULL`. -/
def freestack_push (debug : Bool) (fs : freestack) (p : Int) : Option freestack :=
  if debug && fs.mem (freestack_get_next p) != 0 then none
  else
    some { fs with
           mem := mem_write fs.mem (freestack_get_next p) fs.next,
           next := freestack_get_next p }

/-- The C `freestack_pop_impl`; in debug builds `freestack_init_next` resets the
link slot of the popped entry. -/
def freestack_pop_impl (debug : Bool) (fs : freestack) (fs_next : Int) :
    Option (Int × freestack) :=
  if freestack_isempty fs then none
  else
    let fs1 : freestack := { fs with next := fs.mem fs_next }
    let fs2 : freestack :=
      if debug then { fs1 with mem := mem_write fs1.mem fs_next 0 } else fs1
    some (freestack_get_user_buf fs_next, fs2)

/-- The C `freestack_pop`. -/
def freestack_pop (debug : Bool) (fs : freestack) : Option (Int × freestack) :=
  freestack_pop_impl debug fs fs.next

/-- Link slots on the list: the chain from `head` through the stored links, at
most `fuel` entries of it. -/
def freestack_chain (mem : Int → Int) : Nat → Int → List Int
  | 0, _ => []
  | fuel + 1, head =>
    if head = FREESTACK_EMPTY then [] else head :: freestack_chain mem fuel (mem head)

/-- Doubling search used by `roundup_power_of_two`. -/
def roundup_power_of_two_from (n : Nat) : Nat → Nat → Nat
  | 0, p => p
  | fuel + 1, p => if n ≤ p then p else roundup_power_of_two_from n fuel (2 * p)

/-- Modelled from the spec: `roundup_power_of_two` is declared in a header that is
not among the sources; the spec describes it as the smallest power of two that is
at least the requested count. -/
def roundup_power_of_two (n : Nat) : Nat := roundup_power_of_two_from n n 1

/-- Size of `FREESTACK_HEADER` in bytes: a `size_t` and a pointer. -/
def freestack_header_size : Int := 2 * sizeof_ptr

/-- Address of `fs->entry[i].buf` for a free stack at `fs` whose
`struct name_entry` (the link pointer followed by the payload) occupies
`entry_size` bytes. -/
def name_entry_buf (fs entry_size : Int) (i : Nat) : Int :=
  fs + freestack_header_size + (i : Int) * entry_size + sizeof_ptr

/-- Loop of `name_init`: `i` runs from `n - 1` down to `0`. The calls of the
`init` callback are recorded by the address of the payload they are given. -/
def name_init_loop (debug init : Bool) (fs entry_size : Int) :
    Nat → freestack × List Int → Option (freestack × List Int)
  | 0, st => some st
  | i + 1, st =>
    match freestack_push debug st.1 (name_entry_buf fs entry_size i) with
    | none => none
    | some st1 =>
      name_init_loop debug init fs entry_size i
        (st1, if init then st.2 ++ [name_entry_buf fs entry_size i] else st.2)

/-- The `name_init` of `DECLARE_FREESTACK` for the block at `fs`, whose content
before the call is `st`; `init` says whether a callback is given; `entry_size` is
`sizeof(struct name_entry)` and `buf_size` is `sizeof(fs->entry[0].buf)`, the size
of the payload type without the padding of the entry. The two asserts are those of
the source; they are checked in debug builds only. The result is the stack and the
calls of the callback, in order. -/
def name_init (debug init : Bool) (fs entry_size buf_size : Int) (st : freestack)
    (size : Nat) : Option (freestack × List Int) :=
  if debug && size != roundup_power_of_two size then none
  else if debug && decide (buf_size < sizeof_ptr) then none
  else
    name_init_loop debug init fs entry_size size
      ({ st with size := size, next := FREESTACK_EMPTY }, [])

/-- Byte count that the `name_create` of `DECLARE_FREESTACK` passes to `calloc`:
`sizeof(*fs) + sizeof(struct name_entry) * roundup_power_of_two(size)`, computed in
`size_t` (64 bits). -/
def name_create_size (entry_size : Int) (size : Nat) : Int :=
  (freestack_header_size + entry_size * (roundup_power_of_two size : Int)) % 2 ^ 64

/-- The `name_create` of `DECLARE_FREESTACK`; `fs` is what `calloc` returns, `0`
for `NULL`, and the block it returns is zeroed. The inner `none` is the `NULL`
return value. -/
def name_create (debug init : Bool) (fs entry_size buf_size : Int) (size : Nat) :
    Option (Option (freestack × List Int)) :=
  if fs = 0 then some none
  else
    (name_init debug init fs entry_size buf_size { size := 0, next := 0, mem := fun _ => 0 }
      (roundup_power_of_two size)).map some

/-- Conversion of a pointer difference to `int` (32 bits, two's complement): the
value modulo `2^32` that lies between `-2^31` and `2^31 - 1`. -/
def ptrdiff_to_int (x : Int) : Int := (x + 2 ^ 31) % 2 ^ 32 - 2 ^ 31

/-- The `name_index` of `DECLARE_FREESTACK`: the difference of two
`struct name_entry` pointers, in elements, converted to `int`. -/
def name_index (fs entry_size : Int) (entry : Int) : Int :=
  ptrdiff_to_int ((freestack_get_next entry - (fs + freestack_header_size)) / entry_size)

/-! ## Free stack for shared memory regions (`DECLARE_SMR_FREESTACK`) -/

/-- Byte image of a shared-region free stack: the header (`SMR_FREESTACK_HEADER`)
and the pointer-sized words of the entry area, `words o` being the word at byte
offset `o` from the start of the structure. The image does not depend on the
address at which a process maps it. -/
structure smr_freestack where
  base_addr : Int
  size : Nat
  next : Int
  words : Int → Int

/-- Size of `SMR_FREESTACK_HEADER` in bytes: three pointer-sized fields. -/
def smr_header_size : Int := 3 * sizeof_ptr

/-- Difference of two `char **` pointers, in elements. -/
def ptr_diff (a b : Int) : Int := (a - b) / sizeof_ptr

/-- Sum of a `char **` pointer and an element count. -/
def ptr_add (a n : Int) : Int := a + sizeof_ptr * n

/-- The C `smr_freestack_isempty`. -/
def smr_freestack_isempty (img : smr_freestack) : Bool := img.next == FREESTACK_EMPTY

/-- The C `smr_freestack_push` by a process that maps the image at address `fs`. -/
def smr_freestack_push (fs : Int) (img : smr_freestack) (local_p : Int) : smr_freestack :=
  let p := ptr_add img.base_addr (ptr_diff (freestack_get_next local_p) fs)
  { img with
    words := mem_write img.words (freestack_get_next local_p - fs) img.next,
    next := p }

/-- The C `smr_freestack_pop_impl` by a process that maps the image at address
`fs`. The statement `next = *((void **) local)` assigns to the parameter `next`,
which is passed by value, so no field of the image is written. -/
def smr_freestack_pop_impl (fs : Int) (img : smr_freestack) (next : Int) :
    Option (Int × smr_freestack) :=
  if next = 0 then none
  else
    let local_entry := ptr_add fs (ptr_diff next img.base_addr)
    some (freestack_get_user_buf local_entry, img)

/-- The C `smr_freestack_pop`. -/
def smr_freestack_pop (fs : Int) (img : smr_freestack) : Option (Int × smr_freestack) :=
  smr_freestack_pop_impl fs img img.next

/-- Address of `fs->entry[i].buf` for a shared-region free stack mapped at `fs`
whose `struct name_entry` occupies `entry_size` bytes. -/
def smr_entry_buf (fs entry_size : Int) (i : Nat) : Int :=
  fs + smr_header_size + (i : Int) * entry_size + sizeof_ptr

/-- Loop of the shared-region `name_init`: `i` runs from `n - 1` down to `0`. -/
def smr_name_init_loop (fs entry_size : Int) : Nat → smr_freestack → smr_freestack
  | 0, img => img
  | i + 1, img =>
    smr_name_init_loop fs entry_size i (smr_freestack_push fs img (smr_entry_buf fs entry_size i))

/-- The shared-region `name_init`, run by a process that maps the image at `fs`;
`img` is the content of the block before the call. The two asserts are those of
the source; they are checked in debug builds only. -/
def smr_name_init (debug : Bool) (fs entry_size : Int) (img : smr_freestack) (size : Nat) :
    Option smr_freestack :=
  if debug && size != roundup_power_of_two size then none
  else if debug && decide (entry_size - sizeof_ptr < sizeof_ptr) then none
  else
    some (smr_name_init_loop fs entry_size size
      { img with size := size, next := FREESTACK_EMPTY, base_addr := fs })

/-- Byte count that the shared-region `name_create` passes to `calloc`:
`sizeof(*fs) + sizeof(entrytype) * roundup_power_of_two(size)`, the payload
`entrytype` being what follows the link pointer in a `struct name_entry` of
`entry_size` bytes. -/
def smr_name_create_size (entry_size : Int) (size : Nat) : Int :=
  smr_header_size + (entry_size - sizeof_ptr) * (roundup_power_of_two size : Int)

/-- The shared-region `name_create`; `fs` is what `calloc` returns, `0` for
`NULL`, and the block it returns is zeroed. The inner `none` is the `NULL` return
value. -/
def smr_name_create (debug : Bool) (fs entry_size : Int) (size : Nat) :
    Option (Option smr_freestack) :=
  if fs = 0 then some none
  else
    (smr_name_init debug fs entry_size
      { base_addr := 0, size := 0, next := 0, words := fun _ => 0 }
      (roundup_power_of_two size)).map some

/-! ## Predicates used in the statements, and example inputs -/

/-- Address of buffer `i` of a region whose memory starts at `mem_region`. -/
def region_buf (pool : util_buf_pool) (mem_region i : Nat) : Nat :=
  mem_region + i * pool.entry_sz

/-- State `s` with the flag `attr.is_mmap_region` set to `b`. -/
def with_mmap (s : pool_mem) (b : Bool) : pool_mem :=
  { s with pool := { s.pool with attr := { s.pool.attr with is_mmap_region := b } } }

/-- Region descriptor that `util_buf_grow` fills in for memory at `mem_region`. -/
def new_region (s : pool_mem) (env : grow_env) (mem_region size : Nat) : util_buf_region :=
  { mem_region := mem_region, size := size,
    context := if s.pool.attr.alloc_hndlr then env.hndlr_context else 0, num_used := 0 }

/-- Alloc hook invocation that `util_buf_grow` makes for a region, if a hook is
configured. -/
def region_hook_call (attr : util_buf_attr) (r : util_buf_region) : List event :=
  if attr.alloc_hndlr then [event.alloc_hndlr attr.ctx r.mem_region r.size 0 r.context]
  else []

/-- State `s1` is state `s` with the region `r` provisioned. -/
structure grow_added (cfg : build_cfg) (s s1 : pool_mem) (r : util_buf_region) : Prop where
  entry_sz : s1.pool.entry_sz = s.pool.entry_sz
  attr : s1.pool.attr = s.pool.attr
  num_allocated : s1.pool.num_allocated = s.pool.num_allocated + s.pool.attr.chunk_cnt
  buf_list : s1.pool.buf_list =
    s.pool.buf_list ++ (List.range s.pool.attr.chunk_cnt).map (region_buf s.pool r.mem_region)
  region_list : s1.pool.region_list = s.pool.region_list ++ [r]
  num_used : r.num_used = 0
  ftr_keep : ∀ a,
    (∀ i < s.pool.attr.chunk_cnt,
      a ≠ util_buf_ftr_addr s.pool (region_buf s.pool r.mem_region i) ∧
      link_hits (region_buf s.pool r.mem_region i) a = false) →
    (∀ t, s.pool.buf_list.getLast? = some t → link_hits t a = false) →
    s1.footers a = s.footers a
  ftr_new : util_buf_use_ftr cfg s.pool = true → ∀ i < s.pool.attr.chunk_cnt,
    (∀ j < s.pool.attr.chunk_cnt,
      link_hits (region_buf s.pool r.mem_region j)
        (util_buf_ftr_addr s.pool (region_buf s.pool r.mem_region i)) = false) →
    (∀ t, s.pool.buf_list.getLast? = some t →
      link_hits t (util_buf_ftr_addr s.pool (region_buf s.pool r.mem_region i)) = false) →
    ∃ j < s.pool.attr.chunk_cnt,
      region_buf s.pool r.mem_region j = region_buf s.pool r.mem_region i ∧
      s1.footers (util_buf_ftr_addr s.pool (region_buf s.pool r.mem_region i)) =
        some { region := s.pool.region_list.length, index := s.pool.num_allocated + j }
  ftr_dead : s.pool.attr.size < sizeof_slist_entry → (∀ a, s.footers a = none) →
    ∀ a, s1.footers a = none

/-- Footer lookups that the debug variant of `util_buf_get` performs succeed for
every buffer on the free list. -/
def ftr_ok (cfg : build_cfg) (s : pool_mem) : Prop :=
  cfg.debug = true → ∀ b ∈ s.pool.buf_list,
    ∃ f, s.footers (util_buf_ftr_addr s.pool b) = some f ∧ f.region < s.pool.region_list.length

/-- A buffer of the pool holds the list link in front of its footer, and the footer
ends inside the stride of the buffer. -/
def ftr_fits (pool : util_buf_pool) : Prop :=
  sizeof_slist_entry ≤ pool.attr.size ∧
  pool.attr.size + sizeof_util_buf_footer ≤ pool.entry_sz

/-- Address, size and hook context of a region: what stays fixed for its lifetime. -/
def region_geom (r : util_buf_region) : Nat × Nat × Nat := (r.mem_region, r.size, r.context)

/-- State `s1` is state `s` after the head `b` of the free list was handed out. -/
structure took_buf (s s1 : pool_mem) (b : Nat) : Prop where
  buf_list : s.pool.buf_list = b :: s1.pool.buf_list
  footers : s1.footers = s.footers
  attr : s1.pool.attr = s.pool.attr
  entry_sz : s1.pool.entry_sz = s.pool.entry_sz
  num_allocated : s1.pool.num_allocated = s.pool.num_allocated
  regions_table : s1.pool.regions_table = s.pool.regions_table
  regions_cnt : s1.pool.regions_cnt = s.pool.regions_cnt
  geom : s1.pool.region_list.map region_geom = s.pool.region_list.map region_geom

/-- Rounding up to a multiple of the alignment, used to instantiate the parameter
`fi_get_aligned_sz` in examples. -/
def example_aligned_sz (x a : Nat) : Nat := if a = 0 then x else (x + a - 1) / a * a

/-- Example configuration: an optimised or a debug build. -/
def example_cfg (debug : Bool) : build_cfg :=
  { debug := debug, fi_get_aligned_sz := example_aligned_sz }

/-- Example environment in which every request succeeds; memory is handed out at
`mem` and the alloc hook returns the context `ctx`. Huge pages are 2 MiB. -/
def example_env (mem ctx : Nat) : grow_env :=
  { calloc_ok := true, hp_size := 2097152, hugepage_ret := 0, hugepage_mem := mem,
    memalign_ret := 0, memalign_mem := mem, hndlr_ret := 0, hndlr_context := ctx,
    realloc_ok := true }

/-- Example creation environment: the first region is placed at address 4096. -/
def example_create_env : create_env :=
  { calloc_ok := true, hp_size := 2097152, grow := example_env 4096 11 }

/-- Example attributes: 64-byte buffers, 16-byte alignment, `chunk_cnt` buffers per
region, footers requested, hooks as given. -/
def example_attr (max_cnt chunk_cnt : Nat) (hooks : Bool) : util_buf_attr :=
  { size := 64, alignment := 16, max_cnt := max_cnt, chunk_cnt := chunk_cnt,
    alloc_hndlr := hooks, free_hndlr := hooks, init := false, ctx := 5,
    track_used := true, is_mmap_region := false, use_ftr := true }

/-- Scenario for index lookup: a pool with two buffers per region is created, three
buffers are allocated (the third one forces a second region at address 8192), and
each buffer is looked up by its index. Reported: for each buffer its address, the
result of `util_get_buf_index` and the result of `util_buf_get_by_index` on that
index; then `regions_cnt`, the number of regions in the list, and slot 1 of the
reverse table. -/
def index_scenario (debug : Bool) :
    Option (List (Nat × Option Nat × Option Nat) × Nat × Nat × Option (Option Nat)) :=
  match (util_buf_pool_create_attr (example_cfg debug) example_create_env
      (example_attr 0 2 false)).2.1 with
  | none => none
  | some s0 =>
    match util_buf_alloc_seq (example_cfg debug)
        [example_env 8192 12, example_env 8192 12, example_env 8192 12] s0 with
    | none => none
    | some (bufs, s3, _) =>
      some (bufs.map (fun b =>
              (b, util_get_buf_index (example_cfg debug) s3 b,
                (util_get_buf_index (example_cfg debug) s3 b).bind
                  (util_buf_get_by_index (example_cfg debug) s3))),
        s3.pool.regions_cnt, s3.pool.region_list.length, s3.pool.regions_table[1]?)

/-- Example state: a free stack at address 4096 with 16-byte header and 16-byte
entries, of which entry 0 (at 4112) and entry 1 (at 4128) are on the list and
entries 2 and 3 are held by callers. -/
def freestack_example : freestack :=
  { size := 4, next := 4112, mem := fun a => if a = 4112 then 4128 else 0 }

/-- Example image: a zeroed block for a shared-region free stack. -/
def smr_zero_image : smr_freestack :=
  { base_addr := 0, size := 0, next := 0, words := fun _ => 0 }

/-- Start addresses of the regions of the pool, in creation order. -/
def region_mems (s : pool_mem) : List Nat :=
  s.pool.region_list.map util_buf_region.mem_region

/-- Whether the footer stored for buffer `b` names region `k`. -/
def buf_region_is (s : pool_mem) (k : Nat) (b : Nat) : Bool :=
  match s.footers (util_buf_ftr_addr s.pool b) with
  | none => false
  | some f => f.region == k

/-- Invariant of the reachable pool states. -/
structure pool_inv (cfg : build_cfg) (s : pool_mem) (log : List grow_call)
    (held : List Nat) : Prop where
  esz : util_buf_use_ftr cfg s.pool = true → s.pool.attr.size < s.pool.entry_sz
  prov : ∀ b, b ∈ s.pool.buf_list ∨ b ∈ held →
    ∃ (k m i : Nat), (region_mems s)[k]? = some m ∧ i < s.pool.attr.chunk_cnt ∧
      b = region_buf s.pool m i
  ftr : util_buf_use_ftr cfg s.pool = true → sizeof_slist_entry ≤ s.pool.attr.size →
    ∀ (k m i : Nat), (region_mems s)[k]? = some m → i < s.pool.attr.chunk_cnt →
      s.footers (util_buf_ftr_addr s.pool (region_buf s.pool m i)) =
        some { region := k, index := k * s.pool.attr.chunk_cnt + i }
  disj : ∀ (k1 k2 m1 m2 : Nat), (region_mems s)[k1]? = some m1 → (region_mems s)[k2]? = some m2 →
    k1 ≠ k2 →
    m1 + s.pool.attr.chunk_cnt * s.pool.entry_sz ≤ m2 ∨
    m2 + s.pool.attr.chunk_cnt * s.pool.entry_sz ≤ m1
  nonnull : ∀ m ∈ region_mems s, m ≠ 0
  nalloc : s.pool.num_allocated = s.pool.attr.chunk_cnt * s.pool.region_list.length
  hooks : region_hook_calls log = s.pool.region_list.map (region_hook_call s.pool.attr)
  used : ∀ (k : Nat) (r : util_buf_region), s.pool.region_list[k]? = some r →
    r.num_used = if cfg.debug then held.countP (buf_region_is s k) else 0
  fit : util_buf_use_ftr cfg s.pool = true →
    s.pool.attr.size + sizeof_util_buf_footer ≤ s.pool.entry_sz
  dead : cfg.debug = true → s.pool.attr.size < sizeof_slist_entry →
    (∀ a, s.footers a = none) ∧ held = [] ∧ ∀ r ∈ s.pool.region_list, r.num_used = 0

/-- Region `r`, the `k`-th region of the pool, owns the buffer `buf`: its memory
range contains `buf`, no other region's range does, and the `k`-th successful
`util_buf_grow` of `log` made exactly one alloc hook invocation, for this region's
memory, which returned `r.context`. -/
def owning_region (s : pool_mem) (log : List grow_call) (buf k : Nat)
    (r : util_buf_region) : Prop :=
  s.pool.region_list[k]? = some r ∧
  r.mem_region ≤ buf ∧ buf < r.mem_region + s.pool.attr.chunk_cnt * s.pool.entry_sz ∧
  (region_hook_calls log)[k]? =
    some [event.alloc_hndlr s.pool.attr.ctx r.mem_region r.size 0 r.context] ∧
  ∀ (k1 : Nat) (r1 : util_buf_region), s.pool.region_list[k1]? = some r1 →
    r1.mem_region ≤ buf → buf < r1.mem_region + s.pool.attr.chunk_cnt * s.pool.entry_sz →
    k1 = k

/-- Example state: the pool of `example_attr 0 1 true` (one buffer per region, both
hooks configured) right after its creation in an optimised build. -/
def example_pool : pool_mem :=
  (util_buf_grow (example_cfg false) example_create_env.grow
    { pool := util_buf_pool_create_init (example_cfg false) example_create_env.hp_size
        (example_attr 0 1 true),
      footers := fun _ => none }).2.1

/-- Example state: `example_pool` after its only buffer has been allocated. -/
def example_pool_drained : pool_mem :=
  match util_buf_get (example_cfg false) example_pool with
  | none => example_pool
  | some (_, s) => s

/-- Example state: `example_pool` after one more `util_buf_grow`, whose region is
placed at address 8192 and receives the hook context 12. -/
def example_pool_grown : pool_mem :=
  (util_buf_grow (example_cfg false) (example_env 8192 12) example_pool).2.1

/-- Whether an event is a request to one of the two region allocators. -/
def event.is_mem_alloc : event → Bool
  | event.alloc_hugepage _ _ _ => true
  | event.memalign _ _ _ _ => true
  | _ => false

/-- Whether an event is a request to the huge-page allocator. -/
def event.is_alloc_hugepage : event → Bool
  | event.alloc_hugepage _ _ _ => true
  | _ => false

/-- Whether an event is a request to the aligned allocator. -/
def event.is_memalign : event → Bool
  | event.memalign _ _ _ _ => true
  | _ => false

/-- One call of the pool interface. -/
inductive pool_op where
  | grow (env : grow_env)
  | alloc (env : grow_env)
  | get
  | release (buf : Nat)

/-- All outside calls of a list of `util_buf_grow` invocations. -/
def grow_calls_events (l : List grow_call) : List event :=
  (l.map grow_call.events).flatten

/-- Effect of one call of the pool interface: the new state and the outside calls
made. -/
def pool_step (cfg : build_cfg) (s : pool_mem) : pool_op → Option (pool_mem × List event)
  | pool_op.grow env => some ((util_buf_grow cfg env s).2.1, (util_buf_grow cfg env s).2.2)
  | pool_op.alloc env =>
    match util_buf_alloc cfg env s with
    | none => none
    | some (_, s1, l) => some (s1, grow_calls_events l)
  | pool_op.get =>
    match util_buf_get cfg s with
    | none => none
    | some (_, s1) => some (s1, [])
  | pool_op.release buf =>
    match util_buf_release cfg s buf with
    | none => none
    | some s1 => some (s1, [])

/-- Effect of a sequence of calls of the pool interface. -/
def pool_run (cfg : build_cfg) : List pool_op → pool_mem → Option (pool_mem × List event)
  | [], s => some (s, [])
  | op :: ops, s =>
    match pool_step cfg s op with
    | none => none
    | some (s1, evs) =>
      match pool_run cfg ops s1 with
      | none => none
      | some (s2, evs2) => some (s2, evs ++ evs2)

/-- Example environment in which the huge-page allocator fails and every other
request succeeds. -/
def example_env_no_hugepage (mem ctx : Nat) : grow_env :=
  { example_env mem ctx with hugepage_ret := -12 }

/-- Example state: a pool of 32768 buffers per region, which is in huge-page mode
for huge pages of 2 MiB, before its first region is provisioned. -/
def example_huge_init : pool_mem :=
  { pool := util_buf_pool_create_init (example_cfg false) 2097152 (example_attr 0 32768 false),
    footers := fun _ => none }

/-- Whether address `b` lies in the part of region `r` that is carved into buffers. -/
def in_region (pool : util_buf_pool) (r : util_buf_region) (b : Nat) : Bool :=
  decide (r.mem_region ≤ b ∧ b < r.mem_region + pool.attr.chunk_cnt * pool.entry_sz)

/-- Example attributes of a pool whose creator asked for no usage tracking:
`example_attr 0 1 false` with `track_used` cleared. -/
def example_attr_untracked : util_buf_attr :=
  { example_attr 0 1 false with track_used := false }

/-- Example state: the debug-build pool of `example_attr_untracked` right after its
creation. -/
def example_pool_untracked : pool_mem :=
  (util_buf_grow (example_cfg true) example_create_env.grow
    { pool := util_buf_pool_create_init (example_cfg true) example_create_env.hp_size
        example_attr_untracked,
      footers := fun _ => none }).2.1

/-- Example state: `example_pool_untracked` after its only buffer has been handed
out. -/
def example_pool_untracked_held : pool_mem :=
  match util_buf_get (example_cfg true) example_pool_untracked with
  | none => example_pool_untracked
  | some (_, s) => s

/-- Example state: the debug-build pool of `example_attr 0 1 false` (track_used set)
right after its creation. -/
def example_pool_debug : pool_mem :=
  (util_buf_grow (example_cfg true) example_create_env.grow
    { pool := util_buf_pool_create_init (example_cfg true) example_create_env.hp_size
        (example_attr 0 1 false),
      footers := fun _ => none }).2.1

/-- Example state: `example_pool_debug` after its only buffer has been handed out. -/
def example_pool_debug_held : pool_mem :=
  match util_buf_get (example_cfg true) example_pool_debug with
  | none => example_pool_debug
  | some (_, s) => s

/-- Number of `util_buf_grow` invocations of a log that returned `0`. -/
def grow_successes (log : List grow_call) : Nat :=
  (log.filter fun c => c.ret == 0).length

/-- What holds of the reverse table in every state a pool can be in: the regions of
the list are those of the successful `util_buf_grow` calls, there is at least one,
and in a footer-enabled pool `regions_cnt` is 1 and the table has its first slot
written and 15 unwritten slots. -/
structure table_inv (cfg : build_cfg) (s : pool_mem) (log : List grow_call) : Prop where
  len : s.pool.region_list.length = grow_successes log
  pos : 1 ≤ s.pool.region_list.length
  table : util_buf_use_ftr cfg s.pool = true →
    s.pool.regions_cnt = 1 ∧ s.pool.regions_table = some 0 :: List.replicate 15 none

/-- Example environment in which every request succeeds but the alloc hook, which
returns `-1`. -/
def example_env_hook_fails (mem ctx : Nat) : grow_env :=
  { example_env mem ctx with hndlr_ret := -1 }

/-- Example state: a pool of 32768 buffers per region with both hooks configured,
which is in huge-page mode for huge pages of 2 MiB, before its first region is
provisioned. -/
def example_huge_hooks_init : pool_mem :=
  { pool := util_buf_pool_create_init (example_cfg false) 2097152 (example_attr 0 32768 true),
    footers := fun _ => none }

/-- Whether an event is a successful request for region memory. -/
def event.is_obtained : event → Bool
  | event.alloc_hugepage _ ret _ => ret == 0
  | event.memalign _ _ ret _ => ret == 0
  | _ => false

/-- Whether an event releases region memory. -/
def event.is_free_mem : event → Bool
  | event.freealign _ => true
  | event.free_hugepage _ _ _ => true
  | _ => false

/-- Successful requests for region memory made by the `util_buf_grow` calls that
returned `0`, one list per such call, in call order. -/
def region_alloc_calls (log : List grow_call) : List (List event) :=
  (log.filter fun c => c.ret == 0).map fun c => c.events.filter event.is_obtained

/-- The successful request for the memory of region `r` under the allocation
strategy that the flag `is_mmap_region` of `attr` indicates. -/
def region_alloc_call (attr : util_buf_attr) (r : util_buf_region) : List event :=
  if attr.is_mmap_region then [event.alloc_hugepage r.size 0 r.mem_region]
  else [event.memalign attr.alignment r.size 0 r.mem_region]

/-- The release of the memory of region `r` by the primitive that matches the
allocation strategy that the flag `is_mmap_region` of `attr` indicates. -/
def region_free_call (attr : util_buf_attr) (unmap_ret : Nat → Int) (r : util_buf_region) :
    event :=
  if attr.is_mmap_region then
    event.free_hugepage r.mem_region r.size (unmap_ret r.mem_region)
  else event.freealign r.mem_region

/-- What holds of the allocation strategy in every state a pool with
`chunk_cnt > 0` can be in. -/
structure strategy_inv (s : pool_mem) (log : List grow_call) : Prop where
  calls : region_alloc_calls log = s.pool.region_list.map (region_alloc_call s.pool.attr)
  nalloc : s.pool.num_allocated = s.pool.attr.chunk_cnt * s.pool.region_list.length

/-- Example creation environment of a platform whose huge pages are 64 bytes, so
that a region of one 80-byte entry is taken from huge pages; every request
succeeds and the first region is placed at address 4096. -/
def example_small_hp_env : create_env :=
  { calloc_ok := true, hp_size := 64, grow := { example_env 4096 11 with hp_size := 64 } }

/-- Example state: the optimised-build pool of `example_attr 0 1 false` right after
its creation in `example_small_hp_env`. -/
def example_pool_hugepage : pool_mem :=
  (util_buf_grow (example_cfg false) example_small_hp_env.grow
    { pool := util_buf_pool_create_init (example_cfg false) example_small_hp_env.hp_size
        (example_attr 0 1 false),
      footers := fun _ => none }).2.1

/-- Byte offset of the link slot of `entry[i]` in a shared-region free stack whose
`struct name_entry` occupies `entry_size` bytes. -/
def smr_link_off (entry_size : Int) (i : Nat) : Int :=
  smr_header_size + (i : Int) * entry_size

/-- A link value of a shared-region free stack created at `X` is well formed: it
is `NULL` or the creation-time address `X + o` of the link slot of one of the
`size` entries. -/
def smr_link_ok (X entry_size : Int) (size : Nat) (v : Int) : Prop :=
  v = 0 ∨ ∃ i : Nat, i < size ∧ v = X + smr_link_off entry_size i

/-- A sequence of `smr_freestack_push` calls: the pair `(Y, i)` is the push of
`entry[i]` by a process that maps the image at address `Y`. -/
def smr_push_seq (entry_size : Int) : List (Int × Nat) → smr_freestack → smr_freestack
  | [], img => img
  | p :: l, img =>
    smr_push_seq entry_size l (smr_freestack_push p.1 img (smr_entry_buf p.1 entry_size p.2))

/-- Address of the link slot of `entry[i]` of a free stack at `fs`. -/
def name_link_addr (fs entry_size : Int) (i : Nat) : Int :=
  fs + freestack_header_size + (i : Int) * entry_size

/-- Consecutive `freestack_pop` calls: `n` of them, with the buffers they return
in order; `none` when one of them fails its assertion. -/
def freestack_pop_n (debug : Bool) : Nat → freestack → Option (List Int × freestack)
  | 0, st => some ([], st)
  | n + 1, st =>
    match freestack_pop debug st with
    | none => none
    | some (b, st1) =>
      match freestack_pop_n debug n st1 with
      | none => none
      | some (bs, st2) => some (b :: bs, st2)

/-- Entries `k`, `k + 1`, .. of a free stack of `C` entries at `fs` are on the
list, in this order. -/
def name_linked_from (fs entry_size : Int) (C k : Nat) (st : freestack) : Prop :=
  st.next = (if k < C then name_link_addr fs entry_size k else 0) ∧
  ∀ i : Nat, k ≤ i → i < C →
    st.mem (name_link_addr fs entry_size i) =
      if i + 1 < C then name_link_addr fs entry_size (i + 1) else 0

/-- First address behind the buffer areas of the given regions of `pool` (`0` for
no region). -/
def regions_end (pool : util_buf_pool) : List util_buf_region → Nat
  | [] => 0
  | r :: rs => max (r.mem_region + pool.attr.chunk_cnt * pool.entry_sz) (regions_end pool rs)

/-- Environment of a `util_buf_grow` call in state `s` in which every request
succeeds and the allocators hand out memory behind all regions the pool owns. -/
def fresh_grow_env (s : pool_mem) : grow_env :=
  { calloc_ok := true, hp_size := 2097152, hugepage_ret := 0,
    hugepage_mem := regions_end s.pool s.pool.region_list + 1,
    memalign_ret := 0,
    memalign_mem := regions_end s.pool s.pool.region_list + 1,
    hndlr_ret := 0, hndlr_context := 0, realloc_ok := true }

/-- Example state: the optimised-build pool of `example_attr 3 2 false` (at most 3
buffers, 2 per region) right after its creation. -/
def example_pool_limited : pool_mem :=
  (util_buf_grow (example_cfg false) example_create_env.grow
    { pool := util_buf_pool_create_init (example_cfg false) example_create_env.hp_size
        (example_attr 3 2 false),
      footers := fun _ => none }).2.1

/-- What holds of `num_allocated` in every state a pool can be in. -/
structure count_inv (s : pool_mem) : Prop where
  nalloc : s.pool.num_allocated = s.pool.attr.chunk_cnt * s.pool.region_list.length
  bound : s.pool.attr.max_cnt ≠ 0 →
    s.pool.num_allocated < s.pool.attr.max_cnt + s.pool.attr.chunk_cnt

/-! # Theorems -/

/-! ## The provisioning loop -/

theorem util_buf_grow_loop_pool (cfg : build_cfg) (br mem : Nat) (l : List Nat)
    (s : pool_mem) (evs : List event) :
    (l.foldl (util_buf_grow_entry cfg br mem) (s, evs)).1.pool =
      { s.pool with buf_list := s.pool.buf_list ++ l.map (region_buf s.pool mem) } := by
  induction l generalizing s evs with
  | nil => simp
  | cons i l ih =>
    rw [List.foldl_cons]
    have : util_buf_grow_entry cfg br mem (s, evs) i =
        ((util_buf_grow_entry cfg br mem (s, evs) i).1,
         (util_buf_grow_entry cfg br mem (s, evs) i).2) := rfl
    rw [this, ih]
    simp [util_buf_grow_entry, slist_insert_tail, region_buf]

theorem util_buf_grow_loop_events (cfg : build_cfg) (br mem : Nat) (l : List Nat)
    (s : pool_mem) (evs : List event) :
    (l.foldl (util_buf_grow_entry cfg br mem) (s, evs)).2.filter event.is_alloc_hndlr =
      evs.filter event.is_alloc_hndlr := by
  induction l generalizing s evs with
  | nil => simp
  | cons i l ih =>
    rw [List.foldl_cons]
    have : util_buf_grow_entry cfg br mem (s, evs) i =
        ((util_buf_grow_entry cfg br mem (s, evs) i).1,
         (util_buf_grow_entry cfg br mem (s, evs) i).2) := rfl
    rw [this, ih]
    simp only [util_buf_grow_entry]
    split <;> simp [event.is_alloc_hndlr]

theorem getLast?_concat {α : Type} (l : List α) (x : α) : (l ++ [x]).getLast? = some x := by
  simp

theorem util_buf_grow_entry_pool (cfg : build_cfg) (br mem : Nat) (s : pool_mem)
    (evs : List event) (i : Nat) :
    (util_buf_grow_entry cfg br mem (s, evs) i).1.pool =
      { s.pool with buf_list := s.pool.buf_list ++ [region_buf s.pool mem i] } := rfl

theorem util_buf_grow_entry_footers (cfg : build_cfg) (br mem : Nat) (s : pool_mem)
    (evs : List event) (i : Nat) (a : Nat)
    (hi : link_hits (region_buf s.pool mem i) a = false)
    (ht : ∀ t, s.pool.buf_list.getLast? = some t → link_hits t a = false) :
    (util_buf_grow_entry cfg br mem (s, evs) i).1.footers a =
      if util_buf_use_ftr cfg s.pool = true ∧
          a = util_buf_ftr_addr s.pool (region_buf s.pool mem i) then
        some { region := br, index := s.pool.num_allocated + i }
      else s.footers a := by
  have hi' : link_hits (mem + i * s.pool.entry_sz) a = false := hi
  simp only [util_buf_grow_entry, slist_insert_tail_links, slist_store_link, hi',
    Bool.false_eq_true, if_false]
  have hin : (if util_buf_use_ftr cfg s.pool = true then
        util_buf_set_ftr (mem + i * s.pool.entry_sz)
          { region := br, index := s.pool.num_allocated + i } s
      else s.footers) a =
      if util_buf_use_ftr cfg s.pool = true ∧
          a = util_buf_ftr_addr s.pool (region_buf s.pool mem i) then
        some { region := br, index := s.pool.num_allocated + i }
      else s.footers a := by
    by_cases hu : util_buf_use_ftr cfg s.pool = true
    · simp only [hu, if_true, true_and, util_buf_set_ftr, region_buf]
    · simp [hu]
  cases hl : s.pool.buf_list.getLast? with
  | none => simp only [hin]
  | some t =>
    have := ht t hl
    simp only [slist_store_link, this, Bool.false_eq_true, if_false, hin]

theorem util_buf_grow_loop_ftr_keep (cfg : build_cfg) (br mem : Nat) (l : List Nat)
    (s : pool_mem) (evs : List event) (a : Nat)
    (h : ∀ i ∈ l, a ≠ util_buf_ftr_addr s.pool (region_buf s.pool mem i) ∧
      link_hits (region_buf s.pool mem i) a = false)
    (ht : ∀ t, s.pool.buf_list.getLast? = some t → link_hits t a = false) :
    (l.foldl (util_buf_grow_entry cfg br mem) (s, evs)).1.footers a = s.footers a := by
  induction l generalizing s evs with
  | nil => simp
  | cons i l ih =>
    rw [List.foldl_cons]
    have : util_buf_grow_entry cfg br mem (s, evs) i =
        ((util_buf_grow_entry cfg br mem (s, evs) i).1,
         (util_buf_grow_entry cfg br mem (s, evs) i).2) := rfl
    rw [this, ih]
    · have h0 := h i (by simp)
      rw [util_buf_grow_entry_footers cfg br mem s evs i a h0.2 ht, if_neg]
      exact fun hc => h0.1 hc.2
    · intro j hj
      exact h j (by simp [hj])
    · intro t htl
      rw [util_buf_grow_entry_pool] at htl
      simp only [getLast?_concat, Option.some.injEq] at htl
      rw [← htl]
      exact (h i (by simp)).2

theorem util_buf_grow_loop_ftr_new (cfg : build_cfg) (br mem : Nat) (l : List Nat)
    (s : pool_mem) (evs : List event) (h : util_buf_use_ftr cfg s.pool = true) :
    ∀ i ∈ l,
      (∀ j ∈ l, link_hits (region_buf s.pool mem j)
        (util_buf_ftr_addr s.pool (region_buf s.pool mem i)) = false) →
      (∀ t, s.pool.buf_list.getLast? = some t →
        link_hits t (util_buf_ftr_addr s.pool (region_buf s.pool mem i)) = false) →
      ∃ j ∈ l, region_buf s.pool mem j = region_buf s.pool mem i ∧
        (l.foldl (util_buf_grow_entry cfg br mem) (s, evs)).1.footers
            (util_buf_ftr_addr s.pool (region_buf s.pool mem i)) =
          some { region := br, index := s.pool.num_allocated + j } := by
  induction l generalizing s evs with
  | nil => simp
  | cons i0 l ih =>
    intro i hi hhit ht
    rw [List.foldl_cons]
    have e : util_buf_grow_entry cfg br mem (s, evs) i0 =
        ((util_buf_grow_entry cfg br mem (s, evs) i0).1,
         (util_buf_grow_entry cfg br mem (s, evs) i0).2) := rfl
    rw [e]
    have hs1 : util_buf_use_ftr cfg (util_buf_grow_entry cfg br mem (s, evs) i0).1.pool = true := by
      simpa [util_buf_grow_entry, util_buf_use_ftr] using h
    have htail : ∀ t, (util_buf_grow_entry cfg br mem (s, evs) i0).1.pool.buf_list.getLast? =
        some t →
        link_hits t (util_buf_ftr_addr s.pool (region_buf s.pool mem i)) = false := by
      intro t htl
      rw [util_buf_grow_entry_pool] at htl
      simp only [getLast?_concat, Option.some.injEq] at htl
      rw [← htl]
      exact hhit i0 (by simp)
    by_cases hlater : ∃ j ∈ l, region_buf s.pool mem j = region_buf s.pool mem i
    · obtain ⟨j, hj, hji⟩ := hlater
      obtain ⟨j2, hj2, hj2e, hf⟩ := ih (util_buf_grow_entry cfg br mem (s, evs) i0).1
        (util_buf_grow_entry cfg br mem (s, evs) i0).2 hs1 j hj
        (by
          intro j' hj'
          have := hhit j' (by simp [hj'])
          rw [← hji] at this
          exact this)
        (by
          intro t htl
          have := htail t htl
          rw [← hji] at this
          exact this)
      refine ⟨j2, by simp [hj2], ?_, ?_⟩
      · have : region_buf s.pool mem j2 = region_buf s.pool mem j := hj2e
        rw [this, hji]
      · rw [← hji]
        exact hf
    · have hi0 : i = i0 := by
        rcases List.mem_cons.mp hi with h1 | h1
        · exact h1
        · exact absurd ⟨i, h1, rfl⟩ hlater
      subst hi0
      refine ⟨i, by simp, rfl, ?_⟩
      rw [util_buf_grow_loop_ftr_keep cfg br mem l _ _ _ ?_ htail]
      · rw [util_buf_grow_entry_footers cfg br mem s evs i _ (hhit i (by simp)) ht,
          if_pos ⟨h, rfl⟩]
      · intro j hj
        refine ⟨?_, hhit j (by simp [hj])⟩
        intro heq
        apply hlater
        refine ⟨j, hj, ?_⟩
        have heq' : region_buf s.pool mem i + s.pool.attr.size =
            region_buf s.pool mem j + s.pool.attr.size := heq
        omega

theorem util_buf_grow_loop_ftr_dead (cfg : build_cfg) (br mem : Nat) (l : List Nat)
    (s : pool_mem) (evs : List event) (hsz : s.pool.attr.size < sizeof_slist_entry)
    (h : ∀ a, s.footers a = none) :
    ∀ a, (l.foldl (util_buf_grow_entry cfg br mem) (s, evs)).1.footers a = none := by
  induction l generalizing s evs with
  | nil => simpa using h
  | cons i l ih =>
    rw [List.foldl_cons]
    have e : util_buf_grow_entry cfg br mem (s, evs) i =
        ((util_buf_grow_entry cfg br mem (s, evs) i).1,
         (util_buf_grow_entry cfg br mem (s, evs) i).2) := rfl
    rw [e]
    apply ih
    · exact hsz
    · intro a
      simp only [util_buf_grow_entry, slist_insert_tail_links, slist_store_link]
      split_ifs with h1 h2
      · rfl
      · have hnot : a ≠ mem + i * s.pool.entry_sz + s.pool.attr.size := by
          intro ha
          apply h1
          simp only [link_hits, sizeof_slist_entry, sizeof_util_buf_footer,
            decide_eq_true_eq] at hsz ⊢
          omega
        cases hl : s.pool.buf_list.getLast? with
        | none => simp [util_buf_set_ftr, util_buf_ftr_addr, hnot, h]
        | some t =>
          simp only [slist_store_link]
          split_ifs
          · rfl
          · simp [util_buf_set_ftr, util_buf_ftr_addr, hnot, h]
      · cases hl : s.pool.buf_list.getLast? with
        | none => exact h a
        | some t =>
          simp only [slist_store_link]
          split_ifs
          · rfl
          · exact h a

/-! ## `util_buf_grow` -/

theorem with_mmap_self (s : pool_mem) : with_mmap s s.pool.attr.is_mmap_region = s := rfl

theorem util_buf_grow_finish_ret (cfg : build_cfg) (s : pool_mem) (r : util_buf_region)
    (evs : List event) : (util_buf_grow_finish cfg s r evs).1 = 0 := rfl

theorem util_buf_grow_finish_events (cfg : build_cfg) (s : pool_mem) (r : util_buf_region)
    (evs : List event) :
    (util_buf_grow_finish cfg s r evs).2.2.filter event.is_alloc_hndlr =
      evs.filter event.is_alloc_hndlr := by
  simp only [util_buf_grow_finish]
  exact util_buf_grow_loop_events cfg _ _ _ s evs

theorem util_buf_grow_finish_added (cfg : build_cfg) (s : pool_mem) (r : util_buf_region)
    (evs : List event) (hr : r.num_used = 0) :
    grow_added cfg s (util_buf_grow_finish cfg s r evs).2.1 r := by
  have hp := util_buf_grow_loop_pool cfg s.pool.region_list.length r.mem_region
    (List.range s.pool.attr.chunk_cnt) s evs
  constructor
  · simp [util_buf_grow_finish, hp]
  · simp [util_buf_grow_finish, hp]
  · simp [util_buf_grow_finish, hp]
  · simp [util_buf_grow_finish, hp]
  · simp [util_buf_grow_finish, hp, slist_insert_tail]
  · exact hr
  · intro a ha ht
    exact util_buf_grow_loop_ftr_keep cfg _ _ _ s evs a
      (fun i hi => ha i (by simpa using hi)) ht
  · intro hon i hi hhit ht
    obtain ⟨j, hj, hje, hf⟩ := util_buf_grow_loop_ftr_new cfg s.pool.region_list.length
      r.mem_region (List.range s.pool.attr.chunk_cnt) s evs hon i (by simpa using hi)
      (fun j hj => hhit j (by simpa using hj)) ht
    exact ⟨j, by simpa using hj, hje, hf⟩
  · intro hsz hnone a
    exact util_buf_grow_loop_ftr_dead cfg _ _ _ s evs hsz hnone a

theorem util_buf_grow_provision_fail (cfg : build_cfg) (env : grow_env) (s : pool_mem)
    (mem size : Nat) (evs : List event)
    (h : (util_buf_grow_provision cfg env s mem size evs).1 ≠ 0) :
    (util_buf_grow_provision cfg env s mem size evs).1 = -1 ∧
    (util_buf_grow_provision cfg env s mem size evs).2.1 = s := by
  unfold util_buf_grow_provision at h ⊢
  simp only at h ⊢
  split_ifs at h ⊢ <;> simp_all [util_buf_grow_finish_ret]

theorem util_buf_grow_provision_succeeds (cfg : build_cfg) (env : grow_env) (s : pool_mem)
    (mem size : Nat) (evs : List event)
    (hh : s.pool.attr.alloc_hndlr = true → env.hndlr_ret = 0) (hr : env.realloc_ok = true) :
    (util_buf_grow_provision cfg env s mem size evs).1 = 0 := by
  unfold util_buf_grow_provision
  simp only
  split_ifs <;> simp_all [util_buf_grow_finish_ret]

theorem grow_added_of_table (cfg : build_cfg) (s s1 : pool_mem) (r : util_buf_region)
    (t : List (Option Nat)) (c : Nat)
    (h : grow_added cfg
      { s with pool := { s.pool with regions_table := t, regions_cnt := c } } s1 r) :
    grow_added cfg s s1 r :=
  ⟨h.1, h.2, h.3, h.4, h.5, h.6, h.7, h.8, h.9⟩

theorem util_buf_grow_provision_ok (cfg : build_cfg) (env : grow_env) (s : pool_mem)
    (mem size : Nat) (evs : List event)
    (h : (util_buf_grow_provision cfg env s mem size evs).1 = 0) :
    grow_added cfg s (util_buf_grow_provision cfg env s mem size evs).2.1
      (new_region s env mem size) ∧
    (util_buf_grow_provision cfg env s mem size evs).2.2.filter event.is_alloc_hndlr =
      evs.filter event.is_alloc_hndlr ++
        region_hook_call s.pool.attr (new_region s env mem size) := by
  unfold util_buf_grow_provision at h ⊢
  by_cases hk : s.pool.attr.alloc_hndlr = true
  · have hreg : new_region s env mem size =
        { mem_region := mem, size := size, context := env.hndlr_context, num_used := 0 } := by
      simp [new_region, hk]
    by_cases hr : env.hndlr_ret = 0
    · simp only [hk, hr, if_true, ne_eq, not_true_eq_false, if_false] at h ⊢
      rw [← hreg] at h ⊢
      split_ifs at h ⊢
      all_goals first
        | (exfalso; simp at h; done)
        | exact ⟨grow_added_of_table cfg s _ _ _ _ (util_buf_grow_finish_added cfg _ _ _ rfl),
            by rw [util_buf_grow_finish_events]
               simp [region_hook_call, hk, hreg, event.is_alloc_hndlr]⟩
    · simp [hk, hr] at h
  · have hreg : new_region s env mem size =
        { mem_region := mem, size := size, context := 0, num_used := 0 } := by
      simp [new_region, hk]
    simp only [hk, if_true, ne_eq, not_true_eq_false, if_false, Bool.false_eq_true] at h ⊢
    rw [← hreg] at h ⊢
    split_ifs at h ⊢
    all_goals first
      | (exfalso; simp at h)
      | exact ⟨grow_added_of_table cfg s _ _ _ _ (util_buf_grow_finish_added cfg _ _ _ rfl),
          by rw [util_buf_grow_finish_events]
             simp [region_hook_call, hk, event.is_alloc_hndlr]⟩

theorem util_buf_grow_memalign_fail (cfg : build_cfg) (env : grow_env) (s : pool_mem)
    (evs : List event) (h : (util_buf_grow_memalign cfg env s evs).1 ≠ 0) :
    (util_buf_grow_memalign cfg env s evs).1 = -1 ∧
    (util_buf_grow_memalign cfg env s evs).2.1 = s := by
  unfold util_buf_grow_memalign at h ⊢
  simp only at h ⊢
  split_ifs at h ⊢
  · exact ⟨rfl, rfl⟩
  · exact util_buf_grow_provision_fail cfg env s _ _ _ h

theorem util_buf_grow_memalign_ok (cfg : build_cfg) (env : grow_env) (s : pool_mem)
    (evs : List event) (h : (util_buf_grow_memalign cfg env s evs).1 = 0) :
    env.memalign_ret = 0 ∧
    grow_added cfg s (util_buf_grow_memalign cfg env s evs).2.1
      (new_region s env env.memalign_mem (s.pool.attr.chunk_cnt * s.pool.entry_sz)) ∧
    (util_buf_grow_memalign cfg env s evs).2.2.filter event.is_alloc_hndlr =
      evs.filter event.is_alloc_hndlr ++
        region_hook_call s.pool.attr
          (new_region s env env.memalign_mem (s.pool.attr.chunk_cnt * s.pool.entry_sz)) := by
  unfold util_buf_grow_memalign at h ⊢
  simp only at h ⊢
  split_ifs at h ⊢ with h1
  · simp at h
  · have := util_buf_grow_provision_ok cfg env s _ _ _ h
    refine ⟨by simpa using h1, this.1, ?_⟩
    rw [this.2]
    simp [event.is_alloc_hndlr]

theorem util_buf_grow_memalign_succeeds (cfg : build_cfg) (env : grow_env) (s : pool_mem)
    (evs : List event) (hm : env.memalign_ret = 0)
    (hh : s.pool.attr.alloc_hndlr = true → env.hndlr_ret = 0) (hr : env.realloc_ok = true) :
    (util_buf_grow_memalign cfg env s evs).1 = 0 := by
  unfold util_buf_grow_memalign
  simp only [hm, ne_eq, not_true_eq_false, if_false]
  exact util_buf_grow_provision_succeeds cfg env s _ _ _ hh hr

theorem util_buf_grow_limit (cfg : build_cfg) (env : grow_env) (s : pool_mem)
    (h1 : s.pool.attr.max_cnt ≠ 0) (h2 : s.pool.attr.max_cnt ≤ s.pool.num_allocated) :
    util_buf_grow cfg env s = (-1, s, []) := by
  unfold util_buf_grow
  simp only
  rw [if_pos ⟨h1, h2⟩]

theorem util_buf_grow_fail (cfg : build_cfg) (env : grow_env) (s : pool_mem)
    (h : (util_buf_grow cfg env s).1 ≠ 0) :
    (util_buf_grow cfg env s).1 = -1 ∧
    ∃ b, (util_buf_grow cfg env s).2.1 = with_mmap s b := by
  unfold util_buf_grow at h ⊢
  simp only at h ⊢
  split_ifs at h ⊢
  · exact ⟨rfl, _, (with_mmap_self s).symm⟩
  · exact ⟨rfl, _, (with_mmap_self s).symm⟩
  · exact ⟨rfl, _, (with_mmap_self s).symm⟩
  · exact ⟨rfl, _, (with_mmap_self s).symm⟩
  · have := util_buf_grow_memalign_fail cfg env _ _ h
    exact ⟨this.1, false, this.2⟩
  · have := util_buf_grow_provision_fail cfg env _ _ _ _ h
    exact ⟨this.1, _, this.2.trans (with_mmap_self s).symm⟩
  · have := util_buf_grow_memalign_fail cfg env _ _ h
    exact ⟨this.1, _, this.2.trans (with_mmap_self s).symm⟩

theorem util_buf_grow_ok (cfg : build_cfg) (env : grow_env) (s : pool_mem)
    (h : (util_buf_grow cfg env s).1 = 0) :
    (s.pool.attr.max_cnt = 0 ∨ s.pool.num_allocated < s.pool.attr.max_cnt) ∧
    ∃ b mem size,
      ((env.hugepage_ret = 0 ∧ mem = env.hugepage_mem) ∨
       (env.memalign_ret = 0 ∧ mem = env.memalign_mem)) ∧
      grow_added cfg (with_mmap s b) (util_buf_grow cfg env s).2.1
        (new_region s env mem size) ∧
      (util_buf_grow cfg env s).2.2.filter event.is_alloc_hndlr =
        region_hook_call s.pool.attr (new_region s env mem size) := by
  unfold util_buf_grow at h ⊢
  simp only at h ⊢
  split_ifs at h ⊢ with h1 h2 h3 h4 h5 h6
  · simp at h
  · simp at h
  · simp at h
  · simp at h
  · have := util_buf_grow_memalign_ok cfg env _ _ h
    refine ⟨by omega, false, _, _, Or.inr ⟨this.1, rfl⟩, this.2.1, ?_⟩
    rw [this.2.2]
    simp [event.is_alloc_hndlr]
    rfl
  · have := util_buf_grow_provision_ok cfg env _ _ _ _ h
    refine ⟨by omega, s.pool.attr.is_mmap_region, _, _,
      Or.inl ⟨by simpa using h5, rfl⟩, this.1, ?_⟩
    rw [this.2]
    simp [event.is_alloc_hndlr]
  · have := util_buf_grow_memalign_ok cfg env _ _ h
    refine ⟨by omega, s.pool.attr.is_mmap_region, _, _, Or.inr ⟨this.1, rfl⟩, this.2.1, ?_⟩
    rw [this.2.2]
    simp [event.is_alloc_hndlr]

theorem util_buf_grow_succeeds (cfg : build_cfg) (env : grow_env) (s : pool_mem)
    (hok : grow_env_ok env)
    (hmax : s.pool.attr.max_cnt = 0 ∨ s.pool.num_allocated < s.pool.attr.max_cnt) :
    (util_buf_grow cfg env s).1 = 0 := by
  obtain ⟨hc, hhp, hhr, _, hmr, _, hh, hre⟩ := hok
  unfold util_buf_grow
  simp only
  split_ifs with h1 h2 h3 h4 h5 h6
  · omega
  · simp [hc] at h2
  · omega
  · exact absurd hhr h5
  · exact absurd hhr h5
  · exact util_buf_grow_provision_succeeds cfg env s _ _ _ (fun _ => hh) hre
  · exact util_buf_grow_memalign_succeeds cfg env s _ hmr (fun _ => hh) hre

/-! ## `util_buf_get`, `util_buf_alloc` and pool creation -/

/-- In a region whose buffers hold link and footer, no link store into a buffer of
the region reaches a footer of the region. -/
theorem region_link_misses_footer (pool : util_buf_pool) (hg : ftr_fits pool)
    (mem i j : Nat) :
    link_hits (region_buf pool mem j) (util_buf_ftr_addr pool (region_buf pool mem i)) =
      false := by
  obtain ⟨h1, h2⟩ := hg
  simp only [link_hits, region_buf, util_buf_ftr_addr, sizeof_slist_entry,
    sizeof_util_buf_footer, decide_eq_false_iff_not, not_and, not_lt] at h1 h2 ⊢
  intro hlt
  rcases Nat.lt_or_ge i j with hij | hij
  · have := Nat.mul_le_mul_right pool.entry_sz (Nat.succ_le_of_lt hij)
    rw [Nat.succ_mul] at this
    omega
  · have := Nat.mul_le_mul_right pool.entry_sz hij
    omega

theorem map_region_geom_set (l : List util_buf_region) (k : Nat) (r : util_buf_region)
    (n : Nat) (h : l[k]? = some r) :
    (l.set k { r with num_used := n }).map region_geom = l.map region_geom := by
  apply List.ext_getElem?
  intro i
  simp only [List.getElem?_map, List.getElem?_set]
  by_cases hik : k = i
  · subst hik
    have hlt : k < l.length := by
      rcases Nat.lt_or_ge k l.length with h1 | h1
      · exact h1
      · rw [List.getElem?_eq_none h1] at h; cases h
    simp [hlt, h, region_geom]
  · simp [hik]

theorem util_buf_get_took (cfg : build_cfg) (s s1 : pool_mem) (b : Nat)
    (h : util_buf_get cfg s = some (b, s1)) : took_buf s s1 b := by
  unfold util_buf_get slist_remove_head at h
  cases hl : s.pool.buf_list with
  | nil => simp [hl] at h
  | cons x rest =>
    simp only [hl] at h
    split_ifs at h with hd
    · unfold util_buf_ftr_region at h
      simp only at h
      split at h
      · cases h
      · rename_i k r hkr
        split at hkr
        · cases hkr
        · split at hkr
          · cases hkr
          · rename_i f hf r0 hr0
            simp only [Option.some.injEq, Prod.mk.injEq] at hkr h
            obtain ⟨rfl, rfl⟩ := hkr
            obtain ⟨rfl, rfl⟩ := h
            exact ⟨hl, rfl, rfl, rfl, rfl, rfl, rfl, map_region_geom_set _ _ _ _ hr0⟩
    · simp only [Option.some.injEq, Prod.mk.injEq] at h
      obtain ⟨rfl, rfl⟩ := h
      exact ⟨hl, rfl, rfl, rfl, rfl, rfl, rfl, rfl⟩

theorem util_buf_get_some (cfg : build_cfg) (s : pool_mem) (b : Nat) (rest : List Nat)
    (hl : s.pool.buf_list = b :: rest) (hf : ftr_ok cfg s) :
    ∃ s1, util_buf_get cfg s = some (b, s1) := by
  unfold util_buf_get slist_remove_head
  simp only [hl]
  by_cases hd : cfg.debug = true
  · obtain ⟨f, hf1, hf2⟩ := hf hd b (by simp [hl])
    obtain ⟨r, hr⟩ : ∃ r, s.pool.region_list[f.region]? = some r :=
      ⟨_, List.getElem?_eq_getElem hf2⟩
    simp only [hd, if_true, util_buf_ftr_region]
    have hf1' : s.footers (util_buf_ftr_addr
        { s.pool with buf_list := rest } b) = some f := hf1
    simp only [hf1', hr]
    exact ⟨_, rfl⟩
  · simp only [hd, Bool.false_eq_true, if_false]
    exact ⟨_, rfl⟩

theorem took_buf_ftr_ok (cfg : build_cfg) (s s1 : pool_mem) (b : Nat)
    (h : took_buf s s1 b) (hf : ftr_ok cfg s) : ftr_ok cfg s1 := by
  intro hd x hx
  obtain ⟨f, hf1, hf2⟩ := hf hd x (by rw [h.buf_list]; simp [hx])
  refine ⟨f, ?_, ?_⟩
  · rw [h.footers]
    simpa [util_buf_ftr_addr, h.attr] using hf1
  · have := congrArg List.length h.geom
    simp only [List.length_map] at this
    omega

theorem util_buf_alloc_avail (cfg : build_cfg) (env : grow_env) (s s1 : pool_mem) (b : Nat)
    (h : util_buf_get cfg s = some (b, s1)) (ha : s.pool.buf_list ≠ []) :
    util_buf_alloc cfg env s = some (b, s1, []) := by
  unfold util_buf_alloc
  have : util_buf_avail s = true := by
    simp [util_buf_avail, slist_empty, ha]
  simp [this, h]

theorem util_buf_alloc_empty (cfg : build_cfg) (env : grow_env) (s : pool_mem)
    (ha : s.pool.buf_list = []) :
    util_buf_alloc cfg env s =
      if (util_buf_grow cfg env s).1 ≠ 0 then
        some (0, (util_buf_grow cfg env s).2.1,
          [{ ret := (util_buf_grow cfg env s).1, events := (util_buf_grow cfg env s).2.2 }])
      else
        match util_buf_get cfg (util_buf_grow cfg env s).2.1 with
        | none => none
        | some (buf, s1) =>
          some (buf, s1,
            [{ ret := (util_buf_grow cfg env s).1, events := (util_buf_grow cfg env s).2.2 }]) := by
  unfold util_buf_alloc
  have : util_buf_avail s = false := by
    simp [util_buf_avail, slist_empty, ha]
  simp only [this, Bool.not_false, if_true]

theorem util_buf_alloc_seq_avail (cfg : build_cfg) (envs : List grow_env) (s : pool_mem)
    (hlen : envs.length ≤ s.pool.buf_list.length) (hf : ftr_ok cfg s) :
    ∃ s1, util_buf_alloc_seq cfg envs s = some (s.pool.buf_list.take envs.length, s1, []) ∧
      s1.pool.buf_list = s.pool.buf_list.drop envs.length ∧
      s1.footers = s.footers ∧ s1.pool.attr = s.pool.attr ∧
      s1.pool.entry_sz = s.pool.entry_sz ∧
      s1.pool.num_allocated = s.pool.num_allocated ∧
      s1.pool.region_list.map region_geom = s.pool.region_list.map region_geom ∧
      ftr_ok cfg s1 := by
  induction envs generalizing s with
  | nil => exact ⟨s, by simp [util_buf_alloc_seq], by simp, rfl, rfl, rfl, rfl, rfl, hf⟩
  | cons env envs ih =>
    cases hl : s.pool.buf_list with
    | nil => simp [hl] at hlen
    | cons b rest =>
      obtain ⟨s1, hg⟩ := util_buf_get_some cfg s b rest hl hf
      have ht := util_buf_get_took cfg s s1 b hg
      have hrest : s1.pool.buf_list = rest := by
        have := ht.buf_list; rw [hl] at this; simpa using this.symm
      have ha := util_buf_alloc_avail cfg env s s1 b hg (by simp [hl])
      obtain ⟨s2, h1, h2, h3, h4, h5, h6, h7, h8⟩ := ih s1
        (by rw [hrest]; simp [hl] at hlen; omega) (took_buf_ftr_ok cfg s s1 b ht hf)
      refine ⟨s2, ?_, ?_, ?_, ?_, ?_, ?_, ?_, h8⟩
      · simp [util_buf_alloc_seq, ha, h1, hrest]
      · simp [h2, hrest]
      · rw [h3, ht.footers]
      · rw [h4, ht.attr]
      · rw [h5, ht.entry_sz]
      · rw [h6, ht.num_allocated]
      · rw [h7, ht.geom]

theorem grow_added_ftr_ok (cfg : build_cfg) (s s1 : pool_mem) (r : util_buf_region)
    (h : grow_added cfg s s1 r) (he : s.pool.buf_list = [])
    (hg : cfg.debug = true → ftr_fits s.pool) : ftr_ok cfg s1 := by
  intro hd x hx
  rw [h.buf_list, he] at hx
  simp only [List.nil_append, List.mem_map, List.mem_range] at hx
  obtain ⟨i, hi, rfl⟩ := hx
  obtain ⟨j, _, _, hf⟩ := h.ftr_new (by simp [util_buf_use_ftr, hd]) i hi
    (fun j _ => region_link_misses_footer s.pool (hg hd) r.mem_region i j)
    (fun t ht => by simp [he] at ht)
  refine ⟨{ region := s.pool.region_list.length, index := s.pool.num_allocated + j }, ?_, ?_⟩
  · simpa [util_buf_ftr_addr, h.attr] using hf
  · simp [h.region_list]

theorem util_buf_pool_create_attr_state (cfg : build_cfg) (env : create_env)
    (attr : util_buf_attr) (s0 : pool_mem) (log : List grow_call)
    (h : util_buf_pool_create_attr cfg env attr = (0, some s0, log)) :
    ∃ b mem size,
      ((env.grow.hugepage_ret = 0 ∧ mem = env.grow.hugepage_mem) ∨
       (env.grow.memalign_ret = 0 ∧ mem = env.grow.memalign_mem)) ∧
      grow_added cfg
        (with_mmap { pool := util_buf_pool_create_init cfg env.hp_size attr,
                     footers := fun _ => none } b)
        s0
        (new_region { pool := util_buf_pool_create_init cfg env.hp_size attr,
                      footers := fun _ => none } env.grow mem size) ∧
      log = [{ ret := 0, events := (util_buf_grow cfg env.grow
        { pool := util_buf_pool_create_init cfg env.hp_size attr,
          footers := fun _ => none }).2.2 }] ∧
      (util_buf_grow cfg env.grow
        { pool := util_buf_pool_create_init cfg env.hp_size attr,
          footers := fun _ => none }).2.2.filter event.is_alloc_hndlr =
        region_hook_call attr
          (new_region { pool := util_buf_pool_create_init cfg env.hp_size attr,
                        footers := fun _ => none } env.grow mem size) := by
  unfold util_buf_pool_create_attr at h
  simp only at h
  split_ifs at h with h1 h2
  · simp [FI_ENOMEM] at h
  · simp [FI_ENOMEM] at h
  · simp only [Prod.mk.injEq, Option.some.injEq, true_and] at h
    obtain ⟨rfl, rfl⟩ := h
    have h0 : (util_buf_grow cfg env.grow
        { pool := util_buf_pool_create_init cfg env.hp_size attr,
          footers := fun _ => none }).1 = 0 := by simpa using h2
    obtain ⟨_, b, mem, size, hm, hadd, hev⟩ := util_buf_grow_ok cfg env.grow _ h0
    refine ⟨b, mem, size, hm, hadd, ?_, ?_⟩
    · rw [h0]
    · rw [hev]; rfl

theorem util_buf_pool_create_attr_succeeds (cfg : build_cfg) (env : create_env)
    (attr : util_buf_attr) (hc : env.calloc_ok = true) (hok : grow_env_ok env.grow) :
    ∃ s0 log, util_buf_pool_create_attr cfg env attr = (0, some s0, log) := by
  have h0 := util_buf_grow_succeeds cfg env.grow
    { pool := util_buf_pool_create_init cfg env.hp_size attr, footers := fun _ => none } hok
    (by
      simp only [util_buf_pool_create_init]
      omega)
  unfold util_buf_pool_create_attr
  simp only [hc, Bool.not_true, Bool.false_eq_true, if_false, h0, ne_eq, not_true_eq_false]
  exact ⟨_, _, rfl⟩

/-! ## Index lookup, growth trigger, capacity limit and failed growth -/

/-- C1 (evaluation of the code): in a footer-enabled pool with two buffers per
region, the buffers of the first region (4096 and 4176) are found again through
their indices 0 and 1, but the third allocated buffer (8192, first buffer of the
second region) carries index 2 and the lookup of index 2 has no defined result: it
reads slot 1 of the reverse table, which was never written, `regions_cnt` being
still 1 with two regions in the list. The same holds in the debug build. -/
theorem util_buf_get_by_index_second_region :
    index_scenario false =
      some ([(4096, some 0, some 4096), (4176, some 1, some 4176), (8192, some 2, none)],
        1, 2, some none) ∧
    index_scenario true =
      some ([(4096, some 0, some 4096), (4176, some 1, some 4176), (8192, some 2, none)],
        1, 2, some none) :=
  ⟨rfl, rfl⟩

theorem create_init_buf_list (cfg : build_cfg) (hp : Int) (attr : util_buf_attr) (b : Bool) :
    (with_mmap { pool := util_buf_pool_create_init cfg hp attr,
                 footers := fun _ => none } b).pool.buf_list = [] := rfl

theorem region_buf_zero (pool : util_buf_pool) (mem : Nat) : region_buf pool mem 0 = mem := by
  simp [region_buf]

theorem grow_env_ok_mem (env : grow_env) (hok : grow_env_ok env) (mem : Nat)
    (h : (env.hugepage_ret = 0 ∧ mem = env.hugepage_mem) ∨
         (env.memalign_ret = 0 ∧ mem = env.memalign_mem)) : mem ≠ 0 := by
  obtain ⟨_, _, _, h1, _, h2, _, _⟩ := hok
  rcases h with ⟨_, rfl⟩ | ⟨_, rfl⟩
  · exact h1
  · exact h2

/-- State after a successful `util_buf_grow` on a pool without free buffers,
followed by `util_buf_get`. -/
theorem util_buf_alloc_grows (cfg : build_cfg) (env : grow_env) (s : pool_mem)
    (he : s.pool.buf_list = []) (hc : 0 < s.pool.attr.chunk_cnt)
    (hg : cfg.debug = true → ftr_fits s.pool)
    (h0 : (util_buf_grow cfg env s).1 = 0) :
    ∃ b s2 call mem,
      util_buf_alloc cfg env s = some (b, s2, [call]) ∧ call.ret = 0 ∧ b = mem ∧
      ((env.hugepage_ret = 0 ∧ mem = env.hugepage_mem) ∨
       (env.memalign_ret = 0 ∧ mem = env.memalign_mem)) ∧
      s2.pool.num_allocated = s.pool.num_allocated + s.pool.attr.chunk_cnt := by
  obtain ⟨_, b, mem, size, hm, hadd, _⟩ := util_buf_grow_ok cfg env s h0
  have hbl : (util_buf_grow cfg env s).2.1.pool.buf_list =
      region_buf (with_mmap s b).pool mem 0 ::
        (List.range' 1 (s.pool.attr.chunk_cnt - 1)).map (region_buf (with_mmap s b).pool mem) := by
    rw [hadd.buf_list]
    show s.pool.buf_list ++ _ = _
    rw [he, List.nil_append]
    obtain ⟨n, hn⟩ : ∃ n, s.pool.attr.chunk_cnt = n + 1 := ⟨s.pool.attr.chunk_cnt - 1, by omega⟩
    show (List.range s.pool.attr.chunk_cnt).map _ = _
    rw [hn, List.range_eq_range', List.range'_succ]
    simp [new_region]
  have hf : ftr_ok cfg (util_buf_grow cfg env s).2.1 :=
    grow_added_ftr_ok cfg _ _ _ hadd he hg
  obtain ⟨s2, hg⟩ := util_buf_get_some cfg _ _ _ hbl hf
  have ht := util_buf_get_took cfg _ _ _ hg
  refine ⟨region_buf (with_mmap s b).pool mem 0, s2,
    { ret := (util_buf_grow cfg env s).1, events := (util_buf_grow cfg env s).2.2 }, mem,
    ?_, ?_, region_buf_zero _ _, hm, ?_⟩
  · rw [util_buf_alloc_empty cfg env s he, if_neg (by simp [h0]), hg]
  · exact h0
  · rw [ht.num_allocated, hadd.num_allocated]
    rfl

theorem example_aligned_sz_ge (x a : Nat) : x ≤ example_aligned_sz x a := by
  unfold example_aligned_sz
  split_ifs with h
  · exact le_refl x
  · have h1 := Nat.div_add_mod (x + a - 1) a
    have h2 := Nat.mod_lt (x + a - 1) (Nat.pos_of_ne_zero h)
    rw [Nat.mul_comm] at h1
    omega

theorem create_init_ftr_fits (cfg : build_cfg) (hp : Int) (attr : util_buf_attr)
    (hal : ∀ x a, 0 < a → x ≤ cfg.fi_get_aligned_sz x a) (halign : 0 < attr.alignment)
    (hsz : sizeof_slist_entry ≤ attr.size)
    (hon : util_buf_use_ftr cfg (util_buf_pool_create_init cfg hp attr) = true) :
    ftr_fits (util_buf_pool_create_init cfg hp attr) := by
  refine ⟨hsz, ?_⟩
  have hon' : util_buf_use_ftr cfg
      { entry_sz := 0, num_allocated := 0, buf_list := [], region_list := [],
        regions_table := [], regions_cnt := 0, attr := attr } = true := hon
  simp only [util_buf_pool_create_init, hon', if_true]
  exact hal _ _ halign

/-- State right after a successful creation. -/
theorem util_buf_pool_create_attr_fresh (cfg : build_cfg) (env : create_env)
    (attr : util_buf_attr) (s0 : pool_mem) (log : List grow_call)
    (h : util_buf_pool_create_attr cfg env attr = (0, some s0, log))
    (hg : cfg.debug = true → ftr_fits (util_buf_pool_create_init cfg env.hp_size attr)) :
    ∃ mem,
      ((env.grow.hugepage_ret = 0 ∧ mem = env.grow.hugepage_mem) ∨
       (env.grow.memalign_ret = 0 ∧ mem = env.grow.memalign_mem)) ∧
      s0.pool.buf_list = (List.range attr.chunk_cnt).map (region_buf s0.pool mem) ∧
      s0.pool.num_allocated = attr.chunk_cnt ∧
      s0.pool.attr.chunk_cnt = attr.chunk_cnt ∧
      s0.pool.attr.max_cnt = attr.max_cnt ∧
      s0.pool.attr.size = attr.size ∧
      s0.pool.entry_sz = (util_buf_pool_create_init cfg env.hp_size attr).entry_sz ∧
      ftr_ok cfg s0 := by
  obtain ⟨b, mem, size, hm, hadd, _, _⟩ :=
    util_buf_pool_create_attr_state cfg env attr s0 log h
  refine ⟨mem, hm, ?_, ?_, ?_, ?_, by rw [hadd.attr]; rfl, by rw [hadd.entry_sz]; rfl,
    grow_added_ftr_ok cfg _ _ _ hadd rfl hg⟩
  · rw [hadd.buf_list]
    simp only [create_init_buf_list, List.nil_append]
    apply List.map_congr_left
    intro i _
    simp only [region_buf, hadd.entry_sz]
    rfl
  · rw [hadd.num_allocated]
    simp [with_mmap, util_buf_pool_create_init]
  · rw [hadd.attr]; rfl
  · rw [hadd.attr]; rfl

/-- C2: a pool created with chunk_cnt = c > 0 and max_cnt = 0, whose buffers are
large enough for the list link that union util_buf overlays on them
(attr.size >= sizeof(struct slist_entry)) and whose alignment is not 0, the
alignment helper returning at least the size it is given, with all allocations and
hooks succeeding: creation succeeds; any number of up to c calls of
util_buf_alloc return non-NULL buffers without invoking util_buf_grow and leave
num_allocated = c; after exactly c calls, the next call invokes util_buf_grow
exactly once, with result 0, returns a non-NULL buffer and leaves
num_allocated = 2c. -/
theorem util_buf_alloc_growth_trigger (cfg : build_cfg) (cenv : create_env)
    (attr : util_buf_attr) (envs : List grow_env) (env : grow_env)
    (hal : ∀ x a, 0 < a → x ≤ cfg.fi_get_aligned_sz x a)
    (halign : 0 < attr.alignment) (hsz : sizeof_slist_entry ≤ attr.size)
    (hc : 0 < attr.chunk_cnt) (hmax : attr.max_cnt = 0)
    (hcal : cenv.calloc_ok = true) (hok0 : grow_env_ok cenv.grow)
    (hlen : envs.length ≤ attr.chunk_cnt) (hok : grow_env_ok env) :
    ∃ s0 log0 bufs s1,
      util_buf_pool_create_attr cfg cenv attr = (0, some s0, log0) ∧
      util_buf_alloc_seq cfg envs s0 = some (bufs, s1, []) ∧
      bufs.length = envs.length ∧ (∀ x ∈ bufs, x ≠ 0) ∧
      s1.pool.num_allocated = attr.chunk_cnt ∧
      (envs.length = attr.chunk_cnt →
        ∃ b s2 call,
          util_buf_alloc cfg env s1 = some (b, s2, [call]) ∧ call.ret = 0 ∧ b ≠ 0 ∧
          s2.pool.num_allocated = 2 * attr.chunk_cnt) := by
  obtain ⟨s0, log0, hcr⟩ := util_buf_pool_create_attr_succeeds cfg cenv attr hcal hok0
  have hfit : cfg.debug = true →
      ftr_fits (util_buf_pool_create_init cfg cenv.hp_size attr) := fun hd =>
    create_init_ftr_fits cfg cenv.hp_size attr hal halign hsz (by simp [util_buf_use_ftr, hd])
  obtain ⟨mem, hm, hbl, hna, hcc, hmc, hs0, he0, hf⟩ :=
    util_buf_pool_create_attr_fresh cfg cenv attr s0 log0 hcr hfit
  have hmem : mem ≠ 0 := grow_env_ok_mem _ hok0 mem hm
  have hlen0 : s0.pool.buf_list.length = attr.chunk_cnt := by simp [hbl]
  obtain ⟨s1, h1, h2, _, h4, h5, h6, _, _⟩ :=
    util_buf_alloc_seq_avail cfg envs s0 (by omega) hf
  refine ⟨s0, log0, _, s1, hcr, h1, ?_, ?_, ?_, ?_⟩
  · simp; omega
  · intro x hx
    have hx' := List.mem_of_mem_take hx
    rw [hbl] at hx'
    simp only [List.mem_map, List.mem_range] at hx'
    obtain ⟨i, _, rfl⟩ := hx'
    simp only [region_buf]
    omega
  · rw [h6, hna]
  · intro hfull
    have he : s1.pool.buf_list = [] := by
      rw [h2]; exact List.drop_eq_nil_of_le (by omega)
    have hg0 := util_buf_grow_succeeds cfg env s1 hok (Or.inl (by rw [h4, hmc, hmax]))
    obtain ⟨b, s2, call, mem2, ha, hr, hb, hm2, hn2⟩ :=
      util_buf_alloc_grows cfg env s1 he (by rw [h4, hcc]; exact hc)
        (fun hd => by
          have := hfit hd
          exact ⟨by rw [h4, hs0]; exact this.1, by rw [h4, hs0, h5, he0]; exact this.2⟩)
        hg0
    refine ⟨b, s2, call, ha, hr, ?_, ?_⟩
    · rw [hb]; exact grow_env_ok_mem _ hok mem2 hm2
    · rw [hn2, h6, hna, h4, hcc]; omega

theorem util_buf_alloc_growth_trigger_witness :
    ∃ s0 log0 bufs s1,
      util_buf_pool_create_attr (example_cfg true) example_create_env
        (example_attr 0 4 true) = (0, some s0, log0) ∧
      util_buf_alloc_seq (example_cfg true)
        [example_env 8192 12, example_env 8192 12, example_env 8192 12, example_env 8192 12] s0 =
          some (bufs, s1, []) ∧
      bufs.length = 4 ∧ (∀ x ∈ bufs, x ≠ 0) ∧
      s1.pool.num_allocated = 4 ∧
      ((4 : Nat) = 4 →
        ∃ b s2 call,
          util_buf_alloc (example_cfg true) (example_env 8192 12) s1 = some (b, s2, [call]) ∧
          call.ret = 0 ∧ b ≠ 0 ∧ s2.pool.num_allocated = 2 * 4) :=
  util_buf_alloc_growth_trigger (example_cfg true) example_create_env (example_attr 0 4 true)
    [example_env 8192 12, example_env 8192 12, example_env 8192 12, example_env 8192 12] (example_env 8192 12)
    (fun x a _ => example_aligned_sz_ge x a) (by decide) (by decide)
    (by decide) rfl rfl (by simp [grow_env_ok, example_create_env, example_env])
    (by decide) (by simp [grow_env_ok, example_env])

/-- C3: when max_cnt is set and num_allocated has reached it, util_buf_grow returns
-1 without any call to the outside and without changing the pool, and
util_buf_alloc on such a pool without free buffers returns NULL; in particular, for
a pool created with chunk_cnt = max_cnt = 4 (in a debug build: one whose buffers
hold the list link in front of the footer, the footer ending inside the stride),
four calls of util_buf_alloc succeed without growing and the fifth returns NULL. -/
theorem util_buf_grow_refused_at_max_cnt (cfg : build_cfg) :
    (∀ (env : grow_env) (s : pool_mem),
      s.pool.attr.max_cnt ≠ 0 → s.pool.attr.max_cnt ≤ s.pool.num_allocated →
      util_buf_grow cfg env s = (-1, s, []) ∧
      (util_buf_avail s = false →
        util_buf_alloc cfg env s = some (0, s, [{ ret := -1, events := [] }]))) ∧
    (∀ (cenv : create_env) (attr : util_buf_attr) (s0 : pool_mem) (log0 : List grow_call)
      (e1 e2 e3 e4 e5 : grow_env),
      attr.chunk_cnt = 4 → attr.max_cnt = 4 →
      (cfg.debug = true → ftr_fits (util_buf_pool_create_init cfg cenv.hp_size attr)) →
      util_buf_pool_create_attr cfg cenv attr = (0, some s0, log0) →
      ∃ bufs s4,
        util_buf_alloc_seq cfg [e1, e2, e3, e4] s0 = some (bufs, s4, []) ∧
        bufs.length = 4 ∧
        util_buf_alloc cfg e5 s4 = some (0, s4, [{ ret := -1, events := [] }])) := by
  have part1 : ∀ (env : grow_env) (s : pool_mem),
      s.pool.attr.max_cnt ≠ 0 → s.pool.attr.max_cnt ≤ s.pool.num_allocated →
      util_buf_grow cfg env s = (-1, s, []) ∧
      (util_buf_avail s = false →
        util_buf_alloc cfg env s = some (0, s, [{ ret := -1, events := [] }])) := by
    intro env s h1 h2
    have hg := util_buf_grow_limit cfg env s h1 h2
    refine ⟨hg, ?_⟩
    intro ha
    have he : s.pool.buf_list = [] := by
      simpa [util_buf_avail, slist_empty] using ha
    rw [util_buf_alloc_empty cfg env s he, hg]
    simp
  refine ⟨part1, ?_⟩
  intro cenv attr s0 log0 e1 e2 e3 e4 e5 hc hm hfit hcr
  obtain ⟨mem, _, hbl, hna, hcc, hmc, _, _, hf⟩ :=
    util_buf_pool_create_attr_fresh cfg cenv attr s0 log0 hcr hfit
  have hlen0 : s0.pool.buf_list.length = 4 := by simp [hbl, hc]
  obtain ⟨s4, h1, h2, _, h4, _, h6, _, _⟩ :=
    util_buf_alloc_seq_avail cfg [e1, e2, e3, e4] s0 (by simp [hlen0]) hf
  have he : s4.pool.buf_list = [] := by
    rw [h2]; exact List.drop_eq_nil_of_le (by simp [hlen0])
  refine ⟨_, s4, h1, by simp [hlen0], ?_⟩
  exact (part1 e5 s4 (by rw [h4, hmc, hm]; decide)
    (by rw [h4, hmc, hm, h6, hna, hc])).2 (by simp [util_buf_avail, slist_empty, he])

theorem util_buf_grow_refused_at_max_cnt_witness :
    ∃ bufs s4,
      (util_buf_pool_create_attr (example_cfg true) example_create_env
        (example_attr 4 4 false)).2.1.bind
        (fun s0 => util_buf_alloc_seq (example_cfg true)
          [example_env 8192 12, example_env 8192 12, example_env 8192 12, example_env 8192 12] s0)
        = some (bufs, s4, []) ∧
      bufs.length = 4 ∧
      util_buf_alloc (example_cfg true) (example_env 8192 12) s4 =
        some (0, s4, [{ ret := -1, events := [] }]) := by
  obtain ⟨bufs, s4, h1, h2, h3⟩ :=
    (util_buf_grow_refused_at_max_cnt (example_cfg true)).2 example_create_env
      (example_attr 4 4 false) _ _
      (example_env 8192 12) (example_env 8192 12) (example_env 8192 12) (example_env 8192 12)
      (example_env 8192 12) rfl rfl (fun _ => ⟨by decide, by decide⟩) rfl
  exact ⟨bufs, s4, h1, h2, h3⟩

/-- C4: whenever util_buf_grow returns failure, its result is -1 and num_allocated,
the free-buffer list, the region list, the reverse table, regions_cnt, the entry
size and the stored footers are as before the call; when it returns 0,
num_allocated has grown by exactly chunk_cnt; so num_allocated changes only on
success. -/
theorem util_buf_grow_failure_keeps_pool (cfg : build_cfg) (env : grow_env) (s : pool_mem) :
    ((util_buf_grow cfg env s).1 ≠ 0 →
      (util_buf_grow cfg env s).1 = -1 ∧
      (util_buf_grow cfg env s).2.1.pool.num_allocated = s.pool.num_allocated ∧
      (util_buf_grow cfg env s).2.1.pool.buf_list = s.pool.buf_list ∧
      (util_buf_grow cfg env s).2.1.pool.region_list = s.pool.region_list ∧
      (util_buf_grow cfg env s).2.1.pool.regions_table = s.pool.regions_table ∧
      (util_buf_grow cfg env s).2.1.pool.regions_cnt = s.pool.regions_cnt ∧
      (util_buf_grow cfg env s).2.1.pool.entry_sz = s.pool.entry_sz ∧
      (util_buf_grow cfg env s).2.1.footers = s.footers) ∧
    ((util_buf_grow cfg env s).1 = 0 →
      (util_buf_grow cfg env s).2.1.pool.num_allocated =
        s.pool.num_allocated + s.pool.attr.chunk_cnt) ∧
    ((util_buf_grow cfg env s).2.1.pool.num_allocated ≠ s.pool.num_allocated →
      (util_buf_grow cfg env s).1 = 0) := by
  have hfail : (util_buf_grow cfg env s).1 ≠ 0 →
      (util_buf_grow cfg env s).1 = -1 ∧
      (util_buf_grow cfg env s).2.1.pool.num_allocated = s.pool.num_allocated ∧
      (util_buf_grow cfg env s).2.1.pool.buf_list = s.pool.buf_list ∧
      (util_buf_grow cfg env s).2.1.pool.region_list = s.pool.region_list ∧
      (util_buf_grow cfg env s).2.1.pool.regions_table = s.pool.regions_table ∧
      (util_buf_grow cfg env s).2.1.pool.regions_cnt = s.pool.regions_cnt ∧
      (util_buf_grow cfg env s).2.1.pool.entry_sz = s.pool.entry_sz ∧
      (util_buf_grow cfg env s).2.1.footers = s.footers := by
    intro h
    obtain ⟨h1, b, h2⟩ := util_buf_grow_fail cfg env s h
    rw [h2]
    exact ⟨h1, rfl, rfl, rfl, rfl, rfl, rfl, rfl⟩
  refine ⟨hfail, ?_, ?_⟩
  · intro h
    obtain ⟨_, b, mem, size, _, hadd, _⟩ := util_buf_grow_ok cfg env s h
    rw [hadd.num_allocated]
    rfl
  · intro hne
    by_contra h
    exact hne (hfail h).2.1

/-! ## Free stacks -/

theorem mem_write_same (mem : Int → Int) (a v : Int) : mem_write mem a v a = v := by
  simp [mem_write]

theorem mem_write_other (mem : Int → Int) {a b : Int} (v : Int) (h : b ≠ a) :
    mem_write mem a v b = mem b := by
  simp [mem_write, h]

theorem freestack_get_next_user_buf (e : Int) :
    freestack_get_next (freestack_get_user_buf e) = e := by
  simp [freestack_get_next, freestack_get_user_buf]

theorem freestack_get_user_buf_next (p : Int) :
    freestack_get_user_buf (freestack_get_next p) = p := by
  simp [freestack_get_next, freestack_get_user_buf]

theorem freestack_chain_congr (m1 m2 : Int → Int) (fuel : Nat) (head : Int)
    (h : ∀ e ∈ freestack_chain m1 fuel head, m2 e = m1 e) :
    freestack_chain m2 fuel head = freestack_chain m1 fuel head := by
  induction fuel generalizing head with
  | zero => rfl
  | succ n ih =>
    unfold freestack_chain
    by_cases hh : head = FREESTACK_EMPTY
    · simp [hh]
    · have h1 : m2 head = m1 head := h head (by simp [freestack_chain, hh])
      simp only [hh, if_false, h1]
      congr 1
      apply ih
      intro e he
      apply h
      simp [freestack_chain, hh, he]

theorem freestack_push_eq (debug : Bool) (fs : freestack) (p : Int)
    (h : debug = true → fs.mem (freestack_get_next p) = 0) :
    freestack_push debug fs p =
      some { fs with
             mem := mem_write fs.mem (freestack_get_next p) fs.next,
             next := freestack_get_next p } := by
  cases debug with
  | false => simp [freestack_push]
  | true => simp [freestack_push, h rfl]

theorem freestack_pop_eq (debug : Bool) (fs : freestack) (h : fs.next ≠ 0) :
    freestack_pop debug fs =
      some (freestack_get_user_buf fs.next,
        { fs with
          next := fs.mem fs.next,
          mem := if debug then mem_write fs.mem fs.next 0 else fs.mem }) := by
  cases debug <;>
    simp [freestack_pop, freestack_pop_impl, freestack_isempty, FREESTACK_EMPTY, h]

theorem freestack_push_push_pop_pop (debug : Bool) (fs : freestack) (A B : Int)
    (hAB : A ≠ B)
    (hA : freestack_get_next A ≠ 0) (hB : freestack_get_next B ≠ 0)
    (hdbg : debug = true →
      fs.mem (freestack_get_next A) = 0 ∧ fs.mem (freestack_get_next B) = 0) :
    ∃ fs1 fs2 fs3 fs4,
      freestack_push debug fs A = some fs1 ∧
      freestack_push debug fs1 B = some fs2 ∧
      freestack_pop debug fs2 = some (B, fs3) ∧
      freestack_pop debug fs3 = some (A, fs4) ∧
      fs4.next = fs.next ∧ fs4.size = fs.size ∧
      (∀ e, e ≠ freestack_get_next A → e ≠ freestack_get_next B → fs4.mem e = fs.mem e) ∧
      (debug = true → fs4.mem = fs.mem) := by
  have hne : freestack_get_next A ≠ freestack_get_next B := by
    simp only [freestack_get_next]; omega
  have h1 := freestack_push_eq debug fs A (fun h => (hdbg h).1)
  have h2 := freestack_push_eq debug
    { fs with
      mem := mem_write fs.mem (freestack_get_next A) fs.next,
      next := freestack_get_next A } B
    (fun h => by
      show mem_write fs.mem (freestack_get_next A) fs.next (freestack_get_next B) = 0
      rw [mem_write_other _ _ hne.symm]; exact (hdbg h).2)
  have h3 := freestack_pop_eq debug
    { fs with
      mem := mem_write (mem_write fs.mem (freestack_get_next A) fs.next)
        (freestack_get_next B) (freestack_get_next A),
      next := freestack_get_next B } hB
  simp only [mem_write_same, freestack_get_user_buf_next] at h3
  have h4 := freestack_pop_eq debug
    { fs with
      next := freestack_get_next A,
      mem := if debug then
          mem_write (mem_write (mem_write fs.mem (freestack_get_next A) fs.next)
            (freestack_get_next B) (freestack_get_next A)) (freestack_get_next B) 0
        else mem_write (mem_write fs.mem (freestack_get_next A) fs.next)
            (freestack_get_next B) (freestack_get_next A) } hA
  simp only [freestack_get_user_buf_next] at h4
  refine ⟨_, _, _, _, h1, h2, h3, h4, ?_, rfl, ?_, ?_⟩
  · cases debug <;> simp [mem_write, hne]
  · intro e ha hb
    cases debug <;> simp [mem_write, ha, hb]
  · intro hd
    subst hd
    obtain ⟨z1, z2⟩ := hdbg rfl
    funext e
    by_cases ha : e = freestack_get_next A
    · subst ha; simp [mem_write, z1]
    · by_cases hb : e = freestack_get_next B
      · subst hb; simp [mem_write, z2, ha]
      · simp [mem_write, ha, hb]

/-- C7: for the fixed-capacity free stack, pushing two distinct entries A and B that
are not on the list and popping twice returns B and then A, and restores the head
and leaves every link of the entries on the list as it was. -/
theorem freestack_lifo_restores (debug : Bool) (fs : freestack) (A B : Int)
    (hAB : A ≠ B)
    (hA : freestack_get_next A ≠ 0) (hB : freestack_get_next B ≠ 0)
    (hdbg : debug = true →
      fs.mem (freestack_get_next A) = 0 ∧ fs.mem (freestack_get_next B) = 0)
    (hAl : ∀ n, freestack_get_next A ∉ freestack_chain fs.mem n fs.next)
    (hBl : ∀ n, freestack_get_next B ∉ freestack_chain fs.mem n fs.next) :
    ∃ fs1 fs2 fs3 fs4,
      freestack_push debug fs A = some fs1 ∧
      freestack_push debug fs1 B = some fs2 ∧
      freestack_pop debug fs2 = some (B, fs3) ∧
      freestack_pop debug fs3 = some (A, fs4) ∧
      fs4.next = fs.next ∧ fs4.size = fs.size ∧
      (∀ n, ∀ e ∈ freestack_chain fs.mem n fs.next, fs4.mem e = fs.mem e) ∧
      (∀ n, freestack_chain fs4.mem n fs4.next = freestack_chain fs.mem n fs.next) := by
  obtain ⟨fs1, fs2, fs3, fs4, h1, h2, h3, h4, hn, hs, hm, _⟩ :=
    freestack_push_push_pop_pop debug fs A B hAB hA hB hdbg
  have hkeep : ∀ n, ∀ e ∈ freestack_chain fs.mem n fs.next, fs4.mem e = fs.mem e := by
    intro n e he
    apply hm
    · intro h; exact hAl n (h ▸ he)
    · intro h; exact hBl n (h ▸ he)
  refine ⟨fs1, fs2, fs3, fs4, h1, h2, h3, h4, hn, hs, hkeep, ?_⟩
  intro n
  rw [hn]
  exact freestack_chain_congr fs.mem fs4.mem n fs.next (hkeep n)

theorem freestack_example_chain (n : Nat) :
    freestack_chain freestack_example.mem n freestack_example.next = [] ∨
    freestack_chain freestack_example.mem n freestack_example.next = [4112] ∨
    freestack_chain freestack_example.mem n freestack_example.next = [4112, 4128] := by
  rcases n with _ | _ | _ | n <;>
    simp [freestack_chain, freestack_example, FREESTACK_EMPTY]

theorem freestack_lifo_restores_witness :
    ∃ fs1 fs2 fs3 fs4,
      freestack_push true freestack_example 4152 = some fs1 ∧
      freestack_push true fs1 4168 = some fs2 ∧
      freestack_pop true fs2 = some (4168, fs3) ∧
      freestack_pop true fs3 = some (4152, fs4) ∧
      fs4.next = freestack_example.next ∧ fs4.size = freestack_example.size ∧
      (∀ n, ∀ e ∈ freestack_chain freestack_example.mem n freestack_example.next,
        fs4.mem e = freestack_example.mem e) ∧
      (∀ n, freestack_chain fs4.mem n fs4.next =
        freestack_chain freestack_example.mem n freestack_example.next) :=
  freestack_lifo_restores true freestack_example 4152 4168 (by decide) (by decide) (by decide)
    (fun _ => by decide)
    (fun n => by rcases freestack_example_chain n with h | h | h <;> rw [h] <;> decide)
    (fun n => by rcases freestack_example_chain n with h | h | h <;> rw [h] <;> decide)

/-- C8: for a non-empty fixed-capacity free stack, popping an entry e and pushing e
back leaves the stack non-empty as before, with the head it had, and the next pop
returns e again. -/
theorem freestack_pop_push_roundtrip (debug : Bool) (fs : freestack)
    (h : freestack_isempty fs = false) :
    ∃ e fs1 fs2 fs3,
      freestack_pop debug fs = some (e, fs1) ∧
      freestack_push debug fs1 e = some fs2 ∧
      freestack_isempty fs2 = freestack_isempty fs ∧
      freestack_isempty fs2 = false ∧
      fs2.next = fs.next ∧
      freestack_pop debug fs2 = some (e, fs3) := by
  have hne : fs.next ≠ 0 := by
    simpa [freestack_isempty, FREESTACK_EMPTY] using h
  have h1 := freestack_pop_eq debug fs hne
  have h2 := freestack_push_eq debug
    { fs with
      next := fs.mem fs.next,
      mem := if debug then mem_write fs.mem fs.next 0 else fs.mem }
    (freestack_get_user_buf fs.next)
    (fun hd => by
      subst hd
      simp [freestack_get_next_user_buf, mem_write_same])
  simp only [freestack_get_next_user_buf] at h2
  have h3 := freestack_pop_eq debug
    { fs with
      mem := mem_write (if debug then mem_write fs.mem fs.next 0 else fs.mem) fs.next
        (fs.mem fs.next),
      next := fs.next } hne
  refine ⟨_, _, _, _, h1, h2, ?_, ?_, rfl, h3⟩
  · rw [h]; simp [freestack_isempty, FREESTACK_EMPTY, hne]
  · simp [freestack_isempty, FREESTACK_EMPTY, hne]

theorem freestack_pop_push_roundtrip_witness :
    freestack_isempty freestack_example = false ∧
    ∃ e fs1 fs2 fs3,
      freestack_pop false freestack_example = some (e, fs1) ∧
      freestack_push false fs1 e = some fs2 ∧
      freestack_isempty fs2 = freestack_isempty freestack_example ∧
      freestack_isempty fs2 = false ∧
      fs2.next = freestack_example.next ∧
      freestack_pop false fs2 = some (e, fs3) :=
  ⟨by decide, freestack_pop_push_roundtrip false freestack_example (by decide)⟩

/-! ### Shared-region free stack -/

theorem smr_freestack_push_base_addr (fs : Int) (img : smr_freestack) (p : Int) :
    (smr_freestack_push fs img p).base_addr = img.base_addr := rfl

theorem smr_name_init_loop_base_addr (fs esz : Int) (n : Nat) (img : smr_freestack) :
    (smr_name_init_loop fs esz n img).base_addr = img.base_addr := by
  induction n generalizing img with
  | zero => rfl
  | succ n ih => simp [smr_name_init_loop, ih, smr_freestack_push_base_addr]

theorem smr_name_init_loop_next (fs esz : Int) (n : Nat) (img : smr_freestack) (hn : 0 < n) :
    (smr_name_init_loop fs esz n img).next = img.base_addr + smr_header_size := by
  induction n generalizing img with
  | zero => omega
  | succ n ih =>
    rcases Nat.eq_zero_or_pos n with h0 | hpos
    · subst h0
      simp [smr_name_init_loop, smr_freestack_push, ptr_add, ptr_diff, smr_entry_buf,
        freestack_get_next, smr_header_size, sizeof_ptr]
    · simp only [smr_name_init_loop]
      rw [ih _ hpos, smr_freestack_push_base_addr]

theorem smr_freestack_pop_eq (fs : Int) (img : smr_freestack) (h : img.next ≠ 0) :
    smr_freestack_pop fs img =
      some (freestack_get_user_buf (ptr_add fs (ptr_diff img.next img.base_addr)), img) := by
  simp [smr_freestack_pop, smr_freestack_pop_impl, h]

/-- C6 (evaluation of the code): on an empty shared-region free stack mapped at
4096, after pushing entry 0 (buffer 4128) and then entry 1 (buffer 4144), both pops
return 4144 and the stack is not empty afterwards although it was before; and on a
stack freshly initialised with two entries, two pops in a row return the same
buffer. The pop never writes the head field. -/
theorem smr_freestack_pop_keeps_head :
    (let img0 : smr_freestack := { smr_zero_image with base_addr := 4096, size := 2 }
     let img2 := smr_freestack_push 4096 (smr_freestack_push 4096 img0 4128) 4144
     (smr_freestack_pop 4096 img2).map Prod.fst = some 4144 ∧
     ((smr_freestack_pop 4096 img2).bind fun r => smr_freestack_pop 4096 r.2).map Prod.fst
       = some 4144 ∧
     smr_freestack_isempty img0 = true ∧
     ((smr_freestack_pop 4096 img2).bind fun r => smr_freestack_pop 4096 r.2).map
       (fun r => smr_freestack_isempty r.2) = some false) ∧
    ((smr_name_init true 4096 16 smr_zero_image 2).bind fun img =>
      (smr_freestack_pop 4096 img).bind fun r =>
        (smr_freestack_pop 4096 r.2).map fun r2 => (r.1, r2.1)) = some (4128, 4128) ∧
    (∀ (fs : Int) (img img1 : smr_freestack) (b : Int),
      smr_freestack_pop fs img = some (b, img1) → img1.next = img.next) := by
  refine ⟨⟨by decide, by decide, by decide, by decide⟩, by decide, ?_⟩
  intro fs img img1 b h
  unfold smr_freestack_pop smr_freestack_pop_impl at h
  split at h
  · cases h
  · simp only [Option.some.injEq, Prod.mk.injEq] at h
    rw [← h.2]

/-! ## Invariant of the reachable pool states -/

theorem region_mems_of_geom (s s1 : pool_mem)
    (h : s1.pool.region_list.map region_geom = s.pool.region_list.map region_geom) :
    region_mems s1 = region_mems s := by
  have := congrArg (List.map Prod.fst) h
  simpa [region_mems, List.map_map, Function.comp_def, region_geom] using this

theorem region_hook_call_of_geom (attr : util_buf_attr) (l l1 : List util_buf_region)
    (h : l1.map region_geom = l.map region_geom) :
    l1.map (region_hook_call attr) = l.map (region_hook_call attr) := by
  have hf : region_hook_call attr =
      (fun g : Nat × Nat × Nat =>
        if attr.alloc_hndlr then [event.alloc_hndlr attr.ctx g.1 g.2.1 0 g.2.2] else [])
        ∘ region_geom := by
    funext r; simp [region_hook_call, region_geom]
  rw [hf, ← List.map_map, ← List.map_map, h]

theorem countP_erase_add (p : Nat → Bool) (l : List Nat) (b : Nat) (hb : b ∈ l) :
    (l.erase b).countP p + (if p b then 1 else 0) = l.countP p := by
  induction l with
  | nil => simp at hb
  | cons x l ih =>
    by_cases hx : x = b
    · subst hx
      simp [List.countP_cons]
    · have hb' : b ∈ l := by
        rcases List.mem_cons.mp hb with h | h
        · exact absurd h.symm hx
        · exact h
      have : (x :: l).erase b = x :: l.erase b := by
        simp [List.erase_cons, hx]
      rw [this, List.countP_cons, List.countP_cons]
      have := ih hb'
      omega

theorem mul_succ_le (i c e : Nat) (h : i < c) : i * e + e ≤ c * e := by
  have := Nat.mul_le_mul_right e (Nat.succ_le_of_lt h)
  simpa [Nat.succ_mul] using this

/-- Buffers of two different regions, or two different buffers of one region,
have different addresses. -/
theorem region_buf_inj (cfg : build_cfg) (s : pool_mem) (log : List grow_call)
    (held : List Nat) (hinv : pool_inv cfg s log held) (hesz : 0 < s.pool.entry_sz)
    (k1 k2 m1 m2 i1 i2 : Nat)
    (h1 : (region_mems s)[k1]? = some m1) (h2 : (region_mems s)[k2]? = some m2)
    (hi1 : i1 < s.pool.attr.chunk_cnt) (hi2 : i2 < s.pool.attr.chunk_cnt)
    (he : region_buf s.pool m1 i1 = region_buf s.pool m2 i2) : k1 = k2 ∧ i1 = i2 := by
  have hb1 : i1 * s.pool.entry_sz + s.pool.entry_sz ≤ s.pool.attr.chunk_cnt * s.pool.entry_sz := by
    have := Nat.mul_le_mul_right s.pool.entry_sz (Nat.succ_le_of_lt hi1)
    simpa [Nat.succ_mul] using this
  have hb2 : i2 * s.pool.entry_sz + s.pool.entry_sz ≤ s.pool.attr.chunk_cnt * s.pool.entry_sz := by
    have := Nat.mul_le_mul_right s.pool.entry_sz (Nat.succ_le_of_lt hi2)
    simpa [Nat.succ_mul] using this
  simp only [region_buf] at he
  by_cases hk : k1 = k2
  · subst hk
    rw [h1] at h2
    simp only [Option.some.injEq] at h2
    subst h2
    refine ⟨rfl, ?_⟩
    have : i1 * s.pool.entry_sz = i2 * s.pool.entry_sz := by omega
    exact Nat.eq_of_mul_eq_mul_right hesz this
  · rcases hinv.disj k1 k2 m1 m2 h1 h2 hk with h | h <;> omega

/-- In a pool whose buffers hold the list link, no link store into a provisioned
buffer reaches the footer of a provisioned buffer. -/
theorem pool_inv_link_misses (cfg : build_cfg) (s : pool_mem) (log : List grow_call)
    (held : List Nat) (hinv : pool_inv cfg s log held)
    (hon : util_buf_use_ftr cfg s.pool = true) (hsz : sizeof_slist_entry ≤ s.pool.attr.size)
    (k1 k2 m1 m2 i1 i2 : Nat)
    (h1 : (region_mems s)[k1]? = some m1) (h2 : (region_mems s)[k2]? = some m2)
    (hi1 : i1 < s.pool.attr.chunk_cnt) (hi2 : i2 < s.pool.attr.chunk_cnt) :
    link_hits (region_buf s.pool m1 i1)
      (util_buf_ftr_addr s.pool (region_buf s.pool m2 i2)) = false := by
  have hfit := hinv.fit hon
  by_cases hk : k1 = k2
  · subst hk
    rw [h1] at h2
    simp only [Option.some.injEq] at h2
    subst h2
    exact region_link_misses_footer s.pool ⟨hsz, hfit⟩ m1 i2 i1
  · have hb1 := mul_succ_le i1 _ s.pool.entry_sz hi1
    have hb2 := mul_succ_le i2 _ s.pool.entry_sz hi2
    simp only [link_hits, region_buf, util_buf_ftr_addr, sizeof_slist_entry,
      sizeof_util_buf_footer, decide_eq_false_iff_not, not_and, not_lt] at hsz hfit ⊢
    intro hlt
    rcases hinv.disj k1 k2 m1 m2 h1 h2 hk with h | h <;> omega

/-- A link store into a provisioned buffer leaves the footer lookups of every
provisioned buffer as they are. -/
theorem pool_inv_store_keeps (cfg : build_cfg) (s : pool_mem) (log : List grow_call)
    (held : List Nat) (hinv : pool_inv cfg s log held)
    (hon : util_buf_use_ftr cfg s.pool = true) (hsz : sizeof_slist_entry ≤ s.pool.attr.size)
    (b x : Nat) (hb : b ∈ s.pool.buf_list ∨ b ∈ held) (hx : x ∈ s.pool.buf_list ∨ x ∈ held) :
    slist_store_link b s.footers (util_buf_ftr_addr s.pool x) =
      s.footers (util_buf_ftr_addr s.pool x) := by
  obtain ⟨k1, m1, i1, e1, e2, rfl⟩ := hinv.prov b hb
  obtain ⟨k2, m2, i2, f1, f2, rfl⟩ := hinv.prov x hx
  simp only [slist_store_link,
    pool_inv_link_misses cfg s log held hinv hon hsz k1 k2 m1 m2 i1 i2 e1 f1 e2 f2,
    Bool.false_eq_true, if_false]

theorem buf_region_is_congr (s s1 : pool_mem) (hf : s1.footers = s.footers)
    (ha : s1.pool.attr = s.pool.attr) : buf_region_is s1 = buf_region_is s := by
  funext k b
  simp [buf_region_is, hf, util_buf_ftr_addr, ha]

theorem util_buf_get_regions (cfg : build_cfg) (s s1 : pool_mem) (b : Nat)
    (h : util_buf_get cfg s = some (b, s1)) :
    (cfg.debug = false → s1.pool.region_list = s.pool.region_list) ∧
    (cfg.debug = true → ∃ f r, s.footers (util_buf_ftr_addr s.pool b) = some f ∧
      s.pool.region_list[f.region]? = some r ∧
      s1.pool.region_list =
        s.pool.region_list.set f.region { r with num_used := r.num_used + 1 }) := by
  unfold util_buf_get slist_remove_head at h
  cases hl : s.pool.buf_list with
  | nil => simp [hl] at h
  | cons x rest =>
    simp only [hl] at h
    by_cases hd : cfg.debug = true
    · simp only [hd, if_true, util_buf_ftr_region, util_buf_ftr_addr] at h
      cases hfo : s.footers (x + s.pool.attr.size) with
      | none => simp [hfo] at h
      | some f =>
        cases hre : s.pool.region_list[f.region]? with
        | none => simp [hfo, hre] at h
        | some r =>
          simp only [hfo, hre, Option.some.injEq, Prod.mk.injEq] at h
          obtain ⟨rfl, rfl⟩ := h
          exact ⟨fun h0 => by simp [hd] at h0, fun _ => ⟨f, r, hfo, hre, rfl⟩⟩
    · simp only [hd, Bool.false_eq_true, if_false, Option.some.injEq, Prod.mk.injEq] at h
      obtain ⟨rfl, rfl⟩ := h
      exact ⟨fun _ => rfl, fun h0 => absurd h0 hd⟩

/-- What `util_buf_release` does to the state. -/
theorem util_buf_release_spec (cfg : build_cfg) (s s1 : pool_mem) (b : Nat)
    (h : util_buf_release cfg s b = some s1) :
    s1.pool.buf_list = b :: s.pool.buf_list ∧ s1.footers = slist_store_link b s.footers ∧
    s1.pool.attr = s.pool.attr ∧ s1.pool.entry_sz = s.pool.entry_sz ∧
    s1.pool.num_allocated = s.pool.num_allocated ∧
    s1.pool.regions_table = s.pool.regions_table ∧
    s1.pool.regions_cnt = s.pool.regions_cnt ∧
    s1.pool.region_list.map region_geom = s.pool.region_list.map region_geom ∧
    (cfg.debug = false → s1.pool.region_list = s.pool.region_list) ∧
    (cfg.debug = true → ∃ f r, s.footers (util_buf_ftr_addr s.pool b) = some f ∧
      s.pool.region_list[f.region]? = some r ∧ r.num_used ≠ 0 ∧
      s1.pool.region_list =
        s.pool.region_list.set f.region { r with num_used := r.num_used - 1 }) := by
  unfold util_buf_release at h
  by_cases hd : cfg.debug = true
  · simp only [hd, if_true, util_buf_ftr_region] at h
    cases hfo : s.footers (util_buf_ftr_addr s.pool b) with
    | none => simp [hfo] at h
    | some f =>
      cases hre : s.pool.region_list[f.region]? with
      | none => simp [hfo, hre] at h
      | some r =>
        simp only [hfo, hre] at h
        by_cases hz : r.num_used = 0
        · simp [hz] at h
        · simp only [hz, if_false, Option.some.injEq] at h
          subst h
          exact ⟨rfl, rfl, rfl, rfl, rfl, rfl, rfl, map_region_geom_set _ _ _ _ hre,
            fun h0 => by simp [hd] at h0, fun _ => ⟨f, r, rfl, hre, hz, rfl⟩⟩
  · simp only [hd, Bool.false_eq_true, if_false, Option.some.injEq] at h
    subst h
    exact ⟨rfl, rfl, rfl, rfl, rfl, rfl, rfl, rfl, fun _ => rfl, fun h0 => absurd h0 hd⟩

theorem getElem?_set_num_used (l : List util_buf_region) (j k : Nat)
    (r r1 : util_buf_region) (n : Nat) (hj : l[j]? = some r)
    (hk : (l.set j { r with num_used := n })[k]? = some r1) :
    (j = k ∧ r1 = { r with num_used := n }) ∨ (j ≠ k ∧ l[k]? = some r1) := by
  by_cases h1 : j = k
  · subst h1
    have hlt : j < l.length := by
      rcases Nat.lt_or_ge j l.length with h2 | h2
      · exact h2
      · rw [List.getElem?_eq_none h2] at hj; cases hj
    rw [List.getElem?_set_eq_of_lt _ hlt] at hk
    left; exact ⟨rfl, by simpa using hk.symm⟩
  · rw [List.getElem?_set_ne h1] at hk
    right; exact ⟨h1, hk⟩

theorem pool_inv_get (cfg : build_cfg) (s s1 : pool_mem) (log : List grow_call)
    (held : List Nat) (b : Nat) (hinv : pool_inv cfg s log held)
    (h : util_buf_get cfg s = some (b, s1)) : pool_inv cfg s1 log (b :: held) := by
  have ht := util_buf_get_took cfg s s1 b h
  have hm := region_mems_of_geom s s1 ht.geom
  have hu : util_buf_use_ftr cfg s1.pool = util_buf_use_ftr cfg s.pool := by
    simp [util_buf_use_ftr, ht.attr]
  have hlen : s1.pool.region_list.length = s.pool.region_list.length := by
    simpa using congrArg List.length ht.geom
  constructor
  · rw [hu, ht.attr, ht.entry_sz]; exact hinv.esz
  · intro x hx
    rw [hm, ht.attr]
    have : x ∈ s.pool.buf_list ∨ x ∈ held := by
      rw [ht.buf_list]
      rcases hx with hx | hx
      · left; simp [hx]
      · rcases List.mem_cons.mp hx with hx | hx
        · left; simp [hx]
        · right; exact hx
    obtain ⟨k, m, i, h1, h2, h3⟩ := hinv.prov x this
    exact ⟨k, m, i, h1, h2, by simpa [region_buf, ht.entry_sz] using h3⟩
  · intro hon hsz k m i hk hi
    rw [hm] at hk
    rw [ht.attr] at hi hsz
    have := hinv.ftr (by rw [← hu]; exact hon) hsz k m i hk hi
    rw [ht.footers]
    simpa [region_buf, util_buf_ftr_addr, ht.entry_sz, ht.attr] using this
  · intro k1 k2 m1 m2 h1 h2 hk
    rw [hm] at h1 h2
    rw [ht.attr, ht.entry_sz]
    exact hinv.disj k1 k2 m1 m2 h1 h2 hk
  · rw [hm]; exact hinv.nonnull
  · rw [ht.num_allocated, ht.attr, hlen]; exact hinv.nalloc
  · rw [hinv.hooks, ht.attr]
    exact (region_hook_call_of_geom _ _ _ ht.geom).symm
  · intro k r1 hk
    have hreg := util_buf_get_regions cfg s s1 b h
    rw [buf_region_is_congr s s1 ht.footers ht.attr]
    cases hd : cfg.debug with
    | false =>
      rw [hreg.1 hd] at hk
      simpa [hd] using hinv.used k r1 hk
    | true =>
      obtain ⟨f, r, hf, hr, hset⟩ := hreg.2 hd
      rw [hset] at hk
      have hold := hinv.used f.region r hr
      simp only [hd, if_true] at hold ⊢
      rcases getElem?_set_num_used _ _ _ _ _ _ hr hk with ⟨hjk, rfl⟩ | ⟨hjk, hk'⟩
      · subst hjk
        rw [List.countP_cons_of_pos]
        · simp [hold]
        · simp [buf_region_is, hf]
      · have := hinv.used k r1 hk'
        simp only [hd, if_true] at this
        rw [List.countP_cons, this]
        simp [buf_region_is, hf, hjk]
  · rw [hu, ht.attr, ht.entry_sz]; exact hinv.fit
  · intro hd hlt
    rw [ht.attr] at hlt
    obtain ⟨f, r, hf, _, _⟩ := (util_buf_get_regions cfg s s1 b h).2 hd
    rw [(hinv.dead hd hlt).1] at hf
    cases hf

theorem pool_inv_release (cfg : build_cfg) (s s1 : pool_mem) (log : List grow_call)
    (held : List Nat) (b : Nat) (hinv : pool_inv cfg s log held) (hb : b ∈ held)
    (h : util_buf_release cfg s b = some s1) : pool_inv cfg s1 log (held.erase b) := by
  obtain ⟨h1, h2, h3, h4, h5, _, _, h8, h9, h10⟩ := util_buf_release_spec cfg s s1 b h
  have hm := region_mems_of_geom s s1 h8
  have hu : util_buf_use_ftr cfg s1.pool = util_buf_use_ftr cfg s.pool := by
    simp [util_buf_use_ftr, h3]
  have hlen : s1.pool.region_list.length = s.pool.region_list.length := by
    simpa using congrArg List.length h8
  have hfa : ∀ x, util_buf_ftr_addr s1.pool x = util_buf_ftr_addr s.pool x := by
    intro x; simp [util_buf_ftr_addr, h3]
  -- footers of provisioned buffers are not reached by the link store
  have hkeep : util_buf_use_ftr cfg s.pool = true → sizeof_slist_entry ≤ s.pool.attr.size →
      ∀ x, (x ∈ s.pool.buf_list ∨ x ∈ held) →
      s1.footers (util_buf_ftr_addr s.pool x) = s.footers (util_buf_ftr_addr s.pool x) := by
    intro hon hsz x hx
    rw [h2]
    exact pool_inv_store_keeps cfg s log held hinv hon hsz b x (Or.inr hb) hx
  constructor
  · rw [hu, h3, h4]; exact hinv.esz
  · intro x hx
    rw [hm, h3]
    have : x ∈ s.pool.buf_list ∨ x ∈ held := by
      rcases hx with hx | hx
      · rw [h1] at hx
        rcases List.mem_cons.mp hx with hx | hx
        · right; rw [hx]; exact hb
        · left; exact hx
      · right; exact List.mem_of_mem_erase hx
    obtain ⟨k, m, i, e1, e2, e3⟩ := hinv.prov x this
    exact ⟨k, m, i, e1, e2, by simpa [region_buf, h4] using e3⟩
  · intro hon hsz k m i hk hi
    rw [hm] at hk
    rw [h3] at hi hsz
    rw [hu] at hon
    have := hinv.ftr hon hsz k m i hk hi
    have hb1 : b ∈ s.pool.buf_list ∨ b ∈ held := Or.inr hb
    obtain ⟨k1, m1, i1, e1, e2, e3⟩ := hinv.prov b hb1
    have hmiss := pool_inv_link_misses cfg s log held hinv hon hsz k1 k m1 m i1 i e1 hk e2 hi
    have hrb : region_buf s1.pool m i = region_buf s.pool m i := by
      simp [region_buf, h4]
    rw [hfa, hrb, h3, h2]
    simp only [slist_store_link, e3, hmiss, Bool.false_eq_true, if_false]
    exact this
  · intro k1 k2 m1 m2 e1 e2 hk
    rw [hm] at e1 e2
    rw [h3, h4]
    exact hinv.disj k1 k2 m1 m2 e1 e2 hk
  · rw [hm]; exact hinv.nonnull
  · rw [h5, h3, hlen]; exact hinv.nalloc
  · rw [hinv.hooks, h3]
    exact (region_hook_call_of_geom _ _ _ h8).symm
  · intro k r1 hk
    cases hd : cfg.debug with
    | false =>
      rw [h9 hd] at hk
      simpa [hd] using hinv.used k r1 hk
    | true =>
      have hon : util_buf_use_ftr cfg s.pool = true := by simp [util_buf_use_ftr, hd]
      have hsz : sizeof_slist_entry ≤ s.pool.attr.size := by
        by_contra hlt
        have := (hinv.dead hd (by omega)).2.1
        rw [this] at hb
        cases hb
      have hcongr : ∀ k0, (held.erase b).countP (buf_region_is s1 k0) =
          (held.erase b).countP (buf_region_is s k0) := by
        intro k0
        apply List.countP_congr
        intro x hx
        have hx' : x ∈ s.pool.buf_list ∨ x ∈ held := Or.inr (List.mem_of_mem_erase hx)
        simp only [buf_region_is, hfa, hkeep hon hsz x hx']
      obtain ⟨f, r, hf, hr, hnz, hset⟩ := h10 hd
      rw [hset] at hk
      have hold := hinv.used f.region r hr
      simp only [hd, if_true] at hold ⊢
      rw [hcongr]
      rcases getElem?_set_num_used _ _ _ _ _ _ hr hk with ⟨hjk, rfl⟩ | ⟨hjk, hk'⟩
      · subst hjk
        have := countP_erase_add (buf_region_is s f.region) held b hb
        have hp : buf_region_is s f.region b = true := by simp [buf_region_is, hf]
        simp only [hp, if_true] at this
        show r.num_used - 1 = _
        omega
      · have := hinv.used k r1 hk'
        simp only [hd, if_true] at this
        have he := countP_erase_add (buf_region_is s k) held b hb
        have hp : buf_region_is s k b = false := by simp [buf_region_is, hf, hjk]
        simp only [hp] at he
        rw [this]
        simpa using he.symm
  · rw [hu, h3, h4]; exact hinv.fit
  · intro hd hlt
    rw [h3] at hlt
    have := (hinv.dead hd hlt).2.1
    rw [this] at hb
    cases hb

theorem pool_inv_with_mmap (cfg : build_cfg) (s : pool_mem) (log : List grow_call)
    (held : List Nat) (b : Bool) (h : pool_inv cfg s log held) :
    pool_inv cfg (with_mmap s b) log held :=
  ⟨h.esz, h.prov, h.ftr, h.disj, h.nonnull, h.nalloc, h.hooks, h.used, h.fit, h.dead⟩

theorem block_fresh_mems (s : pool_mem) (mem : Nat) (h : block_fresh s mem) :
    ∀ m ∈ region_mems s,
      mem + s.pool.attr.chunk_cnt * s.pool.entry_sz ≤ m ∨
      m + s.pool.attr.chunk_cnt * s.pool.entry_sz ≤ mem := by
  intro m hm
  simp only [region_mems, List.mem_map] at hm
  obtain ⟨r, hr, rfl⟩ := hm
  exact h.2 r hr

theorem getElem?_concat_cases {α : Type} (l : List α) (a x : α) (k : Nat)
    (h : (l ++ [a])[k]? = some x) :
    (k < l.length ∧ l[k]? = some x) ∨ (k = l.length ∧ x = a) := by
  rcases Nat.lt_trichotomy k l.length with h1 | h1 | h1
  · left
    rw [List.getElem?_append_left h1] at h
    exact ⟨h1, h⟩
  · right
    subst h1
    rw [List.getElem?_concat_length] at h
    exact ⟨rfl, by simpa using h.symm⟩
  · rw [List.getElem?_eq_none (by simp; omega)] at h
    cases h

theorem region_hook_calls_append (log : List grow_call) (call : grow_call) :
    region_hook_calls (log ++ [call]) =
      region_hook_calls log ++
        (if call.ret = 0 then [call.events.filter event.is_alloc_hndlr] else []) := by
  unfold region_hook_calls
  rw [List.filter_append, List.map_append]
  congr 1
  by_cases h : call.ret = 0
  · simp [h]
  · simp [h]

/-- Footer of a provisioned buffer in a footer-enabled pool. -/
theorem pool_inv_buf_region_is (cfg : build_cfg) (s : pool_mem) (log : List grow_call)
    (held : List Nat) (hinv : pool_inv cfg s log held)
    (hon : util_buf_use_ftr cfg s.pool = true) (hsz : sizeof_slist_entry ≤ s.pool.attr.size)
    (k m i : Nat)
    (hk : (region_mems s)[k]? = some m) (hi : i < s.pool.attr.chunk_cnt) (k1 : Nat) :
    buf_region_is s k1 (region_buf s.pool m i) = (k == k1) := by
  simp [buf_region_is, hinv.ftr hon hsz k m i hk hi]

theorem pool_inv_added (cfg : build_cfg) (s s1 : pool_mem) (log : List grow_call)
    (held : List Nat) (r : util_buf_region) (call : grow_call)
    (hinv : pool_inv cfg s log held) (hadd : grow_added cfg s s1 r)
    (hfresh : block_fresh s r.mem_region) (hret : call.ret = 0)
    (hev : call.events.filter event.is_alloc_hndlr = region_hook_call s.pool.attr r) :
    pool_inv cfg s1 (log ++ [call]) held := by
  have hu : util_buf_use_ftr cfg s1.pool = util_buf_use_ftr cfg s.pool := by
    simp [util_buf_use_ftr, hadd.attr]
  have hmems : region_mems s1 = region_mems s ++ [r.mem_region] := by
    simp [region_mems, hadd.region_list]
  have hL : (region_mems s).length = s.pool.region_list.length := by simp [region_mems]
  have hfm := block_fresh_mems s r.mem_region hfresh
  have hrb : ∀ m i, region_buf s1.pool m i = region_buf s.pool m i := by
    intro m i; simp [region_buf, hadd.entry_sz]
  have hfa : ∀ x, util_buf_ftr_addr s1.pool x = util_buf_ftr_addr s.pool x := by
    intro x; simp [util_buf_ftr_addr, hadd.attr]
  -- footers of buffers of the old regions are not touched
  have hkeep : util_buf_use_ftr cfg s.pool = true → sizeof_slist_entry ≤ s.pool.attr.size →
      ∀ (k m i : Nat),
      (region_mems s)[k]? = some m → i < s.pool.attr.chunk_cnt →
      s1.footers (util_buf_ftr_addr s.pool (region_buf s.pool m i)) =
        s.footers (util_buf_ftr_addr s.pool (region_buf s.pool m i)) := by
    intro hon hsz k m i hk hi
    apply hadd.ftr_keep
    · intro j hj
      have hfit := hinv.fit hon
      have hm := hfm m (List.mem_iff_getElem?.mpr ⟨k, hk⟩)
      have h1 := mul_succ_le i _ s.pool.entry_sz hi
      have h2 := mul_succ_le j _ s.pool.entry_sz hj
      simp only [link_hits, util_buf_ftr_addr, region_buf, sizeof_slist_entry,
        sizeof_util_buf_footer, decide_eq_false_iff_not, not_and, not_lt] at hsz hfit ⊢
      rcases hm with hm | hm
      · exact ⟨by omega, by omega⟩
      · exact ⟨by omega, by omega⟩
    · intro t ht
      obtain ⟨k1, m1, i1, e1, e2, rfl⟩ := hinv.prov t (Or.inl (List.mem_of_mem_getLast? (Option.mem_def.mpr ht)))
      exact pool_inv_link_misses cfg s log held hinv hon hsz k1 k m1 m i1 i e1 hk e2 hi
  constructor
  · rw [hu, hadd.attr, hadd.entry_sz]; exact hinv.esz
  · intro x hx
    rw [hmems, hadd.attr]
    have hcase : (x ∈ s.pool.buf_list ∨ x ∈ held) ∨
        ∃ i < s.pool.attr.chunk_cnt, x = region_buf s.pool r.mem_region i := by
      rcases hx with hx | hx
      · rw [hadd.buf_list] at hx
        rcases List.mem_append.mp hx with hx | hx
        · exact Or.inl (Or.inl hx)
        · simp only [List.mem_map, List.mem_range] at hx
          obtain ⟨i, hi, rfl⟩ := hx
          exact Or.inr ⟨i, hi, rfl⟩
      · exact Or.inl (Or.inr hx)
    rcases hcase with hx | ⟨i, hi, rfl⟩
    · obtain ⟨k, m, i, h1, h2, h3⟩ := hinv.prov x hx
      have hk : k < (region_mems s).length := by
        rcases Nat.lt_or_ge k (region_mems s).length with h | h
        · exact h
        · rw [List.getElem?_eq_none h] at h1; cases h1
      exact ⟨k, m, i, by rw [List.getElem?_append_left hk]; exact h1, h2,
        by rw [hrb]; exact h3⟩
    · exact ⟨(region_mems s).length, r.mem_region, i,
        List.getElem?_concat_length _ _, hi, by rw [hrb]⟩
  · intro hon hsz k m i hk hi
    rw [hu] at hon
    rw [hmems] at hk
    rw [hadd.attr] at hi hsz ⊢
    rw [hrb, hfa]
    rcases getElem?_concat_cases _ _ _ _ hk with ⟨_, hk'⟩ | ⟨hk', rfl⟩
    · rw [hkeep hon hsz k m i hk' hi]
      exact hinv.ftr hon hsz k m i hk' hi
    · have hfit := hinv.fit hon
      obtain ⟨j, hj, hje, hf⟩ := hadd.ftr_new hon i hi
        (fun j _ => region_link_misses_footer s.pool ⟨hsz, hfit⟩ r.mem_region i j)
        (by
          intro t ht
          obtain ⟨k1, m1, i1, e1, e2, rfl⟩ := hinv.prov t (Or.inl (List.mem_of_mem_getLast? (Option.mem_def.mpr ht)))
          have hm := hfm m1 (List.mem_iff_getElem?.mpr ⟨k1, e1⟩)
          have h1 := mul_succ_le i _ s.pool.entry_sz hi
          have h2 := mul_succ_le i1 _ s.pool.entry_sz e2
          simp only [link_hits, util_buf_ftr_addr, region_buf, sizeof_slist_entry,
            sizeof_util_buf_footer, decide_eq_false_iff_not, not_and, not_lt] at hsz hfit ⊢
          rcases hm with hm | hm <;> omega)
      have hesz := hinv.esz hon
      have hji : j = i := by
        simp only [region_buf] at hje
        have : j * s.pool.entry_sz = i * s.pool.entry_sz := by omega
        exact Nat.eq_of_mul_eq_mul_right (by omega) this
      subst hji
      rw [hf, hk', hL, hinv.nalloc, Nat.mul_comm]
  · intro k1 k2 m1 m2 h1 h2 hk
    rw [hmems] at h1 h2
    rw [hadd.attr, hadd.entry_sz]
    rcases getElem?_concat_cases _ _ _ _ h1 with ⟨_, h1'⟩ | ⟨h1', rfl⟩
    · rcases getElem?_concat_cases _ _ _ _ h2 with ⟨_, h2'⟩ | ⟨h2', rfl⟩
      · exact hinv.disj k1 k2 m1 m2 h1' h2' hk
      · exact (hfm m1 (List.mem_iff_getElem?.mpr ⟨k1, h1'⟩)).symm
    · rcases getElem?_concat_cases _ _ _ _ h2 with ⟨_, h2'⟩ | ⟨h2', rfl⟩
      · exact hfm m2 (List.mem_iff_getElem?.mpr ⟨k2, h2'⟩)
      · omega
  · intro m hm
    rw [hmems] at hm
    rcases List.mem_append.mp hm with hm | hm
    · exact hinv.nonnull m hm
    · simp only [List.mem_singleton] at hm
      rw [hm]; exact hfresh.1
  · rw [hadd.num_allocated, hadd.attr, hadd.region_list, hinv.nalloc]
    simp [Nat.mul_succ]
  · rw [region_hook_calls_append, hinv.hooks, hadd.region_list, hadd.attr]
    simp [hret, hev]
  · intro k r1 hk
    rw [hadd.region_list] at hk
    cases hd : cfg.debug with
    | false =>
      simp only [Bool.false_eq_true, if_false]
      rcases getElem?_concat_cases _ _ _ _ hk with ⟨_, hk'⟩ | ⟨_, rfl⟩
      · simpa [hd] using hinv.used k r1 hk'
      · exact hadd.num_used
    | true =>
      simp only [if_true]
      have hon : util_buf_use_ftr cfg s.pool = true := by simp [util_buf_use_ftr, hd]
      by_cases hsz : sizeof_slist_entry ≤ s.pool.attr.size
      · -- every held buffer keeps its footer
        have hheld : ∀ x ∈ held, ∀ k1, buf_region_is s1 k1 x = buf_region_is s k1 x ∧
            (buf_region_is s k1 x = true → k1 < s.pool.region_list.length) := by
          intro x hx k1
          obtain ⟨k0, m, i, h1, h2, rfl⟩ := hinv.prov x (Or.inr hx)
          have hk0 : k0 < s.pool.region_list.length := by
            rcases Nat.lt_or_ge k0 (region_mems s).length with h | h
            · omega
            · rw [List.getElem?_eq_none h] at h1; cases h1
          refine ⟨?_, ?_⟩
          · simp only [buf_region_is, hfa, hkeep hon hsz k0 m i h1 h2]
          · rw [pool_inv_buf_region_is cfg s log held hinv hon hsz k0 m i h1 h2 k1]
            intro h
            have : k0 = k1 := by simpa using h
            omega
        have hcount : held.countP (buf_region_is s1 k) = held.countP (buf_region_is s k) := by
          apply List.countP_congr
          intro x hx
          rw [(hheld x hx k).1]
        rw [hcount]
        rcases getElem?_concat_cases _ _ _ _ hk with ⟨_, hk'⟩ | ⟨hk', rfl⟩
        · simpa [hd] using hinv.used k r1 hk'
        · rw [hadd.num_used]
          symm
          rw [List.countP_eq_zero]
          intro x hx hp
          have := (hheld x hx k).2 hp
          omega
      · obtain ⟨_, hheld, hzero⟩ := hinv.dead hd (by omega)
        rw [hheld, List.countP_nil]
        rcases getElem?_concat_cases _ _ _ _ hk with ⟨_, hk'⟩ | ⟨_, rfl⟩
        · exact hzero r1 (List.mem_iff_getElem?.mpr ⟨k, hk'⟩)
        · exact hadd.num_used
  · rw [hu, hadd.attr, hadd.entry_sz]; exact hinv.fit
  · intro hd hlt
    rw [hadd.attr] at hlt
    obtain ⟨hnone, hheld, hzero⟩ := hinv.dead hd hlt
    refine ⟨hadd.ftr_dead hlt hnone, hheld, ?_⟩
    intro r1 hr1
    rw [hadd.region_list] at hr1
    rcases List.mem_append.mp hr1 with h | h
    · exact hzero r1 h
    · simp only [List.mem_singleton] at h
      rw [h]; exact hadd.num_used

theorem pool_inv_grow (cfg : build_cfg) (env : grow_env) (s : pool_mem)
    (log : List grow_call) (held : List Nat) (hinv : pool_inv cfg s log held)
    (hfresh : grow_env_fresh s env) :
    pool_inv cfg (util_buf_grow cfg env s).2.1
      (log ++ [{ ret := (util_buf_grow cfg env s).1,
                 events := (util_buf_grow cfg env s).2.2 }]) held := by
  by_cases h0 : (util_buf_grow cfg env s).1 = 0
  · obtain ⟨_, b, mem, size, hm, hadd, hev⟩ := util_buf_grow_ok cfg env s h0
    have hf : block_fresh s mem := by
      rcases hm with ⟨h1, rfl⟩ | ⟨h1, rfl⟩
      · exact hfresh.1 h1
      · exact hfresh.2 h1
    exact pool_inv_added cfg (with_mmap s b) _ log held _ _
      (pool_inv_with_mmap cfg s log held b hinv) hadd hf h0 hev
  · obtain ⟨_, b, hs⟩ := util_buf_grow_fail cfg env s h0
    rw [hs]
    have hi := pool_inv_with_mmap cfg s log held b hinv
    refine ⟨hi.esz, hi.prov, hi.ftr, hi.disj, hi.nonnull, hi.nalloc, ?_, hi.used, hi.fit,
      hi.dead⟩
    rw [region_hook_calls_append, if_neg h0, List.append_nil]
    exact hi.hooks

theorem pool_inv_init (cfg : build_cfg) (hal : ∀ x a, x ≤ cfg.fi_get_aligned_sz x a)
    (hp : Int) (attr : util_buf_attr) :
    pool_inv cfg { pool := util_buf_pool_create_init cfg hp attr, footers := fun _ => none }
      [] [] := by
  constructor
  · intro hon
    have hon' : util_buf_use_ftr cfg
        { entry_sz := 0, num_allocated := 0, buf_list := [], region_list := [],
          regions_table := [], regions_cnt := 0, attr := attr } = true := hon
    simp only [util_buf_pool_create_init, hon', if_true]
    have := hal (attr.size + sizeof_util_buf_footer) attr.alignment
    simp only [sizeof_util_buf_footer] at this ⊢
    omega
  · intro b hb
    simp [util_buf_pool_create_init] at hb
  · intro _ _ k m i hk
    simp [region_mems, util_buf_pool_create_init] at hk
  · intro k1 k2 m1 m2 h1
    simp [region_mems, util_buf_pool_create_init] at h1
  · intro m hm
    simp [region_mems, util_buf_pool_create_init] at hm
  · simp [util_buf_pool_create_init]
  · simp [region_hook_calls, util_buf_pool_create_init]
  · intro k r hk
    simp [util_buf_pool_create_init] at hk
  · intro hon
    have hon' : util_buf_use_ftr cfg
        { entry_sz := 0, num_allocated := 0, buf_list := [], region_list := [],
          regions_table := [], regions_cnt := 0, attr := attr } = true := hon
    simp only [util_buf_pool_create_init, hon', if_true]
    exact hal (attr.size + sizeof_util_buf_footer) attr.alignment
  · intro _ _
    refine ⟨fun _ => rfl, rfl, ?_⟩
    intro r hr
    simp [util_buf_pool_create_init] at hr

theorem util_buf_pool_create_attr_eq (cfg : build_cfg) (env : create_env)
    (attr : util_buf_attr) (s0 : pool_mem) (log : List grow_call)
    (h : util_buf_pool_create_attr cfg env attr = (0, some s0, log)) :
    s0 = (util_buf_grow cfg env.grow
      { pool := util_buf_pool_create_init cfg env.hp_size attr,
        footers := fun _ => none }).2.1 ∧
    log = [{ ret := (util_buf_grow cfg env.grow
              { pool := util_buf_pool_create_init cfg env.hp_size attr,
                footers := fun _ => none }).1,
             events := (util_buf_grow cfg env.grow
              { pool := util_buf_pool_create_init cfg env.hp_size attr,
                footers := fun _ => none }).2.2 }] := by
  unfold util_buf_pool_create_attr at h
  simp only at h
  split_ifs at h with h1 h2
  · simp [FI_ENOMEM] at h
  · simp [FI_ENOMEM] at h
  · simp only [Prod.mk.injEq, Option.some.injEq, true_and] at h
    exact ⟨h.1.symm, h.2.symm⟩

theorem pool_inv_buf_nonnull (cfg : build_cfg) (s : pool_mem) (log : List grow_call)
    (held : List Nat) (hinv : pool_inv cfg s log held) (b : Nat)
    (hb : b ∈ s.pool.buf_list ∨ b ∈ held) : b ≠ 0 := by
  obtain ⟨k, m, i, h1, _, rfl⟩ := hinv.prov b hb
  have := hinv.nonnull m (List.mem_iff_getElem?.mpr ⟨k, h1⟩)
  simp only [region_buf]
  omega

theorem pool_inv_alloc (cfg : build_cfg) (env : grow_env) (s s1 : pool_mem)
    (log l : List grow_call) (held : List Nat) (buf : Nat)
    (hinv : pool_inv cfg s log held) (hfresh : grow_env_fresh s env)
    (h : util_buf_alloc cfg env s = some (buf, s1, l)) :
    pool_inv cfg s1 (log ++ l) (if buf = 0 then held else buf :: held) := by
  have hget : ∀ (s0 : pool_mem) (lg : List grow_call), pool_inv cfg s0 lg held →
      util_buf_get cfg s0 = some (buf, s1) →
      pool_inv cfg s1 lg (if buf = 0 then held else buf :: held) := by
    intro s0 lg hi hg
    have hne : buf ≠ 0 := by
      apply pool_inv_buf_nonnull cfg s0 lg held hi
      left
      rw [(util_buf_get_took cfg s0 s1 buf hg).buf_list]
      simp
    rw [if_neg hne]
    exact pool_inv_get cfg s0 s1 lg held buf hi hg
  cases hl : s.pool.buf_list with
  | nil =>
    rw [util_buf_alloc_empty cfg env s hl] at h
    have hg := pool_inv_grow cfg env s log held hinv hfresh
    split_ifs at h with h0
    · simp only [Option.some.injEq, Prod.mk.injEq] at h
      obtain ⟨rfl, rfl, rfl⟩ := h
      simpa using hg
    · cases hgt : util_buf_get cfg (util_buf_grow cfg env s).2.1 with
      | none => simp [hgt] at h
      | some p =>
        obtain ⟨b, s2⟩ := p
        simp only [hgt, Option.some.injEq, Prod.mk.injEq] at h
        obtain ⟨rfl, rfl, rfl⟩ := h
        exact hget _ _ hg hgt
  | cons x rest =>
    cases hgt : util_buf_get cfg s with
    | none =>
      unfold util_buf_alloc at h
      simp [util_buf_avail, slist_empty, hl, hgt] at h
    | some p =>
      obtain ⟨b, s2⟩ := p
      rw [util_buf_alloc_avail cfg env s s2 b hgt (by simp [hl])] at h
      simp only [Option.some.injEq, Prod.mk.injEq] at h
      obtain ⟨rfl, rfl, rfl⟩ := h
      simpa using hget _ _ hinv hgt

/-- Every reachable state satisfies the invariant. -/
theorem pool_reach_inv (cfg : build_cfg) (hal : ∀ x a, x ≤ cfg.fi_get_aligned_sz x a)
    (s : pool_mem) (log : List grow_call) (held : List Nat)
    (hr : pool_reach cfg s log held) : pool_inv cfg s log held := by
  induction hr with
  | create env attr hc hf =>
    obtain ⟨rfl, rfl⟩ := util_buf_pool_create_attr_eq cfg _ _ _ _ hc
    simpa using pool_inv_grow cfg _ _ [] [] (pool_inv_init cfg hal _ _) hf
  | grow env _ hf ih => exact pool_inv_grow cfg env _ _ _ ih hf
  | alloc env _ hf ha ih => exact pool_inv_alloc cfg env _ _ _ _ _ _ ih hf ha
  | get _ hg ih => exact pool_inv_get cfg _ _ _ _ _ ih hg
  | release buf _ hb hrel ih => exact pool_inv_release cfg _ _ _ _ buf ih hb hrel

/-- The footer of a provisioned buffer leads to the region that owns it. -/
theorem pool_inv_owning_region (cfg : build_cfg) (s : pool_mem) (log : List grow_call)
    (held : List Nat) (hinv : pool_inv cfg s log held)
    (hh : s.pool.attr.alloc_hndlr = true) (hlink : sizeof_slist_entry ≤ s.pool.attr.size)
    (b : Nat) (hb : b ∈ s.pool.buf_list ∨ b ∈ held) :
    ∃ k r, owning_region s log b k r ∧ util_buf_ftr_region s b = some (k, r) := by
  have hon : util_buf_use_ftr cfg s.pool = true := by
    simp [util_buf_use_ftr, hh]
  have hsz := hinv.esz hon
  obtain ⟨k, m, i, hk, hi, rfl⟩ := hinv.prov b hb
  obtain ⟨r, hr, hrm⟩ : ∃ r, s.pool.region_list[k]? = some r ∧ r.mem_region = m := by
    simp only [region_mems, List.getElem?_map, Option.map_eq_some'] at hk
    exact hk
  have hmul := mul_succ_le i _ s.pool.entry_sz hi
  refine ⟨k, r, ⟨hr, ?_, ?_, ?_, ?_⟩, ?_⟩
  · simp only [region_buf]; omega
  · simp only [region_buf]; omega
  · rw [hinv.hooks, List.getElem?_map, hr]
    simp [region_hook_call, hh]
  · intro k1 r1 hk1 h1 h2
    by_contra hne
    have hk1' : (region_mems s)[k1]? = some r1.mem_region := by
      simp [region_mems, List.getElem?_map, hk1]
    simp only [region_buf] at h1 h2
    rcases hinv.disj k1 k r1.mem_region m hk1' hk hne with h | h <;> omega
  · simp [util_buf_ftr_region, hinv.ftr hon hlink k m i hk hi, hr]

/-! ## Region contexts and hook symmetry -/

/-- Free hook invocations of the destroy loop. -/
theorem util_buf_pool_destroy_loop_hooks (cfg : build_cfg) (attr : util_buf_attr)
    (unmap_ret : Nat → Int) (hf : attr.free_hndlr = true) (l : List util_buf_region)
    (evs : List event) (h : util_buf_pool_destroy_loop cfg attr unmap_ret l = some evs) :
    evs.filter event.is_free_hndlr =
      l.map (fun r => event.free_hndlr attr.ctx r.context) := by
  induction l generalizing evs with
  | nil =>
    simp only [util_buf_pool_destroy_loop, Option.some.injEq] at h
    subst h; rfl
  | cons r rest ih =>
    unfold util_buf_pool_destroy_loop at h
    cases hrest : util_buf_pool_destroy_loop cfg attr unmap_ret rest with
    | none =>
      simp only [hrest, Option.map_none'] at h
      split_ifs at h
    | some evs1 =>
      simp only [hrest, Option.map_some'] at h
      split_ifs at h <;>
        (simp only [Option.some.injEq] at h
         subst h
         simp [hf, event.is_free_hndlr, ih evs1 hrest])

/-- The destroy loop runs to its end when no assertion fails. -/
theorem util_buf_pool_destroy_loop_some (cfg : build_cfg) (attr : util_buf_attr)
    (unmap_ret : Nat → Int) (l : List util_buf_region)
    (hu : cfg.debug = true → attr.is_mmap_region = true →
      ∀ r ∈ l, unmap_ret r.mem_region = 0)
    (hn : cfg.debug = true → attr.track_used = true → ∀ r ∈ l, r.num_used = 0) :
    ∃ evs, util_buf_pool_destroy_loop cfg attr unmap_ret l = some evs := by
  induction l with
  | nil => exact ⟨[], rfl⟩
  | cons r rest ih =>
    obtain ⟨evs1, h1⟩ := ih (fun hd hm x hx => hu hd hm x (by simp [hx]))
      (fun hd ht x hx => hn hd ht x (by simp [hx]))
    have hz : (cfg.debug && attr.track_used && r.num_used != 0) = false := by
      cases hd : cfg.debug with
      | false => simp
      | true =>
        cases ht : attr.track_used with
        | false => simp
        | true => simp [hn hd ht r (by simp)]
    unfold util_buf_pool_destroy_loop
    simp only [hz, Bool.false_eq_true, if_false, h1, Option.map_some']
    by_cases hm : attr.is_mmap_region = true
    · have hy : (cfg.debug && unmap_ret r.mem_region != 0) = false := by
        cases hd : cfg.debug with
        | false => simp
        | true => simp [hu hd hm r (by simp)]
      simp only [hm, if_true, hy, Bool.false_eq_true, if_false]
      exact ⟨_, rfl⟩
    · simp only [hm, if_false]
      exact ⟨_, rfl⟩

/-- C9: in a pool configured with an alloc hook, whose buffers are large enough to
hold the link of the free list (attr.size is at least sizeof(struct slist_entry), so
that no link store reaches a footer), the context reported by util_buf_alloc_ex,
util_buf_get_ex and util_buf_get_ctx for a buffer is the context that the alloc hook
returned for the region whose memory range contains the buffer, whichever region
that is. -/
theorem util_buf_context_is_region_context (cfg : build_cfg)
    (hal : ∀ x a, x ≤ cfg.fi_get_aligned_sz x a)
    (s : pool_mem) (log : List grow_call) (held : List Nat)
    (hr : pool_reach cfg s log held) (hh : s.pool.attr.alloc_hndlr = true)
    (hlink : sizeof_slist_entry ≤ s.pool.attr.size) :
    (∀ (env : grow_env) (buf : Nat) (s1 : pool_mem) (l : List grow_call),
      grow_env_fresh s env → util_buf_alloc cfg env s = some (buf, s1, l) → buf ≠ 0 →
      ∃ k r, owning_region s1 (log ++ l) buf k r ∧
        util_buf_alloc_ex cfg env s = some (buf, some r.context, s1, l)) ∧
    (∀ (buf : Nat) (s1 : pool_mem), util_buf_get cfg s = some (buf, s1) →
      ∃ k r, owning_region s1 log buf k r ∧
        util_buf_get_ex cfg s = some (buf, r.context, s1)) ∧
    (∀ (buf : Nat), buf ∈ s.pool.buf_list ∨ buf ∈ held →
      ∃ k r, owning_region s log buf k r ∧
        util_buf_get_ctx cfg s buf = some r.context) := by
  have hinv := pool_reach_inv cfg hal s log held hr
  refine ⟨?_, ?_, ?_⟩
  · intro env buf s1 l hfresh ha hne
    have hi := pool_inv_alloc cfg env s s1 log l held buf hinv hfresh ha
    rw [if_neg hne] at hi
    have hattr : s1.pool.attr.alloc_hndlr = true ∧
        s1.pool.attr.size = s.pool.attr.size := by
      cases hl : s.pool.buf_list with
      | nil =>
        rw [util_buf_alloc_empty cfg env s hl] at ha
        split_ifs at ha with h0
        · simp only [Option.some.injEq, Prod.mk.injEq] at ha
          exact absurd ha.1.symm hne
        · cases hgt : util_buf_get cfg (util_buf_grow cfg env s).2.1 with
          | none => simp [hgt] at ha
          | some p =>
            obtain ⟨b, s2⟩ := p
            simp only [hgt, Option.some.injEq, Prod.mk.injEq] at ha
            obtain ⟨rfl, rfl, rfl⟩ := ha
            have ht := util_buf_get_took cfg _ _ _ hgt
            obtain ⟨_, b0, mem, size, _, hadd, _⟩ :=
              util_buf_grow_ok cfg env s (by simpa using h0)
            rw [ht.attr, hadd.attr]
            exact ⟨hh, rfl⟩
      | cons x rest =>
        cases hgt : util_buf_get cfg s with
        | none =>
          unfold util_buf_alloc at ha
          simp [util_buf_avail, slist_empty, hl, hgt] at ha
        | some p =>
          obtain ⟨b, s2⟩ := p
          rw [util_buf_alloc_avail cfg env s s2 b hgt (by simp [hl])] at ha
          simp only [Option.some.injEq, Prod.mk.injEq] at ha
          obtain ⟨rfl, rfl, rfl⟩ := ha
          rw [(util_buf_get_took cfg _ _ _ hgt).attr]
          exact ⟨hh, rfl⟩
    have hlink1 : sizeof_slist_entry ≤ s1.pool.attr.size := by
      rw [hattr.2]; exact hlink
    obtain ⟨k, r, ho, hf⟩ := pool_inv_owning_region cfg s1 _ _ hi hattr.1 hlink1 buf
      (Or.inr (by simp))
    refine ⟨k, r, ho, ?_⟩
    simp [util_buf_alloc_ex, ha, hne, hf]
  · intro buf s1 hg
    have hi := pool_inv_get cfg s s1 log held buf hinv hg
    have hattr : s1.pool.attr.alloc_hndlr = true := by
      rw [(util_buf_get_took cfg _ _ _ hg).attr]; exact hh
    have hlink1 : sizeof_slist_entry ≤ s1.pool.attr.size := by
      rw [(util_buf_get_took cfg _ _ _ hg).attr]; exact hlink
    obtain ⟨k, r, ho, hf⟩ := pool_inv_owning_region cfg s1 _ _ hi hattr hlink1 buf
      (Or.inr (by simp))
    refine ⟨k, r, ho, ?_⟩
    simp [util_buf_get_ex, hg, hf]
  · intro buf hb
    obtain ⟨k, r, ho, hf⟩ := pool_inv_owning_region cfg s _ _ hinv hh hlink buf hb
    refine ⟨k, r, ho, ?_⟩
    simp [util_buf_get_ctx, util_buf_use_ftr, hh, hf]

/-- C10: for a pool configured with both hooks, in every state reached by create,
grow, alloc, get and release: each region in the region list stems from one
successful util_buf_grow, which invoked the alloc hook exactly once, for that
region's memory, and stored the returned context in the region; and
util_buf_pool_destroy invokes the free hook exactly once per region of the list,
with that region's context. The destroy runs to its end unless, in a debug build,
a huge-page region fails to unmap or (with track_used) a buffer is still held. -/
theorem util_buf_hook_symmetry (cfg : build_cfg)
    (hal : ∀ x a, x ≤ cfg.fi_get_aligned_sz x a)
    (s : pool_mem) (log : List grow_call) (held : List Nat)
    (hr : pool_reach cfg s log held)
    (ha : s.pool.attr.alloc_hndlr = true) (hf : s.pool.attr.free_hndlr = true) :
    region_hook_calls log =
      s.pool.region_list.map
        (fun r => [event.alloc_hndlr s.pool.attr.ctx r.mem_region r.size 0 r.context]) ∧
    (∀ (unmap_ret : Nat → Int) (evs : List event),
      util_buf_pool_destroy cfg unmap_ret s = some evs →
      evs.filter event.is_free_hndlr =
        s.pool.region_list.map (fun r => event.free_hndlr s.pool.attr.ctx r.context)) ∧
    (∀ (unmap_ret : Nat → Int),
      (cfg.debug = true → s.pool.attr.is_mmap_region = true →
        ∀ r ∈ s.pool.region_list, unmap_ret r.mem_region = 0) →
      (cfg.debug = true → s.pool.attr.track_used = true → held = []) →
      ∃ evs, util_buf_pool_destroy cfg unmap_ret s = some evs) := by
  have hinv := pool_reach_inv cfg hal s log held hr
  refine ⟨?_, ?_, ?_⟩
  · rw [hinv.hooks]
    apply List.map_congr_left
    intro r _
    simp [region_hook_call, ha]
  · intro unmap_ret evs hd
    unfold util_buf_pool_destroy at hd
    cases hl : util_buf_pool_destroy_loop cfg s.pool.attr unmap_ret s.pool.region_list with
    | none => simp [hl] at hd
    | some evs1 =>
      simp only [hl, Option.map_some', Option.some.injEq] at hd
      subst hd
      rw [List.filter_append, util_buf_pool_destroy_loop_hooks cfg _ _ hf _ _ hl]
      simp [event.is_free_hndlr]
  · intro unmap_ret hu hheld
    obtain ⟨evs, he⟩ := util_buf_pool_destroy_loop_some cfg s.pool.attr unmap_ret
      s.pool.region_list hu
      (by
        intro hd ht r hr
        obtain ⟨k, hk⟩ := List.mem_iff_getElem?.mp hr
        have := hinv.used k r hk
        rw [hheld hd ht] at this
        simpa [hd] using this)
    exact ⟨evs ++ [event.free_pool], by simp [util_buf_pool_destroy, he]⟩

theorem example_pool_reach :
    pool_reach (example_cfg false) example_pool
      [{ ret := 0,
         events := (util_buf_grow (example_cfg false) example_create_env.grow
           { pool := util_buf_pool_create_init (example_cfg false)
               example_create_env.hp_size (example_attr 0 1 true),
             footers := fun _ => none }).2.2 }] [] :=
  pool_reach.create example_create_env (example_attr 0 1 true) rfl
    ⟨fun _ => ⟨by decide, fun r hr => by simp [util_buf_pool_create_init] at hr⟩,
     fun _ => ⟨by decide, fun r hr => by simp [util_buf_pool_create_init] at hr⟩⟩

theorem example_pool_drained_reach :
    ∃ log, pool_reach (example_cfg false) example_pool_drained log [4096] :=
  ⟨_, pool_reach.get example_pool_reach rfl⟩

theorem util_buf_context_is_region_context_witness :
    ∃ log k r s1 l,
      pool_reach (example_cfg false) example_pool_drained log [4096] ∧
      sizeof_slist_entry ≤ example_pool_drained.pool.attr.size ∧
      owning_region s1 (log ++ l) 8192 k r ∧
      util_buf_alloc_ex (example_cfg false) (example_env 8192 12) example_pool_drained =
        some (8192, some r.context, s1, l) ∧
      r.context = 12 := by
  obtain ⟨log, hr⟩ := example_pool_drained_reach
  obtain ⟨k, r, ho, he⟩ :=
    (util_buf_context_is_region_context (example_cfg false) example_aligned_sz_ge
      example_pool_drained log [4096] hr rfl (by decide)).1 (example_env 8192 12) 8192 _ _
      ⟨fun _ => ⟨by decide, by decide⟩, fun _ => ⟨by decide, by decide⟩⟩ rfl (by decide)
  refine ⟨log, k, r, _, _, hr, by decide, ho, he, ?_⟩
  have h2 : (util_buf_alloc_ex (example_cfg false) (example_env 8192 12)
      example_pool_drained).map (fun x => x.2.1) = some (some 12) := rfl
  rw [he] at h2
  simpa using h2

theorem example_pool_grown_reach :
    ∃ log, pool_reach (example_cfg false) example_pool_grown log [] :=
  ⟨_, pool_reach.grow (example_env 8192 12) example_pool_reach
    ⟨fun _ => ⟨by decide, by decide⟩, fun _ => ⟨by decide, by decide⟩⟩⟩

theorem util_buf_hook_symmetry_witness :
    ∃ log,
      pool_reach (example_cfg false) example_pool_grown log [] ∧
      region_hook_calls log =
        example_pool_grown.pool.region_list.map
          (fun r => [event.alloc_hndlr example_pool_grown.pool.attr.ctx r.mem_region r.size 0
            r.context]) ∧
      (∀ (unmap_ret : Nat → Int) (evs : List event),
        util_buf_pool_destroy (example_cfg false) unmap_ret example_pool_grown = some evs →
        evs.filter event.is_free_hndlr =
          example_pool_grown.pool.region_list.map
            (fun r => event.free_hndlr example_pool_grown.pool.attr.ctx r.context)) ∧
      (∀ (unmap_ret : Nat → Int),
        ((example_cfg false).debug = true →
          example_pool_grown.pool.attr.is_mmap_region = true →
          ∀ r ∈ example_pool_grown.pool.region_list, unmap_ret r.mem_region = 0) →
        ((example_cfg false).debug = true →
          example_pool_grown.pool.attr.track_used = true → ([] : List Nat) = []) →
        ∃ evs,
          util_buf_pool_destroy (example_cfg false) unmap_ret example_pool_grown = some evs) ∧
      example_pool_grown.pool.region_list.map region_geom = [(4096, 80, 11), (8192, 80, 12)] ∧
      (util_buf_pool_destroy (example_cfg false) (fun _ => 0) example_pool_grown).map
        (List.filter event.is_free_hndlr) =
        some [event.free_hndlr 5 11, event.free_hndlr 5 12] := by
  obtain ⟨log, hr⟩ := example_pool_grown_reach
  obtain ⟨h1, h2, h3⟩ :=
    util_buf_hook_symmetry (example_cfg false) example_aligned_sz_ge example_pool_grown log []
      hr rfl rfl
  exact ⟨log, hr, h1, h2, h3, rfl, rfl⟩

/-! ## Allocation strategy: huge pages or aligned memory -/

theorem util_buf_grow_loop_filter (p : event → Bool)
    (hp : ∀ e, p e = true → event.is_mem_alloc e = true)
    (cfg : build_cfg) (br mem : Nat) (l : List Nat) (s : pool_mem) (evs : List event) :
    (l.foldl (util_buf_grow_entry cfg br mem) (s, evs)).2.filter p = evs.filter p := by
  have hinit : ∀ c b, p (event.init c b) = false := by
    intro c b
    cases h : p (event.init c b) with
    | false => rfl
    | true => have := hp _ h; simp [event.is_mem_alloc] at this
  induction l generalizing s evs with
  | nil => simp
  | cons i l ih =>
    rw [List.foldl_cons]
    have : util_buf_grow_entry cfg br mem (s, evs) i =
        ((util_buf_grow_entry cfg br mem (s, evs) i).1,
         (util_buf_grow_entry cfg br mem (s, evs) i).2) := rfl
    rw [this, ih]
    simp only [util_buf_grow_entry]
    split <;> simp [hinit]

theorem util_buf_grow_finish_filter (p : event → Bool)
    (hp : ∀ e, p e = true → event.is_mem_alloc e = true)
    (cfg : build_cfg) (s : pool_mem) (r : util_buf_region) (evs : List event) :
    (util_buf_grow_finish cfg s r evs).2.2.filter p = evs.filter p := by
  simp only [util_buf_grow_finish]
  exact util_buf_grow_loop_filter p hp cfg _ _ _ s evs

theorem util_buf_grow_provision_filter (p : event → Bool)
    (hp : ∀ e, p e = true → event.is_mem_alloc e = true)
    (cfg : build_cfg) (env : grow_env) (s : pool_mem) (mem size : Nat) (evs : List event) :
    (util_buf_grow_provision cfg env s mem size evs).2.2.filter p = evs.filter p := by
  have hf : ∀ e, event.is_mem_alloc e = false → p e = false := by
    intro e he
    cases h : p e with
    | false => rfl
    | true => rw [hp e h] at he; cases he
  unfold util_buf_grow_provision
  simp only
  split_ifs <;>
    simp [util_buf_grow_finish_filter p hp, List.filter_append, hf, event.is_mem_alloc]

theorem util_buf_grow_memalign_filter (p : event → Bool)
    (hp : ∀ e, p e = true → event.is_mem_alloc e = true)
    (cfg : build_cfg) (env : grow_env) (s : pool_mem) (evs : List event) :
    (util_buf_grow_memalign cfg env s evs).2.2.filter p =
      evs.filter p ++
        [event.memalign s.pool.attr.alignment (s.pool.attr.chunk_cnt * s.pool.entry_sz)
          env.memalign_ret env.memalign_mem].filter p := by
  have hf : ∀ e, event.is_mem_alloc e = false → p e = false := by
    intro e he
    cases h : p e with
    | false => rfl
    | true => rw [hp e h] at he; cases he
  unfold util_buf_grow_memalign
  simp only
  have hfr : p event.free_region = false := hf _ rfl
  split_ifs
  · simp [List.filter_append, List.filter_cons, hfr]
  · rw [util_buf_grow_provision_filter p hp, List.filter_append]

theorem util_buf_grow_provision_attr (cfg : build_cfg) (env : grow_env) (s : pool_mem)
    (mem size : Nat) (evs : List event) :
    (util_buf_grow_provision cfg env s mem size evs).2.1.pool.attr = s.pool.attr := by
  by_cases h : (util_buf_grow_provision cfg env s mem size evs).1 = 0
  · exact (util_buf_grow_provision_ok cfg env s mem size evs h).1.attr
  · rw [(util_buf_grow_provision_fail cfg env s mem size evs h).2]

theorem util_buf_grow_memalign_attr (cfg : build_cfg) (env : grow_env) (s : pool_mem)
    (evs : List event) :
    (util_buf_grow_memalign cfg env s evs).2.1.pool.attr = s.pool.attr := by
  by_cases h : (util_buf_grow_memalign cfg env s evs).1 = 0
  · exact (util_buf_grow_memalign_ok cfg env s evs h).2.1.attr
  · rw [(util_buf_grow_memalign_fail cfg env s evs h).2]

theorem is_alloc_hugepage_mem_alloc (e : event) (h : event.is_alloc_hugepage e = true) :
    event.is_mem_alloc e = true := by
  cases e <;> simp_all [event.is_alloc_hugepage, event.is_mem_alloc]

/-- A pool that is not in huge-page mode stays so, and growing it does not call the
huge-page allocator. -/
theorem util_buf_grow_flag_false (cfg : build_cfg) (env : grow_env) (s : pool_mem)
    (h : s.pool.attr.is_mmap_region = false) :
    (util_buf_grow cfg env s).2.1.pool.attr.is_mmap_region = false ∧
    (util_buf_grow cfg env s).2.2.filter event.is_alloc_hugepage = [] := by
  unfold util_buf_grow
  simp only [h, Bool.false_eq_true, if_false]
  split_ifs
  · exact ⟨h, rfl⟩
  · exact ⟨h, rfl⟩
  · refine ⟨by rw [util_buf_grow_memalign_attr]; exact h, ?_⟩
    rw [util_buf_grow_memalign_filter _ is_alloc_hugepage_mem_alloc]
    simp [event.is_alloc_hugepage]

theorem grow_calls_events_filter_nil (p : event → Bool) (l : List grow_call)
    (h : ∀ c ∈ l, c.events.filter p = []) : (grow_calls_events l).filter p = [] := by
  induction l with
  | nil => rfl
  | cons c l ih =>
    simp only [grow_calls_events, List.map_cons, List.flatten_cons, List.filter_append]
    rw [h c (by simp)]
    exact ih (fun x hx => h x (by simp [hx]))

theorem util_buf_alloc_flag_false (cfg : build_cfg) (env : grow_env) (s s1 : pool_mem)
    (buf : Nat) (l : List grow_call)
    (h : s.pool.attr.is_mmap_region = false)
    (ha : util_buf_alloc cfg env s = some (buf, s1, l)) :
    s1.pool.attr.is_mmap_region = false ∧
    (grow_calls_events l).filter event.is_alloc_hugepage = [] := by
  have hg := util_buf_grow_flag_false cfg env s h
  cases hl : s.pool.buf_list with
  | nil =>
    rw [util_buf_alloc_empty cfg env s hl] at ha
    split_ifs at ha with h0
    · simp only [Option.some.injEq, Prod.mk.injEq] at ha
      obtain ⟨_, rfl, rfl⟩ := ha
      exact ⟨hg.1, by simp [grow_calls_events, hg.2]⟩
    · cases hgt : util_buf_get cfg (util_buf_grow cfg env s).2.1 with
      | none => simp [hgt] at ha
      | some p =>
        obtain ⟨b, s2⟩ := p
        simp only [hgt, Option.some.injEq, Prod.mk.injEq] at ha
        obtain ⟨_, rfl, rfl⟩ := ha
        refine ⟨?_, by simp [grow_calls_events, hg.2]⟩
        rw [(util_buf_get_took cfg _ _ _ hgt).attr]
        exact hg.1
  | cons x rest =>
    cases hgt : util_buf_get cfg s with
    | none =>
      unfold util_buf_alloc at ha
      simp [util_buf_avail, slist_empty, hl, hgt] at ha
    | some p =>
      obtain ⟨b, s2⟩ := p
      rw [util_buf_alloc_avail cfg env s s2 b hgt (by simp [hl])] at ha
      simp only [Option.some.injEq, Prod.mk.injEq] at ha
      obtain ⟨_, rfl, rfl⟩ := ha
      refine ⟨?_, rfl⟩
      rw [(util_buf_get_took cfg _ _ _ hgt).attr]
      exact h

theorem pool_step_flag_false (cfg : build_cfg) (s s1 : pool_mem) (op : pool_op)
    (evs : List event) (h : s.pool.attr.is_mmap_region = false)
    (hs : pool_step cfg s op = some (s1, evs)) :
    s1.pool.attr.is_mmap_region = false ∧ evs.filter event.is_alloc_hugepage = [] := by
  cases op with
  | grow env =>
    simp only [pool_step, Option.some.injEq, Prod.mk.injEq] at hs
    obtain ⟨rfl, rfl⟩ := hs
    exact util_buf_grow_flag_false cfg env s h
  | alloc env =>
    simp only [pool_step] at hs
    cases ha : util_buf_alloc cfg env s with
    | none => simp [ha] at hs
    | some p =>
      obtain ⟨b, s2, l⟩ := p
      simp only [ha, Option.some.injEq, Prod.mk.injEq] at hs
      obtain ⟨rfl, rfl⟩ := hs
      exact util_buf_alloc_flag_false cfg env s s2 b l h ha
  | get =>
    simp only [pool_step] at hs
    cases hg : util_buf_get cfg s with
    | none => simp [hg] at hs
    | some p =>
      obtain ⟨b, s2⟩ := p
      simp only [hg, Option.some.injEq, Prod.mk.injEq] at hs
      obtain ⟨rfl, rfl⟩ := hs
      exact ⟨by rw [(util_buf_get_took cfg _ _ _ hg).attr]; exact h, rfl⟩
  | release buf =>
    simp only [pool_step] at hs
    cases hr : util_buf_release cfg s buf with
    | none => simp [hr] at hs
    | some s2 =>
      simp only [hr, Option.some.injEq, Prod.mk.injEq] at hs
      obtain ⟨rfl, rfl⟩ := hs
      exact ⟨by rw [(util_buf_release_spec cfg _ _ _ hr).2.2.1]; exact h, rfl⟩

theorem pool_run_flag_false (cfg : build_cfg) (ops : List pool_op) (s s1 : pool_mem)
    (evs : List event) (h : s.pool.attr.is_mmap_region = false)
    (hs : pool_run cfg ops s = some (s1, evs)) :
    s1.pool.attr.is_mmap_region = false ∧ evs.filter event.is_alloc_hugepage = [] := by
  induction ops generalizing s evs with
  | nil =>
    simp only [pool_run, Option.some.injEq, Prod.mk.injEq] at hs
    obtain ⟨rfl, rfl⟩ := hs
    exact ⟨h, rfl⟩
  | cons op ops ih =>
    simp only [pool_run] at hs
    cases h1 : pool_step cfg s op with
    | none => simp [h1] at hs
    | some p =>
      obtain ⟨s2, e1⟩ := p
      simp only [h1] at hs
      cases h2 : pool_run cfg ops s2 with
      | none => simp [h2] at hs
      | some q =>
        obtain ⟨s3, e2⟩ := q
        simp only [h2, Option.some.injEq, Prod.mk.injEq] at hs
        obtain ⟨rfl, rfl⟩ := hs
        have a := pool_step_flag_false cfg s s2 op e1 h h1
        have b := ih s2 e2 a.1 h2
        exact ⟨b.1, by rw [List.filter_append, a.2, b.2]; rfl⟩

/-- C11: util_buf_grow on a pool in huge-page mode whose huge-page allocation fails.
With num_allocated = 0 the pool clears is_mmap_region and requests the region from
the aligned allocator (and, when that and the later steps succeed, appends the
region placed there); from then on, over any sequence of grow, alloc, get and
release calls, the flag stays clear and the huge-page allocator is never called
again. With num_allocated > 0 the call returns -1 and leaves the whole state,
in particular regions, free buffers and num_allocated, as it was. -/
theorem util_buf_grow_hugepage_failure (cfg : build_cfg) (env : grow_env) (s : pool_mem)
    (hm : s.pool.attr.is_mmap_region = true)
    (hlim : s.pool.attr.max_cnt = 0 ∨ s.pool.num_allocated < s.pool.attr.max_cnt)
    (hc : env.calloc_ok = true) (hhp : 0 ≤ env.hp_size) (hfail : env.hugepage_ret ≠ 0) :
    (s.pool.num_allocated = 0 →
      (util_buf_grow cfg env s).2.1.pool.attr.is_mmap_region = false ∧
      (util_buf_grow cfg env s).2.2.filter event.is_memalign =
        [event.memalign s.pool.attr.alignment (s.pool.attr.chunk_cnt * s.pool.entry_sz)
          env.memalign_ret env.memalign_mem] ∧
      ((util_buf_grow cfg env s).1 = 0 →
        env.memalign_ret = 0 ∧
        (util_buf_grow cfg env s).2.1.pool.region_list =
          s.pool.region_list ++
            [new_region s env env.memalign_mem (s.pool.attr.chunk_cnt * s.pool.entry_sz)]) ∧
      (env.memalign_ret = 0 → (s.pool.attr.alloc_hndlr = true → env.hndlr_ret = 0) →
        env.realloc_ok = true → (util_buf_grow cfg env s).1 = 0) ∧
      (∀ (ops : List pool_op) (s2 : pool_mem) (evs : List event),
        pool_run cfg ops (util_buf_grow cfg env s).2.1 = some (s2, evs) →
        s2.pool.attr.is_mmap_region = false ∧
        evs.filter event.is_alloc_hugepage = [])) ∧
    (0 < s.pool.num_allocated →
      (util_buf_grow cfg env s).1 = -1 ∧ (util_buf_grow cfg env s).2.1 = s) := by
  have hl : ¬(s.pool.attr.max_cnt ≠ 0 ∧ s.pool.num_allocated ≥ s.pool.attr.max_cnt) := by
    omega
  have hneg : ¬ env.hp_size < 0 := by omega
  constructor
  · intro h0
    have hz : ¬ s.pool.num_allocated > 0 := by omega
    have heq : util_buf_grow cfg env s =
        util_buf_grow_memalign cfg env (with_mmap s false)
          ([event.calloc_region true] ++
            [event.alloc_hugepage
              (cfg.fi_get_aligned_sz (s.pool.attr.chunk_cnt * s.pool.entry_sz)
                (ssize_to_size env.hp_size)) env.hugepage_ret env.hugepage_mem]) := by
      unfold util_buf_grow
      simp only [hl, if_false, hc, Bool.not_true, Bool.false_eq_true, hm, if_true, hneg,
        hfail, ne_eq, not_false_eq_true, hz]
      rfl
    have hflag : (util_buf_grow cfg env s).2.1.pool.attr.is_mmap_region = false := by
      rw [heq, util_buf_grow_memalign_attr]; rfl
    refine ⟨hflag, ?_, ?_, ?_, ?_⟩
    · rw [heq, util_buf_grow_memalign_filter _
        (fun e he => by cases e <;> simp_all [event.is_memalign, event.is_mem_alloc])]
      simp [event.is_memalign]
      exact ⟨rfl, rfl⟩
    · intro hret
      rw [heq] at hret ⊢
      have := util_buf_grow_memalign_ok cfg env _ _ hret
      exact ⟨this.1, this.2.1.region_list⟩
    · intro h1 h2 h3
      rw [heq]
      exact util_buf_grow_memalign_succeeds cfg env _ _ h1 h2 h3
    · intro ops s2 evs hrun
      exact pool_run_flag_false cfg ops _ s2 evs hflag hrun
  · intro hpos
    unfold util_buf_grow
    simp only [hl, if_false, hc, Bool.not_true, Bool.false_eq_true, hm, if_true, hneg,
      hfail, ne_eq, not_false_eq_true, hpos, gt_iff_lt]
    trivial

theorem util_buf_grow_hugepage_failure_witness :
    example_huge_init.pool.attr.is_mmap_region = true ∧
    example_huge_init.pool.num_allocated = 0 ∧
    (util_buf_grow (example_cfg false) (example_env_no_hugepage 4096 11)
      example_huge_init).2.1.pool.attr.is_mmap_region = false ∧
    (util_buf_grow (example_cfg false) (example_env_no_hugepage 4096 11)
      example_huge_init).2.2.filter event.is_memalign =
      [event.memalign 16 (32768 * 80) 0 4096] :=
  ⟨rfl, rfl,
    ((util_buf_grow_hugepage_failure (example_cfg false) (example_env_no_hugepage 4096 11)
      example_huge_init rfl (Or.inl rfl) rfl (by decide) (by decide)).1 rfl).1,
    ((util_buf_grow_hugepage_failure (example_cfg false) (example_env_no_hugepage 4096 11)
      example_huge_init rfl (Or.inl rfl) rfl (by decide) (by decide)).1 rfl).2.1⟩

/-! ## Usage accounting of debug builds -/

theorem region_buf_list_nodup (pool : util_buf_pool) (mem : Nat) (h : 0 < pool.entry_sz) :
    ((List.range pool.attr.chunk_cnt).map (region_buf pool mem)).Nodup := by
  apply List.Nodup.map_on _ (List.nodup_range _)
  intro i _ j _ hij
  simp only [region_buf] at hij
  have : i * pool.entry_sz = j * pool.entry_sz := by omega
  exact Nat.eq_of_mul_eq_mul_right h this

theorem nodup_added (cfg : build_cfg) (s s1 : pool_mem) (log log1 : List grow_call)
    (held : List Nat) (r : util_buf_region)
    (hinv : pool_inv cfg s log held) (hinv1 : pool_inv cfg s1 log1 held)
    (hadd : grow_added cfg s s1 r) (hesz : 0 < s.pool.entry_sz)
    (hnd : (s.pool.buf_list ++ held).Nodup) : (s1.pool.buf_list ++ held).Nodup := by
  have hmems : region_mems s1 = region_mems s ++ [r.mem_region] := by
    simp [region_mems, hadd.region_list]
  rw [hadd.buf_list]
  have hperm : (s.pool.buf_list ++
        (List.range s.pool.attr.chunk_cnt).map (region_buf s.pool r.mem_region) ++ held).Perm
      ((List.range s.pool.attr.chunk_cnt).map (region_buf s.pool r.mem_region) ++
        (s.pool.buf_list ++ held)) := by
    rw [List.append_assoc]
    exact List.perm_append_comm_assoc _ _ _
  rw [hperm.nodup_iff, List.nodup_append]
  refine ⟨region_buf_list_nodup s.pool r.mem_region hesz, hnd, ?_⟩
  intro x hx1 hx2
  simp only [List.mem_map, List.mem_range] at hx1
  obtain ⟨i, hi, rfl⟩ := hx1
  obtain ⟨k, m, i2, hk, hi2, he⟩ := hinv.prov _ (List.mem_append.mp hx2)
  have hklt : k < (region_mems s).length := by
    rcases Nat.lt_or_ge k (region_mems s).length with h | h
    · exact h
    · rw [List.getElem?_eq_none h] at hk; cases hk
  have h1 : (region_mems s1)[k]? = some m := by
    rw [hmems, List.getElem?_append_left hklt]; exact hk
  have h2 : (region_mems s1)[(region_mems s).length]? = some r.mem_region := by
    rw [hmems]; exact List.getElem?_concat_length _ _
  have := region_buf_inj cfg s1 log1 held hinv1 (by rw [hadd.entry_sz]; exact hesz)
    k (region_mems s).length m r.mem_region i2 i h1 h2
    (by rw [hadd.attr]; exact hi2) (by rw [hadd.attr]; exact hi)
    (by simp only [region_buf, hadd.entry_sz] at he ⊢; omega)
  omega

/-- In a pool whose entries have a positive stride no buffer is both free and
held, and none is free or held twice. -/
theorem pool_reach_nodup (cfg : build_cfg) (hal : ∀ x a, x ≤ cfg.fi_get_aligned_sz x a)
    (s : pool_mem) (log : List grow_call) (held : List Nat)
    (hr : pool_reach cfg s log held) (hesz : 0 < s.pool.entry_sz) :
    (s.pool.buf_list ++ held).Nodup := by
  have hgrow : ∀ (env : grow_env) (s0 : pool_mem) (lg : List grow_call) (hl : List Nat),
      pool_inv cfg s0 lg hl → grow_env_fresh s0 env →
      0 < (util_buf_grow cfg env s0).2.1.pool.entry_sz →
      (0 < s0.pool.entry_sz → (s0.pool.buf_list ++ hl).Nodup) →
      ((util_buf_grow cfg env s0).2.1.pool.buf_list ++ hl).Nodup := by
    intro env s0 lg hl hinv hf hpos ih
    have hinv1 := pool_inv_grow cfg env s0 lg hl hinv hf
    by_cases h0 : (util_buf_grow cfg env s0).1 = 0
    · obtain ⟨_, b, mem, size, _, hadd, _⟩ := util_buf_grow_ok cfg env s0 h0
      have he : 0 < s0.pool.entry_sz := by
        have := hadd.entry_sz
        rw [this] at hpos; exact hpos
      exact nodup_added cfg (with_mmap s0 b) _ lg _ hl _
        (pool_inv_with_mmap cfg s0 lg hl b hinv) hinv1 hadd he (ih he)
    · obtain ⟨_, b, hs⟩ := util_buf_grow_fail cfg env s0 h0
      rw [hs] at hpos ⊢
      exact ih hpos
  have hget : ∀ (s0 s1 : pool_mem) (b : Nat) (hl : List Nat),
      util_buf_get cfg s0 = some (b, s1) → 0 < s1.pool.entry_sz →
      (0 < s0.pool.entry_sz → (s0.pool.buf_list ++ hl).Nodup) →
      (s1.pool.buf_list ++ b :: hl).Nodup := by
    intro s0 s1 b hl hg hpos ih
    have ht := util_buf_get_took cfg s0 s1 b hg
    have := ih (by rw [← ht.entry_sz]; exact hpos)
    rw [ht.buf_list] at this
    exact (List.perm_middle.nodup_iff).mpr this
  induction hr with
  | create env attr hc hf =>
    obtain ⟨rfl, rfl⟩ := util_buf_pool_create_attr_eq cfg _ _ _ _ hc
    exact hgrow _ _ [] [] (pool_inv_init cfg hal _ _) hf hesz (fun _ => by
      simp [util_buf_pool_create_init])
  | grow env hr0 hf ih =>
    exact hgrow env _ _ _ (pool_reach_inv cfg hal _ _ _ hr0) hf hesz ih
  | @alloc s0 s1 lg l hl env buf hr0 hf ha ih =>
    have hinv := pool_reach_inv cfg hal _ _ _ hr0
    cases hbl : s0.pool.buf_list with
    | nil =>
      rw [util_buf_alloc_empty cfg env s0 hbl] at ha
      split_ifs at ha with h0
      · simp only [Option.some.injEq, Prod.mk.injEq] at ha
        obtain ⟨rfl, rfl, rfl⟩ := ha
        simpa using hgrow env s0 lg hl hinv hf hesz ih
      · cases hgt : util_buf_get cfg (util_buf_grow cfg env s0).2.1 with
        | none => simp [hgt] at ha
        | some p =>
          obtain ⟨b, s2⟩ := p
          simp only [hgt, Option.some.injEq, Prod.mk.injEq] at ha
          obtain ⟨rfl, rfl, rfl⟩ := ha
          have hne : b ≠ 0 := by
            apply pool_inv_buf_nonnull cfg _ _ hl (pool_inv_grow cfg env s0 lg hl hinv hf)
            left
            rw [(util_buf_get_took cfg _ _ _ hgt).buf_list]
            simp
          rw [if_neg hne]
          exact hget _ _ b hl hgt hesz
            (fun hp => hgrow env s0 lg hl hinv hf hp ih)
    | cons x rest =>
      cases hgt : util_buf_get cfg s0 with
      | none =>
        unfold util_buf_alloc at ha
        simp [util_buf_avail, slist_empty, hbl, hgt] at ha
      | some p =>
        obtain ⟨b, s2⟩ := p
        rw [util_buf_alloc_avail cfg env s0 s2 b hgt (by simp [hbl])] at ha
        simp only [Option.some.injEq, Prod.mk.injEq] at ha
        obtain ⟨rfl, rfl, rfl⟩ := ha
        have hne : b ≠ 0 := by
          apply pool_inv_buf_nonnull cfg _ _ hl hinv
          left
          rw [(util_buf_get_took cfg _ _ _ hgt).buf_list]
          simp
        rw [if_neg hne]
        exact hget _ _ b hl hgt hesz ih
  | get hr0 hg ih => exact hget _ _ _ _ hg hesz ih
  | @release s0 s1 lg hl buf hr0 hb hrel ih =>
    obtain ⟨h1, _, _, h4, _⟩ := util_buf_release_spec cfg _ _ _ hrel
    have := ih (by rw [← h4]; exact hesz)
    rw [h1]
    have hp : (buf :: s0.pool.buf_list ++ hl.erase buf).Perm (s0.pool.buf_list ++ hl) := by
      have h2 : (hl).Perm (buf :: hl.erase buf) := List.perm_cons_erase hb
      exact (List.perm_middle.symm).trans (List.Perm.append_left _ h2.symm)
    exact hp.nodup_iff.mpr this

/-- For a held buffer, the region named by its footer is the region whose range
contains it. -/
theorem pool_inv_region_is_in_region (cfg : build_cfg) (s : pool_mem)
    (log : List grow_call) (held : List Nat) (hinv : pool_inv cfg s log held)
    (hon : util_buf_use_ftr cfg s.pool = true) (hlink : sizeof_slist_entry ≤ s.pool.attr.size)
    (k : Nat) (r : util_buf_region)
    (hk : s.pool.region_list[k]? = some r) (b : Nat)
    (hb : b ∈ s.pool.buf_list ∨ b ∈ held) :
    buf_region_is s k b = in_region s.pool r b := by
  have hsz := hinv.esz hon
  obtain ⟨k0, m0, i, hk0, hi, rfl⟩ := hinv.prov b hb
  have hkm : (region_mems s)[k]? = some r.mem_region := by
    simp [region_mems, List.getElem?_map, hk]
  rw [pool_inv_buf_region_is cfg s log held hinv hon hlink k0 m0 i hk0 hi k]
  have hmul := mul_succ_le i _ s.pool.entry_sz hi
  by_cases hkk : k0 = k
  · subst hkk
    rw [hk0] at hkm
    simp only [Option.some.injEq] at hkm
    subst hkm
    simp only [beq_self_eq_true, in_region, region_buf]
    symm
    rw [decide_eq_true_eq]
    omega
  · have hd := hinv.disj k0 k m0 r.mem_region hk0 hkm hkk
    have : (k0 == k) = false := by simpa using hkk
    rw [this]
    symm
    simp only [in_region, region_buf, decide_eq_false_iff_not]
    omega

/-- The destroy loop stops at the usage assertion when a region still has a
buffer in use. -/
theorem util_buf_pool_destroy_loop_none (cfg : build_cfg) (attr : util_buf_attr)
    (unmap_ret : Nat → Int) (hd : cfg.debug = true) (ht : attr.track_used = true)
    (l : List util_buf_region) (h : ∃ r ∈ l, r.num_used ≠ 0) :
    util_buf_pool_destroy_loop cfg attr unmap_ret l = none := by
  induction l with
  | nil => simp at h
  | cons r rest ih =>
    unfold util_buf_pool_destroy_loop
    by_cases hr : r.num_used = 0
    · have hrest : util_buf_pool_destroy_loop cfg attr unmap_ret rest = none := by
        apply ih
        obtain ⟨x, hx, hx0⟩ := h
        rcases List.mem_cons.mp hx with h1 | h1
        · subst h1; exact absurd hr hx0
        · exact ⟨x, h1, hx0⟩
      simp only [hrest, Option.map_none']
      split_ifs <;> rfl
    · have : (cfg.debug && attr.track_used && r.num_used != 0) = true := by
        simp [hd, ht, hr]
      simp [this]

/-- C12 (as amended): in a debug build, for a pool whose buffers are large enough
to hold the link of the free list (attr.size is at least sizeof(struct slist_entry),
so that no link store reaches a footer), in every state reached by create, grow,
alloc, get and release of held buffers, no buffer is held twice and the num_used
of each region is the number of held buffers that lie in that region; hence, for a
pool created with track_used set, util_buf_pool_destroy stops at its assertion as
long as a buffer is held, and when no buffer is held every region has num_used = 0,
so the assertion passes for every region and the destroy runs to its end. -/
theorem util_buf_num_used_counts_held (cfg : build_cfg)
    (hal : ∀ x a, x ≤ cfg.fi_get_aligned_sz x a) (hd : cfg.debug = true)
    (s : pool_mem) (log : List grow_call) (held : List Nat)
    (hr : pool_reach cfg s log held) (hlink : sizeof_slist_entry ≤ s.pool.attr.size) :
    held.Nodup ∧
    (∀ (k : Nat) (r : util_buf_region), s.pool.region_list[k]? = some r →
      r.num_used = held.countP (in_region s.pool r)) ∧
    (s.pool.attr.track_used = true → held ≠ [] →
      ∀ unmap_ret : Nat → Int, util_buf_pool_destroy cfg unmap_ret s = none) ∧
    (held = [] →
      (∀ r ∈ s.pool.region_list, r.num_used = 0) ∧
      ∀ unmap_ret : Nat → Int,
        (s.pool.attr.is_mmap_region = true →
          ∀ r ∈ s.pool.region_list, unmap_ret r.mem_region = 0) →
        ∃ evs, util_buf_pool_destroy cfg unmap_ret s = some evs) := by
  have hinv := pool_reach_inv cfg hal s log held hr
  have hon : util_buf_use_ftr cfg s.pool = true := by simp [util_buf_use_ftr, hd]
  have hpos : 0 < s.pool.entry_sz := by have := hinv.esz hon; omega
  have hcount : ∀ (k : Nat) (r : util_buf_region), s.pool.region_list[k]? = some r →
      r.num_used = held.countP (in_region s.pool r) := by
    intro k r hk
    have := hinv.used k r hk
    simp only [hd, if_true] at this
    rw [this]
    apply List.countP_congr
    intro b hb
    rw [pool_inv_region_is_in_region cfg s log held hinv hon hlink k r hk b (Or.inr hb)]
  have hzero : held = [] → ∀ r ∈ s.pool.region_list, r.num_used = 0 := by
    intro hh r hr
    obtain ⟨k, hk⟩ := List.mem_iff_getElem?.mp hr
    rw [hcount k r hk, hh]
    rfl
  refine ⟨?_, hcount, ?_, ?_⟩
  · exact (List.nodup_append.mp (pool_reach_nodup cfg hal s log held hr hpos)).2.1
  · intro ht hne unmap_ret
    obtain ⟨b, hb⟩ := List.exists_mem_of_ne_nil held hne
    obtain ⟨k, m, i, hk, hi, he⟩ := hinv.prov b (Or.inr hb)
    obtain ⟨r, hr, hrm⟩ : ∃ r, s.pool.region_list[k]? = some r ∧ r.mem_region = m := by
      simp only [region_mems, List.getElem?_map, Option.map_eq_some'] at hk
      exact hk
    have hu := hinv.used k r hr
    simp only [hd, if_true] at hu
    have hp : buf_region_is s k b = true := by
      rw [he, pool_inv_buf_region_is cfg s log held hinv hon hlink k m i hk hi k]
      simp
    have hcp : 0 < held.countP (buf_region_is s k) :=
      List.countP_pos_iff.mpr ⟨b, hb, hp⟩
    have hl := util_buf_pool_destroy_loop_none cfg s.pool.attr unmap_ret hd ht
      s.pool.region_list ⟨r, List.mem_iff_getElem?.mpr ⟨k, hr⟩, by omega⟩
    simp [util_buf_pool_destroy, hl]
  · intro hh
    refine ⟨hzero hh, ?_⟩
    intro unmap_ret hu
    obtain ⟨evs, he⟩ := util_buf_pool_destroy_loop_some cfg s.pool.attr unmap_ret
      s.pool.region_list (fun _ hm => hu hm) (fun _ _ => hzero hh)
    exact ⟨evs ++ [event.free_pool], by simp [util_buf_pool_destroy, he]⟩

theorem example_pool_debug_held_reach :
    ∃ log, pool_reach (example_cfg true) example_pool_debug_held log [4096] :=
  ⟨_, pool_reach.get
    (pool_reach.create example_create_env (example_attr 0 1 false) rfl
      ⟨fun _ => ⟨by decide, fun r hr => by simp [util_buf_pool_create_init] at hr⟩,
       fun _ => ⟨by decide, fun r hr => by simp [util_buf_pool_create_init] at hr⟩⟩) rfl⟩

theorem util_buf_num_used_counts_held_witness :
    (∃ log, pool_reach (example_cfg true) example_pool_debug_held log [4096]) ∧
    sizeof_slist_entry ≤ example_pool_debug_held.pool.attr.size ∧
    example_pool_debug_held.pool.region_list.map (fun r => r.num_used) = [1] ∧
    util_buf_pool_destroy (example_cfg true) (fun _ => 0) example_pool_debug_held = none := by
  obtain ⟨log, hr⟩ := example_pool_debug_held_reach
  have h := util_buf_num_used_counts_held (example_cfg true) example_aligned_sz_ge rfl
    example_pool_debug_held log [4096] hr (by decide)
  exact ⟨⟨log, hr⟩, by decide, rfl, h.2.2.1 rfl (by simp) (fun _ => 0)⟩

/-- C12 (as stated): a debug-build pool created with track_used = 0 whose only
buffer was handed out by util_buf_get and never released: the region has
num_used = 1, and util_buf_pool_destroy makes no assertion on it and runs to its
end, freeing the region and the pool. -/
theorem util_buf_destroy_untracked_leak :
    (∃ log, pool_reach (example_cfg true) example_pool_untracked_held log [4096]) ∧
    example_pool_untracked_held.pool.attr.track_used = false ∧
    example_pool_untracked_held.pool.region_list.map (fun r => r.num_used) = [1] ∧
    util_buf_pool_destroy (example_cfg true) (fun _ => 0) example_pool_untracked_held =
      some [event.freealign 4096, event.free_region, event.free_pool] :=
  ⟨⟨_, pool_reach.get
      (pool_reach.create example_create_env example_attr_untracked rfl
        ⟨fun _ => ⟨by decide, fun r hr => by simp [util_buf_pool_create_init] at hr⟩,
         fun _ => ⟨by decide, fun r hr => by simp [util_buf_pool_create_init] at hr⟩⟩) rfl⟩,
   rfl, rfl, rfl⟩

/-! ## The entry stride -/

theorem fi_get_aligned_sz_dvd (x a : Nat) : a ∣ fi_get_aligned_sz x a := by
  unfold fi_get_aligned_sz
  split_ifs with h
  · exact Nat.dvd_of_mod_eq_zero h
  · exact Dvd.intro_left _ rfl

theorem fi_get_aligned_sz_ge (x a : Nat) (ha : 0 < a) : x ≤ fi_get_aligned_sz x a := by
  unfold fi_get_aligned_sz
  split_ifs with h
  · exact le_rfl
  · have h1 := Nat.div_add_mod x a
    have h2 := Nat.mod_lt x ha
    have h3 : (x / a + 1) * a = a * (x / a) + a := by ring
    omega

theorem fi_get_aligned_sz_least (x a m : Nat) (hd : a ∣ m) (hm : x ≤ m) :
    fi_get_aligned_sz x a ≤ m := by
  unfold fi_get_aligned_sz
  split_ifs with h
  · exact hm
  · obtain ⟨q, rfl⟩ := hd
    have hlt : x / a < q := by
      by_contra hq
      have hq : q ≤ x / a := not_lt.mp hq
      have h1 : a * q ≤ a * (x / a) := Nat.mul_le_mul_left a hq
      have h2 : a * (x / a) ≤ x := Nat.mul_div_le x a
      have : x = a * q := by omega
      exact h (by rw [this]; exact Nat.mul_mod_right a q)
    calc (x / a + 1) * a ≤ q * a := Nat.mul_le_mul_right a hlt
      _ = a * q := Nat.mul_comm q a

/-- C13: with the alignment helper as the spec describes it and attr.alignment > 0,
util_buf_pool_create_attr sets entry_sz to the smallest multiple of alignment that
is at least size + F, where F is sizeof(struct util_buf_footer) when
util_buf_use_ftr holds (always in debug builds; in optimised builds exactly when
alloc_hndlr, free_hndlr or use_ftr is set) and 0 otherwise; the pool that a
successful creation returns has this entry_sz, and for each buffer the footer,
which starts right after the payload of attr.size bytes, ends inside the stride
of the buffer. -/
theorem util_buf_pool_create_entry_sz (debug : Bool) (env : create_env)
    (attr : util_buf_attr) (ha : 0 < attr.alignment) (F : Nat)
    (hF : F = if util_buf_use_ftr (ofi_cfg debug)
                  (util_buf_pool_create_init (ofi_cfg debug) env.hp_size attr)
              then sizeof_util_buf_footer else 0) :
    (debug = true → F = sizeof_util_buf_footer) ∧
    (debug = false →
      (attr.alloc_hndlr = true ∨ attr.free_hndlr = true ∨ attr.use_ftr = true) →
      F = sizeof_util_buf_footer) ∧
    (debug = false → attr.alloc_hndlr = false → attr.free_hndlr = false →
      attr.use_ftr = false → F = 0) ∧
    attr.alignment ∣ (util_buf_pool_create_init (ofi_cfg debug) env.hp_size attr).entry_sz ∧
    attr.size + F ≤ (util_buf_pool_create_init (ofi_cfg debug) env.hp_size attr).entry_sz ∧
    (∀ m : Nat, attr.alignment ∣ m → attr.size + F ≤ m →
      (util_buf_pool_create_init (ofi_cfg debug) env.hp_size attr).entry_sz ≤ m) ∧
    (env.calloc_ok = true → grow_env_ok env.grow →
      ∃ s log, util_buf_pool_create_attr (ofi_cfg debug) env attr = (0, some s, log)) ∧
    (∀ (s : pool_mem) (log : List grow_call),
      util_buf_pool_create_attr (ofi_cfg debug) env attr = (0, some s, log) →
      s.pool.entry_sz =
        (util_buf_pool_create_init (ofi_cfg debug) env.hp_size attr).entry_sz ∧
      s.pool.attr.size = attr.size ∧
      s.pool.attr.alignment = attr.alignment ∧
      ∀ b : Nat, util_buf_ftr_addr s.pool b = b + attr.size ∧
        util_buf_ftr_addr s.pool b + F ≤ b + s.pool.entry_sz) := by
  have hu : util_buf_use_ftr (ofi_cfg debug)
      (util_buf_pool_create_init (ofi_cfg debug) env.hp_size attr) =
      (debug || (attr.alloc_hndlr || attr.free_hndlr || attr.use_ftr)) := by
    cases debug <;> simp [util_buf_use_ftr, ofi_cfg, util_buf_pool_create_init]
  have he : (util_buf_pool_create_init (ofi_cfg debug) env.hp_size attr).entry_sz =
      fi_get_aligned_sz (attr.size + F) attr.alignment := by
    rw [hF, hu]
    cases debug <;>
      cases h1 : attr.alloc_hndlr <;> cases h2 : attr.free_hndlr <;>
      cases h3 : attr.use_ftr <;>
      simp [util_buf_pool_create_init, util_buf_use_ftr, ofi_cfg, h1, h2, h3]
  have hge : attr.size + F ≤
      (util_buf_pool_create_init (ofi_cfg debug) env.hp_size attr).entry_sz := by
    rw [he]; exact fi_get_aligned_sz_ge _ _ ha
  rw [hu] at hF
  refine ⟨?_, ?_, ?_, ?_, hge, ?_, ?_, ?_⟩
  · intro hd; simp [hF, hd]
  · intro hd h
    rcases h with h | h | h <;> simp [hF, hd, h]
  · intro hd h1 h2 h3; simp [hF, hd, h1, h2, h3]
  · rw [he]; exact fi_get_aligned_sz_dvd _ _
  · intro m hd hm
    rw [he]; exact fi_get_aligned_sz_least _ _ m hd hm
  · intro hc hok
    exact util_buf_pool_create_attr_succeeds (ofi_cfg debug) env attr hc hok
  · intro s log h
    obtain ⟨b, mem, size, _, hadd, _, _⟩ :=
      util_buf_pool_create_attr_state (ofi_cfg debug) env attr s log h
    have hsz : s.pool.entry_sz =
        (util_buf_pool_create_init (ofi_cfg debug) env.hp_size attr).entry_sz := by
      rw [hadd.entry_sz]; rfl
    have hattr : s.pool.attr.size = attr.size := by rw [hadd.attr]; rfl
    have hal : s.pool.attr.alignment = attr.alignment := by rw [hadd.attr]; rfl
    refine ⟨hsz, hattr, hal, ?_⟩
    intro b
    simp only [util_buf_ftr_addr, hattr, hsz, true_and]
    omega

theorem util_buf_pool_create_entry_sz_witness :
    0 < (example_attr 0 1 false).alignment ∧
    (util_buf_pool_create_init (ofi_cfg false) example_create_env.hp_size
      (example_attr 0 1 false)).entry_sz = 80 ∧
    (example_attr 0 1 false).size + 16 ≤
      (util_buf_pool_create_init (ofi_cfg false) example_create_env.hp_size
        (example_attr 0 1 false)).entry_sz ∧
    ∃ s log, util_buf_pool_create_attr (ofi_cfg false) example_create_env
      (example_attr 0 1 false) = (0, some s, log) :=
  have h := util_buf_pool_create_entry_sz false example_create_env
    (example_attr 0 1 false) (by decide) 16 rfl
  ⟨by decide, by decide, h.2.2.2.2.1,
   h.2.2.2.2.2.2.1 rfl ⟨rfl, by decide, rfl, by decide, rfl, by decide, rfl, rfl⟩⟩

/-! ## The reverse table -/

theorem util_buf_alloc_cases (cfg : build_cfg) (env : grow_env) (s s1 : pool_mem)
    (buf : Nat) (l : List grow_call) (h : util_buf_alloc cfg env s = some (buf, s1, l)) :
    (l = [] ∧ util_buf_get cfg s = some (buf, s1)) ∨
    (l = [{ ret := (util_buf_grow cfg env s).1, events := (util_buf_grow cfg env s).2.2 }] ∧
      (((util_buf_grow cfg env s).1 ≠ 0 ∧ buf = 0 ∧ s1 = (util_buf_grow cfg env s).2.1) ∨
       ((util_buf_grow cfg env s).1 = 0 ∧
        util_buf_get cfg (util_buf_grow cfg env s).2.1 = some (buf, s1)))) := by
  unfold util_buf_alloc at h
  simp only at h
  split_ifs at h with h1 h2
  · simp only [Option.some.injEq, Prod.mk.injEq] at h
    obtain ⟨rfl, rfl, rfl⟩ := h
    exact Or.inr ⟨rfl, Or.inl ⟨h2, rfl, rfl⟩⟩
  · cases hg : util_buf_get cfg (util_buf_grow cfg env s).2.1 with
    | none => simp [hg] at h
    | some p =>
      obtain ⟨b, s2⟩ := p
      simp only [hg, Option.some.injEq, Prod.mk.injEq] at h
      obtain ⟨rfl, rfl, rfl⟩ := h
      exact Or.inr ⟨rfl, Or.inr ⟨not_not.mp h2, rfl⟩⟩
  · cases hg : util_buf_get cfg s with
    | none => simp [hg] at h
    | some p =>
      obtain ⟨b, s2⟩ := p
      simp only [hg, Option.some.injEq, Prod.mk.injEq] at h
      obtain ⟨rfl, rfl, rfl⟩ := h
      exact Or.inl ⟨rfl, rfl⟩

theorem util_buf_grow_finish_table (cfg : build_cfg) (s : pool_mem) (r : util_buf_region)
    (evs : List event) :
    (util_buf_grow_finish cfg s r evs).2.1.pool.regions_table = s.pool.regions_table ∧
    (util_buf_grow_finish cfg s r evs).2.1.pool.regions_cnt = s.pool.regions_cnt := by
  have hp := util_buf_grow_loop_pool cfg s.pool.region_list.length r.mem_region
    (List.range s.pool.attr.chunk_cnt) s evs
  constructor <;> simp [util_buf_grow_finish, hp]

theorem util_buf_grow_provision_table (cfg : build_cfg) (env : grow_env) (s : pool_mem)
    (mem size : Nat) (evs : List event)
    (h : (util_buf_grow_provision cfg env s mem size evs).1 = 0) :
    (util_buf_use_ftr cfg s.pool = true ∧
        s.pool.regions_cnt % UTIL_BUF_POOL_REGION_CHUNK_CNT = 0 →
      (util_buf_grow_provision cfg env s mem size evs).2.1.pool.regions_table =
        (realloc_table s.pool.regions_table
          (s.pool.regions_cnt + UTIL_BUF_POOL_REGION_CHUNK_CNT)).set s.pool.regions_cnt
          (some s.pool.region_list.length) ∧
      (util_buf_grow_provision cfg env s mem size evs).2.1.pool.regions_cnt = s.pool.regions_cnt + 1) ∧
    (¬(util_buf_use_ftr cfg s.pool = true ∧
        s.pool.regions_cnt % UTIL_BUF_POOL_REGION_CHUNK_CNT = 0) →
      (util_buf_grow_provision cfg env s mem size evs).2.1.pool.regions_table = s.pool.regions_table ∧
      (util_buf_grow_provision cfg env s mem size evs).2.1.pool.regions_cnt = s.pool.regions_cnt) := by
  unfold util_buf_grow_provision at h ⊢
  simp only at h ⊢
  by_cases hc : util_buf_use_ftr cfg s.pool = true ∧
      s.pool.regions_cnt % UTIL_BUF_POOL_REGION_CHUNK_CNT = 0
  · refine ⟨fun _ => ?_, fun hn => absurd hc hn⟩
    have hb : (util_buf_use_ftr cfg s.pool &&
        s.pool.regions_cnt % UTIL_BUF_POOL_REGION_CHUNK_CNT == 0) = true := by
      simp [hc.1, hc.2]
    simp only [hb, if_true] at h ⊢
    split_ifs at h ⊢
    all_goals first
      | (simp at h; done)
      | exact util_buf_grow_finish_table cfg _ _ _
  · refine ⟨fun hp => absurd hp hc, fun _ => ?_⟩
    have hb : (util_buf_use_ftr cfg s.pool &&
        s.pool.regions_cnt % UTIL_BUF_POOL_REGION_CHUNK_CNT == 0) = false := by
      by_contra hx
      simp only [Bool.not_eq_false, Bool.and_eq_true, beq_iff_eq] at hx
      exact hc hx
    simp only [hb, Bool.false_eq_true, if_false] at h ⊢
    split_ifs at h ⊢
    all_goals first
      | (simp at h; done)
      | exact util_buf_grow_finish_table cfg _ _ _

theorem util_buf_grow_memalign_table (cfg : build_cfg) (env : grow_env) (s : pool_mem)
    (evs : List event) (h : (util_buf_grow_memalign cfg env s evs).1 = 0) :
    (util_buf_use_ftr cfg s.pool = true ∧
        s.pool.regions_cnt % UTIL_BUF_POOL_REGION_CHUNK_CNT = 0 →
      (util_buf_grow_memalign cfg env s evs).2.1.pool.regions_table =
        (realloc_table s.pool.regions_table
          (s.pool.regions_cnt + UTIL_BUF_POOL_REGION_CHUNK_CNT)).set s.pool.regions_cnt
          (some s.pool.region_list.length) ∧
      (util_buf_grow_memalign cfg env s evs).2.1.pool.regions_cnt = s.pool.regions_cnt + 1) ∧
    (¬(util_buf_use_ftr cfg s.pool = true ∧
        s.pool.regions_cnt % UTIL_BUF_POOL_REGION_CHUNK_CNT = 0) →
      (util_buf_grow_memalign cfg env s evs).2.1.pool.regions_table = s.pool.regions_table ∧
      (util_buf_grow_memalign cfg env s evs).2.1.pool.regions_cnt = s.pool.regions_cnt) := by
  unfold util_buf_grow_memalign at h ⊢
  simp only at h ⊢
  split_ifs at h ⊢
  · simp at h
  · exact util_buf_grow_provision_table cfg env _ _ _ _ h

theorem util_buf_grow_table (cfg : build_cfg) (env : grow_env) (s : pool_mem) :
    ((util_buf_grow cfg env s).1 ≠ 0 →
      (util_buf_grow cfg env s).2.1.pool.regions_table = s.pool.regions_table ∧
      (util_buf_grow cfg env s).2.1.pool.regions_cnt = s.pool.regions_cnt ∧
      (util_buf_grow cfg env s).2.1.pool.region_list = s.pool.region_list) ∧
    ((util_buf_grow cfg env s).1 = 0 →
      (util_buf_grow cfg env s).2.1.pool.region_list.length =
        s.pool.region_list.length + 1 ∧
      (util_buf_use_ftr cfg s.pool = true ∧
          s.pool.regions_cnt % UTIL_BUF_POOL_REGION_CHUNK_CNT = 0 →
        (util_buf_grow cfg env s).2.1.pool.regions_table =
          (realloc_table s.pool.regions_table
            (s.pool.regions_cnt + UTIL_BUF_POOL_REGION_CHUNK_CNT)).set s.pool.regions_cnt
            (some s.pool.region_list.length) ∧
        (util_buf_grow cfg env s).2.1.pool.regions_cnt = s.pool.regions_cnt + 1) ∧
      (¬(util_buf_use_ftr cfg s.pool = true ∧
          s.pool.regions_cnt % UTIL_BUF_POOL_REGION_CHUNK_CNT = 0) →
        (util_buf_grow cfg env s).2.1.pool.regions_table = s.pool.regions_table ∧
        (util_buf_grow cfg env s).2.1.pool.regions_cnt = s.pool.regions_cnt)) := by
  constructor
  · intro h
    obtain ⟨_, b, hb⟩ := util_buf_grow_fail cfg env s h
    rw [hb]
    exact ⟨rfl, rfl, rfl⟩
  · intro h
    constructor
    · obtain ⟨_, b, mem, size, _, hadd, _⟩ := util_buf_grow_ok cfg env s h
      rw [hadd.region_list]
      simp [with_mmap]
    · unfold util_buf_grow at h ⊢
      simp only at h ⊢
      split_ifs at h ⊢ with h1 h2 h3 h4 h5 h6
      all_goals first
        | (simp at h; done)
        | exact util_buf_grow_provision_table cfg env _ _ _ _ h
        | exact util_buf_grow_memalign_table cfg env _ _ h

theorem util_buf_grow_use_ftr (cfg : build_cfg) (env : grow_env) (s : pool_mem) :
    util_buf_use_ftr cfg (util_buf_grow cfg env s).2.1.pool = util_buf_use_ftr cfg s.pool := by
  by_cases h : (util_buf_grow cfg env s).1 = 0
  · obtain ⟨_, b, mem, size, _, hadd, _⟩ := util_buf_grow_ok cfg env s h
    simp only [util_buf_use_ftr, hadd.attr, with_mmap]
  · obtain ⟨_, b, hb⟩ := util_buf_grow_fail cfg env s h
    rw [hb]
    rfl

theorem grow_successes_append (log : List grow_call) (c : grow_call) :
    grow_successes (log ++ [c]) = grow_successes log + if c.ret = 0 then 1 else 0 := by
  unfold grow_successes
  rw [List.filter_append, List.length_append]
  by_cases h : c.ret = 0 <;> simp [List.filter_cons, h]

theorem grow_successes_single (c : grow_call) :
    grow_successes [c] = if c.ret = 0 then 1 else 0 := by
  have := grow_successes_append [] c
  simpa [grow_successes] using this

theorem table_inv_grow (cfg : build_cfg) (env : grow_env) (s : pool_mem)
    (log : List grow_call) (h : table_inv cfg s log) :
    table_inv cfg (util_buf_grow cfg env s).2.1
      (log ++ [{ ret := (util_buf_grow cfg env s).1,
                 events := (util_buf_grow cfg env s).2.2 }]) := by
  have ht := util_buf_grow_table cfg env s
  by_cases h0 : (util_buf_grow cfg env s).1 = 0
  · obtain ⟨hlen, htab⟩ := ht.2 h0
    refine ⟨?_, by omega, ?_⟩
    · rw [grow_successes_append, hlen, h.len]
      simp [h0]
    · intro hon
      rw [util_buf_grow_use_ftr] at hon
      obtain ⟨hc, htb⟩ := h.table hon
      have hn : ¬(util_buf_use_ftr cfg s.pool = true ∧
          s.pool.regions_cnt % UTIL_BUF_POOL_REGION_CHUNK_CNT = 0) := by
        rw [hc]
        simp [UTIL_BUF_POOL_REGION_CHUNK_CNT]
      obtain ⟨h1, h2⟩ := htab.2 hn
      exact ⟨h2.trans hc, h1.trans htb⟩
  · obtain ⟨h1, h2, h3⟩ := ht.1 h0
    refine ⟨?_, by rw [h3]; exact h.pos, ?_⟩
    · rw [grow_successes_append, h3, h.len]
      simp [h0]
    · intro hon
      rw [util_buf_grow_use_ftr] at hon
      obtain ⟨hc, htb⟩ := h.table hon
      exact ⟨h2.trans hc, h1.trans htb⟩

theorem table_inv_get (cfg : build_cfg) (s s1 : pool_mem) (log : List grow_call)
    (b : Nat) (h : table_inv cfg s log) (hg : util_buf_get cfg s = some (b, s1)) :
    table_inv cfg s1 log := by
  have ht := util_buf_get_took cfg s s1 b hg
  have hl : s1.pool.region_list.length = s.pool.region_list.length := by
    have := congrArg List.length ht.geom
    simpa using this
  refine ⟨hl.trans h.len, by rw [hl]; exact h.pos, ?_⟩
  intro hon
  have hon0 : util_buf_use_ftr cfg s.pool = true := by
    simpa [util_buf_use_ftr, ht.attr] using hon
  obtain ⟨hc, htb⟩ := h.table hon0
  exact ⟨ht.regions_cnt.trans hc, ht.regions_table.trans htb⟩

theorem table_inv_release (cfg : build_cfg) (s s1 : pool_mem) (log : List grow_call)
    (b : Nat) (h : table_inv cfg s log) (hg : util_buf_release cfg s b = some s1) :
    table_inv cfg s1 log := by
  obtain ⟨_, _, hattr, _, _, htab, hcnt, hgeom, _, _⟩ := util_buf_release_spec cfg s s1 b hg
  have hl : s1.pool.region_list.length = s.pool.region_list.length := by
    have := congrArg List.length hgeom
    simpa using this
  refine ⟨hl.trans h.len, by rw [hl]; exact h.pos, ?_⟩
  intro hon
  have hon0 : util_buf_use_ftr cfg s.pool = true := by
    simpa [util_buf_use_ftr, hattr] using hon
  obtain ⟨hc, htb⟩ := h.table hon0
  exact ⟨hcnt.trans hc, htab.trans htb⟩

theorem table_inv_alloc (cfg : build_cfg) (env : grow_env) (s s1 : pool_mem)
    (log l : List grow_call) (b : Nat) (h : table_inv cfg s log)
    (ha : util_buf_alloc cfg env s = some (b, s1, l)) : table_inv cfg s1 (log ++ l) := by
  rcases util_buf_alloc_cases cfg env s s1 b l ha with ⟨rfl, hg⟩ | ⟨rfl, hc⟩
  · simpa using table_inv_get cfg s s1 log b h hg
  · have hg := table_inv_grow cfg env s log h
    rcases hc with ⟨_, _, rfl⟩ | ⟨_, hget⟩
    · exact hg
    · exact table_inv_get cfg _ s1 _ b hg hget

theorem pool_reach_table (cfg : build_cfg) (s : pool_mem) (log : List grow_call)
    (held : List Nat) (hr : pool_reach cfg s log held) : table_inv cfg s log := by
  induction hr with
  | create env attr hc hf =>
    obtain ⟨rfl, rfl⟩ := util_buf_pool_create_attr_eq cfg _ _ _ _ hc
    obtain ⟨_, _, _, _, _, hlog, _⟩ := util_buf_pool_create_attr_state cfg _ _ _ _ hc
    have h0 : (util_buf_grow cfg env.grow
        { pool := util_buf_pool_create_init cfg env.hp_size attr,
          footers := fun _ => none }).1 = 0 := by
      simp only [List.cons.injEq, and_true] at hlog
      exact congrArg grow_call.ret hlog
    obtain ⟨hlen, htab⟩ := (util_buf_grow_table cfg env.grow _).2 h0
    refine ⟨?_, by omega, ?_⟩
    · rw [hlen]
      rw [grow_successes_single, if_pos h0]
      rfl
    · intro hon
      rw [util_buf_grow_use_ftr] at hon
      obtain ⟨h1, h2⟩ := htab.1 ⟨hon, rfl⟩
      exact ⟨h2, h1⟩
  | grow env _ hf ih => exact table_inv_grow cfg env _ _ ih
  | alloc env _ hf ha ih => exact table_inv_alloc cfg env _ _ _ _ _ ih ha
  | get _ hg ih => exact table_inv_get cfg _ _ _ _ ih hg
  | release buf _ hb hrel ih => exact table_inv_release cfg _ _ _ buf ih hrel

/-- C14: in every state a footer-enabled pool can be in after create and any
sequence of grow, alloc, get and release, with n the number of util_buf_grow calls
that returned 0 (the one of the creation included), the region list has n >= 1
regions, but regions_cnt is 1 and the reverse table has 16 slots of which only
slot 0 is written (it names the first region); slots 1 .. 15 are unwritten, and
the table is never enlarged again. So for n >= 2 regions_cnt is not n and
regions_table[k] is not the k-th region for 1 <= k < n. -/
theorem util_buf_grow_regions_table_stuck (cfg : build_cfg) (s : pool_mem)
    (log : List grow_call) (held : List Nat) (hr : pool_reach cfg s log held)
    (hon : util_buf_use_ftr cfg s.pool = true) :
    s.pool.region_list.length = grow_successes log ∧
    1 ≤ grow_successes log ∧
    s.pool.regions_cnt = 1 ∧
    s.pool.regions_table = some 0 :: List.replicate 15 none ∧
    (∀ k : Nat, 1 ≤ k → k < grow_successes log → s.pool.regions_table[k]? ≠ some (some k)) := by
  have h := pool_reach_table cfg s log held hr
  obtain ⟨hc, ht⟩ := h.table hon
  refine ⟨h.len, by rw [← h.len]; exact h.pos, hc, ht, ?_⟩
  intro k hk _
  rw [ht]
  obtain ⟨j, rfl⟩ : ∃ j, k = j + 1 := ⟨k - 1, by omega⟩
  rw [List.getElem?_cons_succ]
  intro hx
  obtain ⟨_, hv⟩ := List.getElem?_eq_some_iff.mp hx
  rw [List.getElem_replicate] at hv
  cases hv

theorem util_buf_grow_regions_table_stuck_witness :
    ∃ log, pool_reach (example_cfg false) example_pool_grown log [] ∧
      grow_successes log = 2 ∧
      example_pool_grown.pool.region_list.length = 2 ∧
      example_pool_grown.pool.regions_cnt = 1 ∧
      example_pool_grown.pool.regions_table[1]? = some none := by
  obtain ⟨log, hr⟩ := example_pool_grown_reach
  have h := util_buf_grow_regions_table_stuck (example_cfg false) example_pool_grown log []
    hr rfl
  have h2 : example_pool_grown.pool.region_list.length = 2 := by decide
  refine ⟨log, hr, ?_, h2, h.2.2.1, ?_⟩
  · rw [← h.1]; exact h2
  · rw [h.2.2.2.1]; rfl

/-! ## Footer indices -/

/-- Provisioning a region leaves the footers of the buffers of the older regions
as they are. -/
theorem grow_added_keeps_footers (cfg : build_cfg) (s s1 : pool_mem)
    (log : List grow_call) (held : List Nat) (r : util_buf_region)
    (hinv : pool_inv cfg s log held) (hadd : grow_added cfg s s1 r)
    (hfresh : block_fresh s r.mem_region) (hon : util_buf_use_ftr cfg s.pool = true)
    (hsz : sizeof_slist_entry ≤ s.pool.attr.size)
    (k m i : Nat) (hk : (region_mems s)[k]? = some m) (hi : i < s.pool.attr.chunk_cnt) :
    s1.footers (util_buf_ftr_addr s.pool (region_buf s.pool m i)) =
      s.footers (util_buf_ftr_addr s.pool (region_buf s.pool m i)) := by
  apply hadd.ftr_keep
  · intro j hj
    have hfit := hinv.fit hon
    have hm := block_fresh_mems s r.mem_region hfresh m (List.mem_iff_getElem?.mpr ⟨k, hk⟩)
    have h1 := mul_succ_le i _ s.pool.entry_sz hi
    have h2 := mul_succ_le j _ s.pool.entry_sz hj
    simp only [link_hits, util_buf_ftr_addr, region_buf, sizeof_slist_entry,
      sizeof_util_buf_footer, decide_eq_false_iff_not, not_and, not_lt] at hsz hfit ⊢
    rcases hm with hm | hm
    · exact ⟨by omega, by omega⟩
    · exact ⟨by omega, by omega⟩
  · intro t ht
    obtain ⟨k1, m1, i1, e1, e2, rfl⟩ :=
      hinv.prov t (Or.inl (List.mem_of_mem_getLast? (Option.mem_def.mpr ht)))
    exact pool_inv_link_misses cfg s log held hinv hon hsz k1 k m1 m i1 i e1 hk e2 hi

theorem util_buf_grow_keeps_footers (cfg : build_cfg) (env : grow_env) (s : pool_mem)
    (log : List grow_call) (held : List Nat) (hinv : pool_inv cfg s log held)
    (hfresh : grow_env_fresh s env) (hon : util_buf_use_ftr cfg s.pool = true)
    (hsz : sizeof_slist_entry ≤ s.pool.attr.size)
    (k m i : Nat) (hk : (region_mems s)[k]? = some m) (hi : i < s.pool.attr.chunk_cnt) :
    (util_buf_grow cfg env s).2.1.footers
        (util_buf_ftr_addr s.pool (region_buf s.pool m i)) =
      s.footers (util_buf_ftr_addr s.pool (region_buf s.pool m i)) := by
  by_cases h0 : (util_buf_grow cfg env s).1 = 0
  · obtain ⟨_, b, mem, size, hm, hadd, _⟩ := util_buf_grow_ok cfg env s h0
    have hf : block_fresh s mem := by
      rcases hm with ⟨h1, rfl⟩ | ⟨h1, rfl⟩
      · exact hfresh.1 h1
      · exact hfresh.2 h1
    exact grow_added_keeps_footers cfg (with_mmap s b) _ log held _
      (pool_inv_with_mmap cfg s log held b hinv) hadd hf hon hsz k m i hk hi
  · obtain ⟨_, b, hs⟩ := util_buf_grow_fail cfg env s h0
    rw [hs]
    rfl

theorem region_mems_getElem? (s : pool_mem) (k : Nat) (r : util_buf_region)
    (h : s.pool.region_list[k]? = some r) : (region_mems s)[k]? = some r.mem_region := by
  simp [region_mems, List.getElem?_map, h]

/-- C15: in every state a footer-enabled pool whose buffers are large enough to hold
the link of the free list (attr.size is at least sizeof(struct slist_entry), so that
the link stores of the list operations, which write the first bytes of a buffer, do
not reach a footer) can be in after create and any sequence of grow, alloc, get and
release, the footer of the i-th entry (i < chunk_cnt) of the k-th region of the
list holds the region pointer of that region and the index k*chunk_cnt + i; these
indices are below num_allocated, every value below num_allocated is the index of
such an entry, entries with the same index or the same address are the same entry;
and util_buf_grow, util_buf_alloc, util_buf_get, and util_buf_release of a held
buffer, leave the footer of every such entry as it is. -/
theorem util_buf_footer_indices (cfg : build_cfg)
    (hal : ∀ x a, x ≤ cfg.fi_get_aligned_sz x a)
    (s : pool_mem) (log : List grow_call) (held : List Nat)
    (hr : pool_reach cfg s log held) (hon : util_buf_use_ftr cfg s.pool = true)
    (hlink : sizeof_slist_entry ≤ s.pool.attr.size) :
    (∀ (k : Nat) (r : util_buf_region) (i : Nat),
      s.pool.region_list[k]? = some r → i < s.pool.attr.chunk_cnt →
      s.footers (util_buf_ftr_addr s.pool (region_buf s.pool r.mem_region i)) =
        some { region := k, index := k * s.pool.attr.chunk_cnt + i } ∧
      k * s.pool.attr.chunk_cnt + i < s.pool.num_allocated) ∧
    (∀ j : Nat, j < s.pool.num_allocated →
      ∃ (k : Nat) (r : util_buf_region) (i : Nat),
        s.pool.region_list[k]? = some r ∧ i < s.pool.attr.chunk_cnt ∧
        s.footers (util_buf_ftr_addr s.pool (region_buf s.pool r.mem_region i)) =
          some { region := k, index := j }) ∧
    (∀ (k1 k2 : Nat) (r1 r2 : util_buf_region) (i1 i2 : Nat),
      s.pool.region_list[k1]? = some r1 → i1 < s.pool.attr.chunk_cnt →
      s.pool.region_list[k2]? = some r2 → i2 < s.pool.attr.chunk_cnt →
      (k1 * s.pool.attr.chunk_cnt + i1 = k2 * s.pool.attr.chunk_cnt + i2 ∨
       region_buf s.pool r1.mem_region i1 = region_buf s.pool r2.mem_region i2) →
      k1 = k2 ∧ i1 = i2) ∧
    (∀ (k : Nat) (r : util_buf_region) (i : Nat),
      s.pool.region_list[k]? = some r → i < s.pool.attr.chunk_cnt →
      (∀ env : grow_env, grow_env_fresh s env →
        (util_buf_grow cfg env s).2.1.footers
            (util_buf_ftr_addr s.pool (region_buf s.pool r.mem_region i)) =
          s.footers (util_buf_ftr_addr s.pool (region_buf s.pool r.mem_region i))) ∧
      (∀ (env : grow_env) (b : Nat) (s1 : pool_mem) (l : List grow_call),
        grow_env_fresh s env → util_buf_alloc cfg env s = some (b, s1, l) →
        s1.footers (util_buf_ftr_addr s.pool (region_buf s.pool r.mem_region i)) =
          s.footers (util_buf_ftr_addr s.pool (region_buf s.pool r.mem_region i))) ∧
      (∀ (b : Nat) (s1 : pool_mem), util_buf_get cfg s = some (b, s1) →
        s1.footers (util_buf_ftr_addr s.pool (region_buf s.pool r.mem_region i)) =
          s.footers (util_buf_ftr_addr s.pool (region_buf s.pool r.mem_region i))) ∧
      (∀ (b : Nat) (s1 : pool_mem), b ∈ held → util_buf_release cfg s b = some s1 →
        s1.footers (util_buf_ftr_addr s.pool (region_buf s.pool r.mem_region i)) =
          s.footers (util_buf_ftr_addr s.pool (region_buf s.pool r.mem_region i)))) := by
  have hinv := pool_reach_inv cfg hal s log held hr
  have hsz := hinv.esz hon
  have hlen : ∀ (k : Nat) (r : util_buf_region), s.pool.region_list[k]? = some r →
      k < s.pool.region_list.length := by
    intro k r hk
    rcases Nat.lt_or_ge k s.pool.region_list.length with h | h
    · exact h
    · rw [List.getElem?_eq_none h] at hk; cases hk
  refine ⟨?_, ?_, ?_, ?_⟩
  · intro k r i hk hi
    refine ⟨hinv.ftr hon hlink k r.mem_region i (region_mems_getElem? s k r hk) hi, ?_⟩
    rw [hinv.nalloc]
    have h1 := hlen k r hk
    have h2 : (k + 1) * s.pool.attr.chunk_cnt ≤
        s.pool.region_list.length * s.pool.attr.chunk_cnt :=
      Nat.mul_le_mul_right _ h1
    rw [Nat.mul_comm s.pool.attr.chunk_cnt]
    rw [Nat.succ_mul] at h2
    omega
  · intro j hj
    rw [hinv.nalloc] at hj
    have hc : 0 < s.pool.attr.chunk_cnt := by
      rcases Nat.eq_zero_or_pos s.pool.attr.chunk_cnt with h | h
      · rw [h] at hj; simp at hj
      · exact h
    have hk : j / s.pool.attr.chunk_cnt < s.pool.region_list.length :=
      Nat.div_lt_of_lt_mul hj
    have hi : j % s.pool.attr.chunk_cnt < s.pool.attr.chunk_cnt := Nat.mod_lt _ hc
    have hget : s.pool.region_list[j / s.pool.attr.chunk_cnt]? =
        some (s.pool.region_list.get ⟨j / s.pool.attr.chunk_cnt, hk⟩) :=
      List.getElem?_eq_getElem hk
    refine ⟨j / s.pool.attr.chunk_cnt, _, j % s.pool.attr.chunk_cnt, hget, hi, ?_⟩
    rw [hinv.ftr hon hlink _ _ _ (region_mems_getElem? s _ _ hget) hi]
    have := Nat.div_add_mod j s.pool.attr.chunk_cnt
    rw [Nat.mul_comm] at this
    rw [this]
  · intro k1 k2 r1 r2 i1 i2 h1 hi1 h2 hi2 he
    rcases he with he | he
    · have hk : k1 = k2 := by
        rcases Nat.lt_trichotomy k1 k2 with h | h | h
        · have := Nat.mul_le_mul_right s.pool.attr.chunk_cnt (Nat.succ_le_of_lt h)
          rw [Nat.succ_mul] at this
          omega
        · exact h
        · have := Nat.mul_le_mul_right s.pool.attr.chunk_cnt (Nat.succ_le_of_lt h)
          rw [Nat.succ_mul] at this
          omega
      subst hk
      exact ⟨rfl, by omega⟩
    · exact region_buf_inj cfg s log held hinv (by omega) k1 k2 _ _ i1 i2
        (region_mems_getElem? s k1 r1 h1) (region_mems_getElem? s k2 r2 h2) hi1 hi2 he
  · intro k r i hk hi
    have hkm := region_mems_getElem? s k r hk
    have hgrow : ∀ env : grow_env, grow_env_fresh s env →
        (util_buf_grow cfg env s).2.1.footers
            (util_buf_ftr_addr s.pool (region_buf s.pool r.mem_region i)) =
          s.footers (util_buf_ftr_addr s.pool (region_buf s.pool r.mem_region i)) :=
      fun env hf =>
        util_buf_grow_keeps_footers cfg env s log held hinv hf hon hlink k _ i hkm hi
    refine ⟨hgrow, ?_, ?_, ?_⟩
    · intro env b s1 l hf ha
      rcases util_buf_alloc_cases cfg env s s1 b l ha with ⟨_, hg⟩ | ⟨_, hc⟩
      · rw [(util_buf_get_took cfg s s1 b hg).footers]
      · rcases hc with ⟨_, _, rfl⟩ | ⟨_, hget⟩
        · exact hgrow env hf
        · rw [(util_buf_get_took cfg _ s1 b hget).footers]
          exact hgrow env hf
    · intro b s1 hg
      rw [(util_buf_get_took cfg s s1 b hg).footers]
    · intro b s1 hb hrel
      rw [(util_buf_release_spec cfg s s1 b hrel).2.1]
      obtain ⟨k1, m1, i1, e1, e2, rfl⟩ := hinv.prov b (Or.inr hb)
      simp only [slist_store_link,
        pool_inv_link_misses cfg s log held hinv hon hlink k1 k m1 r.mem_region i1 i e1 hkm
          e2 hi, Bool.false_eq_true, if_false]

theorem util_buf_footer_indices_witness :
    ∃ log, pool_reach (example_cfg false) example_pool_grown log [] ∧
      util_buf_use_ftr (example_cfg false) example_pool_grown.pool = true ∧
      sizeof_slist_entry ≤ example_pool_grown.pool.attr.size ∧
      example_pool_grown.pool.num_allocated = 2 ∧
      example_pool_grown.footers (util_buf_ftr_addr example_pool_grown.pool 4096) =
        some { region := 0, index := 0 } ∧
      example_pool_grown.footers (util_buf_ftr_addr example_pool_grown.pool 8192) =
        some { region := 1, index := 1 } := by
  obtain ⟨log, hr⟩ := example_pool_grown_reach
  have h := (util_buf_footer_indices (example_cfg false) example_aligned_sz_ge
    example_pool_grown log [] hr rfl (by decide)).1
  exact ⟨log, hr, rfl, by decide, rfl, (h 0 _ 0 rfl (by decide)).1,
    (h 1 _ 0 rfl (by decide)).1⟩

/-! ## Unwinding of a failed `util_buf_grow` -/

/-- C20: a util_buf_grow call of a pool in huge-page mode whose huge-page
allocation succeeds returns -1 with the pool unchanged when the alloc hook fails,
or when the reallocation of the reverse table fails after it, and in both cases
the outside calls it has made end with ofi_freealign on the huge-page memory
followed by the free of the region descriptor; ofi_free_hugepage_buf is not
called. -/
theorem util_buf_grow_unwinds_with_freealign (cfg : build_cfg) (env : grow_env)
    (s : pool_mem) (hm : s.pool.attr.is_mmap_region = true)
    (hlim : s.pool.attr.max_cnt = 0 ∨ s.pool.num_allocated < s.pool.attr.max_cnt)
    (hc : env.calloc_ok = true) (hhp : 0 ≤ env.hp_size) (hok : env.hugepage_ret = 0) :
    (s.pool.attr.alloc_hndlr = true → env.hndlr_ret ≠ 0 →
      util_buf_grow cfg env s =
        (-1, s,
          [event.calloc_region true,
           event.alloc_hugepage
             (cfg.fi_get_aligned_sz (s.pool.attr.chunk_cnt * s.pool.entry_sz)
               (ssize_to_size env.hp_size)) 0 env.hugepage_mem,
           event.alloc_hndlr s.pool.attr.ctx env.hugepage_mem
             (cfg.fi_get_aligned_sz (s.pool.attr.chunk_cnt * s.pool.entry_sz)
               (ssize_to_size env.hp_size)) env.hndlr_ret env.hndlr_context,
           event.freealign env.hugepage_mem,
           event.free_region])) ∧
    ((s.pool.attr.alloc_hndlr = true → env.hndlr_ret = 0) →
      util_buf_use_ftr cfg s.pool = true →
      s.pool.regions_cnt % UTIL_BUF_POOL_REGION_CHUNK_CNT = 0 →
      env.realloc_ok = false →
      util_buf_grow cfg env s =
        (-1, s,
          [event.calloc_region true,
           event.alloc_hugepage
             (cfg.fi_get_aligned_sz (s.pool.attr.chunk_cnt * s.pool.entry_sz)
               (ssize_to_size env.hp_size)) 0 env.hugepage_mem] ++
          (if s.pool.attr.alloc_hndlr then
            [event.alloc_hndlr s.pool.attr.ctx env.hugepage_mem
              (cfg.fi_get_aligned_sz (s.pool.attr.chunk_cnt * s.pool.entry_sz)
                (ssize_to_size env.hp_size)) 0 env.hndlr_context]
           else []) ++
          [event.realloc_table (s.pool.regions_cnt + UTIL_BUF_POOL_REGION_CHUNK_CNT) false] ++
          (if s.pool.attr.free_hndlr then
            [event.free_hndlr s.pool.attr.ctx
              (if s.pool.attr.alloc_hndlr then env.hndlr_context else 0)]
           else []) ++
          [event.freealign env.hugepage_mem, event.free_region])) := by
  have hl : ¬(s.pool.attr.max_cnt ≠ 0 ∧ s.pool.num_allocated ≥ s.pool.attr.max_cnt) := by
    omega
  have hh : ¬(env.hp_size < 0) := by omega
  constructor
  · intro ha hr
    unfold util_buf_grow util_buf_grow_provision
    simp [hl, hc, hm, hh, hok, ha, hr]
  · intro ha hon hcnt hre
    unfold util_buf_grow util_buf_grow_provision
    cases hal : s.pool.attr.alloc_hndlr with
    | true =>
      have hr := ha hal
      cases hfr : s.pool.attr.free_hndlr <;>
        simp [hl, hc, hm, hh, hok, hal, hr, hon, hcnt, hre, hfr]
    | false =>
      cases hfr : s.pool.attr.free_hndlr <;>
        simp [hl, hc, hm, hh, hok, hal, hon, hcnt, hre, hfr]

theorem util_buf_grow_unwinds_with_freealign_witness :
    example_huge_hooks_init.pool.attr.is_mmap_region = true ∧
    util_buf_grow (example_cfg false) (example_env_hook_fails 4096 11)
        example_huge_hooks_init =
      (-1, example_huge_hooks_init,
        [event.calloc_region true,
         event.alloc_hugepage 4194304 0 4096,
         event.alloc_hndlr 5 4096 4194304 (-1) 11,
         event.freealign 4096,
         event.free_region]) :=
  ⟨rfl,
   (util_buf_grow_unwinds_with_freealign (example_cfg false) (example_env_hook_fails 4096 11)
      example_huge_hooks_init rfl (Or.inl rfl) rfl (by decide) rfl).1 rfl (by decide)⟩

/-! ## One allocation strategy per pool -/

theorem is_obtained_mem_alloc (e : event) (h : event.is_obtained e = true) :
    event.is_mem_alloc e = true := by
  cases e <;> simp_all [event.is_obtained, event.is_mem_alloc]

theorem util_buf_grow_attr_keep (cfg : build_cfg) (env : grow_env) (s : pool_mem)
    (h : 0 < s.pool.num_allocated) :
    (util_buf_grow cfg env s).2.1.pool.attr = s.pool.attr := by
  unfold util_buf_grow
  simp only
  split_ifs
  all_goals first
    | rfl
    | omega
    | exact util_buf_grow_provision_attr cfg env _ _ _ _
    | exact util_buf_grow_memalign_attr cfg env _ _

theorem util_buf_grow_chunk_cnt (cfg : build_cfg) (env : grow_env) (s : pool_mem) :
    (util_buf_grow cfg env s).2.1.pool.attr.chunk_cnt = s.pool.attr.chunk_cnt := by
  by_cases h : (util_buf_grow cfg env s).1 = 0
  · obtain ⟨_, b, mem, size, _, hadd, _⟩ := util_buf_grow_ok cfg env s h
    rw [hadd.attr]
    rfl
  · obtain ⟨_, b, hb⟩ := util_buf_grow_fail cfg env s h
    rw [hb]
    rfl

/-- A successful `util_buf_grow` appends one region, and its only successful
request for region memory is the request for that region under the strategy of
the flag it leaves behind. -/
theorem util_buf_grow_obtained (cfg : build_cfg) (env : grow_env) (s : pool_mem)
    (h : (util_buf_grow cfg env s).1 = 0) :
    ∃ r, (util_buf_grow cfg env s).2.1.pool.region_list = s.pool.region_list ++ [r] ∧
      (util_buf_grow cfg env s).2.1.pool.num_allocated =
        s.pool.num_allocated + s.pool.attr.chunk_cnt ∧
      (util_buf_grow cfg env s).2.2.filter event.is_obtained =
        region_alloc_call (util_buf_grow cfg env s).2.1.pool.attr r := by
  unfold util_buf_grow at h ⊢
  simp only at h ⊢
  split_ifs at h ⊢ with h1 h2 h3 h4 h5 h6
  · simp at h
  · simp at h
  · simp at h
  · simp at h
  · obtain ⟨hret, hadd, _⟩ := util_buf_grow_memalign_ok cfg env _ _ h
    refine ⟨_, hadd.region_list, hadd.num_allocated, ?_⟩
    rw [util_buf_grow_memalign_filter event.is_obtained is_obtained_mem_alloc,
      util_buf_grow_memalign_attr]
    simp [event.is_obtained, region_alloc_call, new_region, hret, h5]
  · obtain ⟨hadd, _⟩ := util_buf_grow_provision_ok cfg env _ _ _ _ h
    refine ⟨_, hadd.region_list, hadd.num_allocated, ?_⟩
    rw [util_buf_grow_provision_filter event.is_obtained is_obtained_mem_alloc,
      util_buf_grow_provision_attr]
    have h5' : env.hugepage_ret = 0 := by simpa using h5
    have h3' : s.pool.attr.is_mmap_region = true := h3
    simp [event.is_obtained, region_alloc_call, new_region, h5', h3']
  · obtain ⟨hret, hadd, _⟩ := util_buf_grow_memalign_ok cfg env _ _ h
    refine ⟨_, hadd.region_list, hadd.num_allocated, ?_⟩
    rw [util_buf_grow_memalign_filter event.is_obtained is_obtained_mem_alloc,
      util_buf_grow_memalign_attr]
    have h3' : s.pool.attr.is_mmap_region = false := by simpa using h3
    simp [event.is_obtained, region_alloc_call, new_region, hret, h3']

theorem region_alloc_calls_append (log : List grow_call) (call : grow_call) :
    region_alloc_calls (log ++ [call]) =
      region_alloc_calls log ++
        if call.ret = 0 then [call.events.filter event.is_obtained] else [] := by
  unfold region_alloc_calls
  rw [List.filter_append, List.map_append]
  by_cases h : call.ret = 0 <;> simp [List.filter_cons, h]

theorem strategy_inv_grow (cfg : build_cfg) (env : grow_env) (s : pool_mem)
    (log : List grow_call) (hc : 0 < s.pool.attr.chunk_cnt) (h : strategy_inv s log) :
    strategy_inv (util_buf_grow cfg env s).2.1
      (log ++ [{ ret := (util_buf_grow cfg env s).1,
                 events := (util_buf_grow cfg env s).2.2 }]) := by
  -- the regions the pool already has keep their allocation request
  have hold : s.pool.region_list.map
        (region_alloc_call (util_buf_grow cfg env s).2.1.pool.attr) =
      s.pool.region_list.map (region_alloc_call s.pool.attr) := by
    rcases Nat.eq_zero_or_pos s.pool.num_allocated with hz | hp
    · have hl : s.pool.region_list = [] := by
        have := h.nalloc
        rw [hz] at this
        have hlen : s.pool.region_list.length = 0 := by
          rcases Nat.eq_zero_or_pos s.pool.region_list.length with h0 | h0
          · exact h0
          · have := Nat.mul_pos hc h0
            omega
        exact List.length_eq_zero.mp hlen
      rw [hl]
      rfl
    · rw [util_buf_grow_attr_keep cfg env s hp]
  by_cases h0 : (util_buf_grow cfg env s).1 = 0
  · obtain ⟨r, hl, hn, hf⟩ := util_buf_grow_obtained cfg env s h0
    constructor
    · rw [region_alloc_calls_append, hl, List.map_append, hold, h.calls]
      simp [h0, hf]
    · rw [hn, hl, util_buf_grow_chunk_cnt, h.nalloc]
      simp [Nat.mul_succ]
  · obtain ⟨h1, h2, h3⟩ := (util_buf_grow_table cfg env s).1 h0
    obtain ⟨_, b, hb⟩ := util_buf_grow_fail cfg env s h0
    constructor
    · rw [region_alloc_calls_append, h3, hold, h.calls]
      simp [h0]
    · rw [h3, util_buf_grow_chunk_cnt, ← h.nalloc, hb]
      rfl

theorem strategy_inv_get (cfg : build_cfg) (s s1 : pool_mem) (log : List grow_call)
    (b : Nat) (h : strategy_inv s log) (hg : util_buf_get cfg s = some (b, s1)) :
    strategy_inv s1 log := by
  have ht := util_buf_get_took cfg s s1 b hg
  have hf : ∀ attr, region_alloc_call attr =
      (fun g : Nat × Nat × Nat =>
        if attr.is_mmap_region then [event.alloc_hugepage g.2.1 0 g.1]
        else [event.memalign attr.alignment g.2.1 0 g.1]) ∘ region_geom := by
    intro attr; funext r; simp [region_alloc_call, region_geom]
  have hl : s1.pool.region_list.length = s.pool.region_list.length := by
    have := congrArg List.length ht.geom
    simpa using this
  constructor
  · rw [h.calls, ht.attr, hf, ← List.map_map, ← List.map_map, ht.geom]
  · rw [ht.num_allocated, ht.attr, hl]
    exact h.nalloc

theorem strategy_inv_release (cfg : build_cfg) (s s1 : pool_mem) (log : List grow_call)
    (b : Nat) (h : strategy_inv s log) (hg : util_buf_release cfg s b = some s1) :
    strategy_inv s1 log := by
  obtain ⟨_, _, hattr, _, hna, _, _, hgeom, _, _⟩ := util_buf_release_spec cfg s s1 b hg
  have hf : ∀ attr, region_alloc_call attr =
      (fun g : Nat × Nat × Nat =>
        if attr.is_mmap_region then [event.alloc_hugepage g.2.1 0 g.1]
        else [event.memalign attr.alignment g.2.1 0 g.1]) ∘ region_geom := by
    intro attr; funext r; simp [region_alloc_call, region_geom]
  have hl : s1.pool.region_list.length = s.pool.region_list.length := by
    have := congrArg List.length hgeom
    simpa using this
  constructor
  · rw [h.calls, hattr, hf, ← List.map_map, ← List.map_map, hgeom]
  · rw [hna, hattr, hl]
    exact h.nalloc

theorem pool_reach_strategy (cfg : build_cfg) (s : pool_mem) (log : List grow_call)
    (held : List Nat) (hr : pool_reach cfg s log held) :
    0 < s.pool.attr.chunk_cnt → strategy_inv s log := by
  induction hr with
  | create env attr hc hf =>
    intro hpos
    obtain ⟨rfl, rfl⟩ := util_buf_pool_create_attr_eq cfg _ _ _ _ hc
    rw [util_buf_grow_chunk_cnt] at hpos
    have := strategy_inv_grow cfg env.grow
      { pool := util_buf_pool_create_init cfg env.hp_size attr, footers := fun _ => none }
      [] hpos ⟨rfl, rfl⟩
    simpa using this
  | grow env _ hf ih =>
    intro hpos
    rw [util_buf_grow_chunk_cnt] at hpos
    exact strategy_inv_grow cfg env _ _ hpos (ih hpos)
  | alloc env _ hf ha ih =>
    intro hpos
    rcases util_buf_alloc_cases cfg env _ _ _ _ ha with ⟨rfl, hg⟩ | ⟨rfl, hc⟩
    · rw [(util_buf_get_took cfg _ _ _ hg).attr] at hpos
      simpa using strategy_inv_get cfg _ _ _ _ (ih hpos) hg
    · rcases hc with ⟨_, _, rfl⟩ | ⟨_, hget⟩
      · rw [util_buf_grow_chunk_cnt] at hpos
        exact strategy_inv_grow cfg env _ _ hpos (ih hpos)
      · rw [(util_buf_get_took cfg _ _ _ hget).attr, util_buf_grow_chunk_cnt] at hpos
        exact strategy_inv_get cfg _ _ _ _ (strategy_inv_grow cfg env _ _ hpos (ih hpos)) hget
  | get _ hg ih =>
    intro hpos
    rw [(util_buf_get_took cfg _ _ _ hg).attr] at hpos
    exact strategy_inv_get cfg _ _ _ _ (ih hpos) hg
  | release buf _ hb hrel ih =>
    intro hpos
    rw [(util_buf_release_spec cfg _ _ _ hrel).2.2.1] at hpos
    exact strategy_inv_release cfg _ _ _ buf (ih hpos) hrel

/-- Releases of region memory made by the destroy loop. -/
theorem util_buf_pool_destroy_loop_frees (cfg : build_cfg) (attr : util_buf_attr)
    (unmap_ret : Nat → Int) (l : List util_buf_region)
    (evs : List event) (h : util_buf_pool_destroy_loop cfg attr unmap_ret l = some evs) :
    evs.filter event.is_free_mem = l.map (region_free_call attr unmap_ret) := by
  induction l generalizing evs with
  | nil =>
    simp only [util_buf_pool_destroy_loop, Option.some.injEq] at h
    subst h; rfl
  | cons r rest ih =>
    unfold util_buf_pool_destroy_loop at h
    cases hrest : util_buf_pool_destroy_loop cfg attr unmap_ret rest with
    | none =>
      simp only [hrest, Option.map_none'] at h
      split_ifs at h
    | some evs1 =>
      simp only [hrest, Option.map_some'] at h
      split_ifs at h with h1 h2 h3 h4 <;>
        (simp only [Option.some.injEq] at h
         subst h
         simp_all [event.is_free_mem, region_free_call, List.filter_append, ih evs1 hrest])

/-- C17: in every state that a pool with chunk_cnt > 0 can be in after create and
any sequence of grow (successful or failed), alloc, get and release, the regions
of the list are those of the util_buf_grow calls that returned 0, in order, and
the one successful request for region memory of each such call is the request for
its region by the strategy that the current is_mmap_region flag indicates: the
huge-page allocator for every region if the flag is set, the aligned allocator for
every region if it is clear. util_buf_pool_destroy, when it runs to its end,
releases the memory of each region once, in order, with ofi_free_hugepage_buf and
the region size if the flag is set and with ofi_freealign if it is clear, and it
runs to its end when none of its debug assertions fails. -/
theorem util_buf_pool_one_strategy (cfg : build_cfg) (s : pool_mem)
    (log : List grow_call) (held : List Nat) (hr : pool_reach cfg s log held)
    (hc : 0 < s.pool.attr.chunk_cnt) :
    s.pool.region_list.length = grow_successes log ∧
    region_alloc_calls log = s.pool.region_list.map (region_alloc_call s.pool.attr) ∧
    (s.pool.attr.is_mmap_region = true → ∀ (r : util_buf_region) (u : Nat → Int),
      region_alloc_call s.pool.attr r = [event.alloc_hugepage r.size 0 r.mem_region] ∧
      region_free_call s.pool.attr u r =
        event.free_hugepage r.mem_region r.size (u r.mem_region)) ∧
    (s.pool.attr.is_mmap_region = false → ∀ (r : util_buf_region) (u : Nat → Int),
      region_alloc_call s.pool.attr r =
        [event.memalign s.pool.attr.alignment r.size 0 r.mem_region] ∧
      region_free_call s.pool.attr u r = event.freealign r.mem_region) ∧
    (∀ (unmap_ret : Nat → Int) (evs : List event),
      util_buf_pool_destroy cfg unmap_ret s = some evs →
      evs.filter event.is_free_mem =
        s.pool.region_list.map (region_free_call s.pool.attr unmap_ret)) ∧
    (∀ unmap_ret : Nat → Int,
      (cfg.debug = true → s.pool.attr.is_mmap_region = true →
        ∀ r ∈ s.pool.region_list, unmap_ret r.mem_region = 0) →
      (cfg.debug = true → s.pool.attr.track_used = true →
        ∀ r ∈ s.pool.region_list, r.num_used = 0) →
      ∃ evs, util_buf_pool_destroy cfg unmap_ret s = some evs) := by
  have h := pool_reach_strategy cfg s log held hr hc
  refine ⟨(pool_reach_table cfg s log held hr).len, h.calls, ?_, ?_, ?_, ?_⟩
  · intro hm r u
    simp [region_alloc_call, region_free_call, hm]
  · intro hm r u
    simp [region_alloc_call, region_free_call, hm]
  · intro unmap_ret evs hd
    unfold util_buf_pool_destroy at hd
    cases hl : util_buf_pool_destroy_loop cfg s.pool.attr unmap_ret s.pool.region_list with
    | none => simp [hl] at hd
    | some evs1 =>
      simp only [hl, Option.map_some', Option.some.injEq] at hd
      subst hd
      rw [List.filter_append,
        util_buf_pool_destroy_loop_frees cfg s.pool.attr unmap_ret _ evs1 hl]
      simp [event.is_free_mem]
  · intro unmap_ret hu hn
    obtain ⟨evs, he⟩ := util_buf_pool_destroy_loop_some cfg s.pool.attr unmap_ret
      s.pool.region_list hu hn
    exact ⟨evs ++ [event.free_pool], by simp [util_buf_pool_destroy, he]⟩

theorem util_buf_pool_one_strategy_witness :
    ∃ log, pool_reach (example_cfg false) example_pool_hugepage log [] ∧
      example_pool_hugepage.pool.attr.is_mmap_region = true ∧
      region_alloc_calls log = [[event.alloc_hugepage 128 0 4096]] ∧
      ∃ evs, util_buf_pool_destroy (example_cfg false) (fun _ => 0) example_pool_hugepage =
          some evs ∧
        evs.filter event.is_free_mem = [event.free_hugepage 4096 128 0] := by
  have hr : pool_reach (example_cfg false) example_pool_hugepage _ [] :=
    pool_reach.create example_small_hp_env (example_attr 0 1 false) rfl
      ⟨fun _ => ⟨by decide, fun r hr => by simp [util_buf_pool_create_init] at hr⟩,
       fun _ => ⟨by decide, fun r hr => by simp [util_buf_pool_create_init] at hr⟩⟩
  have h := util_buf_pool_one_strategy (example_cfg false) example_pool_hugepage _ [] hr
    (by decide)
  obtain ⟨evs, he⟩ := h.2.2.2.2.2 (fun _ => 0) (fun hd => by cases hd) (fun hd => by cases hd)
  exact ⟨_, hr, rfl, h.2.1.trans rfl, evs, he, (h.2.2.2.2.1 _ evs he).trans rfl⟩

/-! ## Rounding up to a power of two -/

theorem roundup_power_of_two_from_spec (n fuel k : Nat) (hlow : ∀ i, i < k → 2 ^ i < n)
    (hfuel : n ≤ fuel + k) :
    ∃ j, roundup_power_of_two_from n fuel (2 ^ k) = 2 ^ j ∧ n ≤ 2 ^ j ∧
      ∀ i, n ≤ 2 ^ i → 2 ^ j ≤ 2 ^ i := by
  have hmin : ∀ i, n ≤ 2 ^ i → 2 ^ k ≤ 2 ^ i := by
    intro i hi
    rcases Nat.lt_or_ge i k with h | h
    · have := hlow i h
      omega
    · exact Nat.pow_le_pow_right (by decide) h
  induction fuel generalizing k with
  | zero =>
    refine ⟨k, rfl, ?_, hmin⟩
    have : k < 2 ^ k := Nat.lt_two_pow k
    omega
  | succ fuel ih =>
    unfold roundup_power_of_two_from
    by_cases h : n ≤ 2 ^ k
    · rw [if_pos h]
      exact ⟨k, rfl, h, hmin⟩
    · rw [if_neg h]
      have h2 : 2 * 2 ^ k = 2 ^ (k + 1) := by rw [Nat.pow_succ, Nat.mul_comm]
      rw [h2]
      apply ih (k + 1)
      · intro i hi
        rcases Nat.lt_or_ge i k with h1 | h1
        · exact hlow i h1
        · have : i = k := by omega
          subst this
          omega
      · omega
      · intro i hi
        rcases Nat.lt_or_ge i (k + 1) with h1 | h1
        · have hk := hmin i hi
          have : 2 ^ i ≤ 2 ^ k := Nat.pow_le_pow_right (by decide) (by omega)
          omega
        · exact Nat.pow_le_pow_right (by decide) h1

theorem roundup_power_of_two_spec (n : Nat) :
    ∃ j, roundup_power_of_two n = 2 ^ j ∧ n ≤ 2 ^ j ∧ ∀ i, n ≤ 2 ^ i → 2 ^ j ≤ 2 ^ i := by
  have := roundup_power_of_two_from_spec n n 0 (by simp) (by omega)
  simpa [roundup_power_of_two] using this

theorem roundup_power_of_two_pos (n : Nat) : 0 < roundup_power_of_two n := by
  obtain ⟨j, hj, _, _⟩ := roundup_power_of_two_spec n
  rw [hj]
  exact Nat.pos_pow_of_pos j (by decide)

theorem roundup_power_of_two_idem (n : Nat) :
    roundup_power_of_two (roundup_power_of_two n) = roundup_power_of_two n := by
  obtain ⟨j, hj, _, _⟩ := roundup_power_of_two_spec n
  obtain ⟨j1, hj1, hge, hmin⟩ := roundup_power_of_two_spec (roundup_power_of_two n)
  have h1 := hmin j (by rw [hj])
  rw [hj] at hge
  rw [hj1, hj]
  omega

/-! ## Shared-region free stack: creation and link values -/

theorem smr_entry_buf_off (Y esz : Int) (i : Nat) :
    smr_entry_buf Y esz i = Y + smr_link_off esz i + sizeof_ptr := by
  simp only [smr_entry_buf, smr_link_off]
  ring

theorem smr_link_off_dvd (esz : Int) (i : Nat) (h8 : sizeof_ptr ∣ esz) :
    sizeof_ptr ∣ smr_link_off esz i := by
  simp only [smr_link_off, smr_header_size]
  exact Dvd.dvd.add ⟨3, by ring⟩ (Dvd.dvd.mul_left h8 _)

theorem smr_link_off_inj (esz : Int) (hpos : 0 < esz) (i j : Nat)
    (h : smr_link_off esz i = smr_link_off esz j) : i = j := by
  simp only [smr_link_off] at h
  have h1 : (i : Int) * esz = (j : Int) * esz := by omega
  have h2 := Int.eq_of_mul_eq_mul_right (by omega) h1
  exact_mod_cast h2

/-- One push, by a process that maps the image at `Y`, of the entry whose link slot
is at byte offset `o`. -/
theorem smr_freestack_push_at (Y : Int) (img : smr_freestack) (o : Int)
    (ho : sizeof_ptr ∣ o) :
    smr_freestack_push Y img (Y + o + sizeof_ptr) =
      { img with words := mem_write img.words o img.next, next := img.base_addr + o } := by
  have h1 : freestack_get_next (Y + o + sizeof_ptr) = Y + o := by
    simp only [freestack_get_next]; ring
  have h2 : Y + o - Y = o := by ring
  simp only [smr_freestack_push, h1, h2, ptr_add, ptr_diff]
  rw [Int.mul_ediv_cancel' ho]

theorem smr_name_init_loop_words (X esz : Int) (h8 : sizeof_ptr ∣ esz) (hpos : 0 < esz)
    (n : Nat) (img : smr_freestack) (hb : img.base_addr = X) (i : Nat) :
    (smr_name_init_loop X esz n img).words (smr_link_off esz i) =
      if i + 1 < n then X + smr_link_off esz (i + 1)
      else if i + 1 = n then img.next
      else img.words (smr_link_off esz i) := by
  induction n generalizing img with
  | zero => simp [smr_name_init_loop]
  | succ n ih =>
    simp only [smr_name_init_loop]
    rw [smr_entry_buf_off, smr_freestack_push_at X img _ (smr_link_off_dvd esz n h8)]
    rw [ih { img with words := mem_write img.words (smr_link_off esz n) img.next,
                      next := img.base_addr + smr_link_off esz n } hb]
    simp only [hb]
    by_cases h1 : i + 1 < n
    · rw [if_pos h1, if_pos (by omega)]
    · rw [if_neg h1]
      by_cases h2 : i + 1 = n
      · rw [if_pos h2, if_pos (by omega), h2]
      · rw [if_neg h2, if_neg (by omega)]
        by_cases h3 : i = n
        · subst h3
          rw [if_pos rfl, mem_write_same]
        · rw [if_neg (by omega), mem_write_other]
          intro he
          exact h3 (smr_link_off_inj esz hpos i n he)

theorem smr_name_create_eq (debug : Bool) (X esz : Int) (size : Nat) (hX : X ≠ 0)
    (hesz : 2 * sizeof_ptr ≤ esz) :
    smr_name_create debug X esz size =
      some (some (smr_name_init_loop X esz (roundup_power_of_two size)
        { base_addr := X, size := roundup_power_of_two size, next := FREESTACK_EMPTY,
          words := fun _ => 0 })) := by
  unfold smr_name_create smr_name_init
  rw [if_neg hX]
  have h1 : ¬((debug && roundup_power_of_two size !=
      roundup_power_of_two (roundup_power_of_two size)) = true) := by
    rw [roundup_power_of_two_idem]
    simp
  have h2 : ¬((debug && decide (esz - sizeof_ptr < sizeof_ptr)) = true) := by
    simp only [sizeof_ptr] at hesz ⊢
    simp
    intro _
    omega
  rw [if_neg h1, if_neg h2]
  rfl

/-- C16: the shared-region name_create, when calloc returns the block at X,
returns a stack of C = roundup_power_of_two(size) entries, but the block it has
requested is smaller than the header plus C entries of one link pointer plus the
payload: it requests sizeof(header) + C * sizeof(entrytype) bytes, so entry[C-1]
does not lie inside the block, the link slot of entry[C-1] itself ends outside it
when the payload is smaller than C pointers, and every link slot of an entry
i < C-1 that starts at or behind the end of the block has been written by
name_init with the link to entry[i+1]. -/
theorem smr_name_create_block_too_small (debug : Bool) (X esz : Int) (size : Nat)
    (hX : X ≠ 0) (h8 : sizeof_ptr ∣ esz) (hesz : 2 * sizeof_ptr ≤ esz) :
    ∃ img, smr_name_create debug X esz size = some (some img) ∧
      img.size = roundup_power_of_two size ∧
      0 < roundup_power_of_two size ∧
      smr_name_create_size esz size <
        smr_header_size + (roundup_power_of_two size : Int) * esz ∧
      smr_name_create_size esz size < smr_link_off esz (roundup_power_of_two size - 1) + esz ∧
      (esz - sizeof_ptr < (roundup_power_of_two size : Int) * sizeof_ptr →
        smr_name_create_size esz size <
          smr_link_off esz (roundup_power_of_two size - 1) + sizeof_ptr) ∧
      (∀ i : Nat, i + 1 < roundup_power_of_two size →
        smr_name_create_size esz size ≤ smr_link_off esz i →
        img.words (smr_link_off esz i) = X + smr_link_off esz (i + 1)) := by
  have hC := roundup_power_of_two_pos size
  have hCi : (0 : Int) < (roundup_power_of_two size : Int) := by exact_mod_cast hC
  have hsub : ((roundup_power_of_two size - 1 : Nat) : Int) =
      (roundup_power_of_two size : Int) - 1 := by
    rw [Nat.cast_sub hC]; rfl
  have hlt : smr_name_create_size esz size <
      smr_header_size + (roundup_power_of_two size : Int) * esz := by
    simp only [smr_name_create_size, sizeof_ptr] at *
    nlinarith
  refine ⟨_, smr_name_create_eq debug X esz size hX hesz, ?_, hC, hlt, ?_, ?_, ?_⟩
  · have hs : ∀ (n : Nat) (img : smr_freestack),
        (smr_name_init_loop X esz n img).size = img.size := by
      intro n
      induction n with
      | zero => intro img; rfl
      | succ n ih => intro img; simp only [smr_name_init_loop]; rw [ih]; rfl
    rw [hs]
  · simp only [smr_link_off, hsub]
    have : ((roundup_power_of_two size : Int) - 1) * esz + esz =
        (roundup_power_of_two size : Int) * esz := by ring
    omega
  · intro hsmall
    simp only [smr_link_off, hsub, smr_name_create_size, sizeof_ptr] at *
    nlinarith
  · intro i hi _
    rw [smr_name_init_loop_words X esz h8 (by simp only [sizeof_ptr] at hesz; omega) _ _ rfl i,
      if_pos hi]

theorem smr_name_create_block_too_small_witness :
    ∃ img, smr_name_create true 4096 16 4 = some (some img) ∧
      smr_name_create_size 16 4 = 56 ∧
      smr_link_off 16 2 = 56 ∧
      img.words 56 = 4168 := by
  obtain ⟨img, h1, _, _, _, _, _, h2⟩ :=
    smr_name_create_block_too_small true 4096 16 4 (by decide) (by decide) (by decide)
  exact ⟨img, h1, by decide, by decide, h2 2 (by decide) (by decide)⟩

theorem smr_push_entry_eq (Y esz : Int) (i : Nat) (img : smr_freestack)
    (h8 : sizeof_ptr ∣ esz) :
    smr_freestack_push Y img (smr_entry_buf Y esz i) =
      { img with words := mem_write img.words (smr_link_off esz i) img.next,
                 next := img.base_addr + smr_link_off esz i } := by
  rw [smr_entry_buf_off, smr_freestack_push_at Y img _ (smr_link_off_dvd esz i h8)]

theorem smr_push_seq_local (esz : Int) (h8 : sizeof_ptr ∣ esz) (X : Int)
    (pushes : List (Int × Nat)) (img : smr_freestack) :
    smr_push_seq esz pushes img =
      smr_push_seq esz (pushes.map fun p => (X, p.2)) img := by
  induction pushes generalizing img with
  | nil => rfl
  | cons p l ih =>
    simp only [smr_push_seq, List.map_cons]
    rw [smr_push_entry_eq p.1 esz p.2 img h8, smr_push_entry_eq X esz p.2 img h8]
    exact ih _

theorem smr_push_seq_links (X esz : Int) (size : Nat) (h8 : sizeof_ptr ∣ esz)
    (pushes : List (Int × Nat)) (hp : ∀ p ∈ pushes, p.2 < size) (img : smr_freestack)
    (hb : img.base_addr = X) (hn : smr_link_ok X esz size img.next)
    (hw : ∀ i : Nat, i < size → smr_link_ok X esz size (img.words (smr_link_off esz i))) :
    (smr_push_seq esz pushes img).base_addr = X ∧
    smr_link_ok X esz size (smr_push_seq esz pushes img).next ∧
    ∀ i : Nat, i < size →
      smr_link_ok X esz size ((smr_push_seq esz pushes img).words (smr_link_off esz i)) := by
  induction pushes generalizing img with
  | nil => exact ⟨hb, hn, hw⟩
  | cons p l ih =>
    simp only [smr_push_seq]
    rw [smr_push_entry_eq p.1 esz p.2 img h8]
    apply ih (fun q hq => hp q (by simp [hq]))
    · exact hb
    · exact Or.inr ⟨p.2, hp p (by simp), by rw [hb]⟩
    · intro i hi
      simp only [mem_write]
      split_ifs
      · exact hn
      · exact hw i hi

theorem smr_push_seq_append (esz : Int) (l : List (Int × Nat)) (p : Int × Nat)
    (img : smr_freestack) :
    smr_push_seq esz (l ++ [p]) img =
      smr_freestack_push p.1 (smr_push_seq esz l img) (smr_entry_buf p.1 esz p.2) := by
  induction l generalizing img with
  | nil => rfl
  | cons q l ih =>
    simp only [List.cons_append, smr_push_seq]
    exact ih _

theorem smr_push_seq_base_addr (esz : Int) (l : List (Int × Nat)) (img : smr_freestack) :
    (smr_push_seq esz l img).base_addr = img.base_addr := by
  induction l generalizing img with
  | nil => rfl
  | cons q l ih =>
    simp only [smr_push_seq]
    rw [ih, smr_freestack_push_base_addr]

/-- The pop through a mapping at `Y` of an image whose head holds
`base_addr + o`. -/
theorem smr_freestack_pop_at (Y : Int) (img : smr_freestack) (o : Int)
    (hn : img.next = img.base_addr + o) (h0 : img.next ≠ 0) (ho : sizeof_ptr ∣ o) :
    smr_freestack_pop Y img = some (Y + (o + sizeof_ptr), img) := by
  rw [smr_freestack_pop_eq Y img h0, hn]
  have h1 : img.base_addr + o - img.base_addr = o := by ring
  simp only [ptr_add, ptr_diff, freestack_get_user_buf, h1]
  rw [Int.mul_ediv_cancel' ho, Int.add_assoc]

/-- C5: for a shared-region free stack whose byte image is read through a mapping
at any address Y: whenever the head field holds base_addr + o, a non-NULL value
with o a whole number of pointers, smr_freestack_pop returns Y + (o + sizeof(void* )),
that is Y + (stored value - base_addr) plus the size of the link slot, and leaves
the image as it is. For the image initialised by name_init at address X the head
holds X + (offset of the link slot of entry 0) and the pop at Y returns the address
of entry 0's user buffer in the mapping at Y; and after any further pushes, made
through mappings at any addresses, the last one of entry i, the head holds
X + (offset of the link slot of entry i) and the pop at Y returns the address of
entry i's user buffer in the mapping at Y. -/
theorem smr_pop_translates_to_local (debug : Bool) (X Y esz : Int) (size : Nat)
    (img0 : smr_freestack)
    (hX : 0 ≤ X) (hsize : 0 < size)
    (hpow : debug = true → size = roundup_power_of_two size)
    (hesz : debug = true → 2 * sizeof_ptr ≤ esz) :
    (∀ (img : smr_freestack) (o : Int), img.next = img.base_addr + o → img.next ≠ 0 →
      sizeof_ptr ∣ o →
      smr_freestack_pop Y img = some (Y + (o + sizeof_ptr), img)) ∧
    ∃ img,
      smr_name_init debug X esz img0 size = some img ∧
      img.base_addr = X ∧
      img.next = X + smr_link_off esz 0 ∧
      (smr_freestack_pop Y img).map Prod.fst = some (Y + (smr_link_off esz 0 + sizeof_ptr)) ∧
      Y + (smr_link_off esz 0 + sizeof_ptr) = smr_entry_buf Y esz 0 ∧
      (sizeof_ptr ∣ esz → 0 < esz →
        ∀ (pushes : List (Int × Nat)) (Z : Int) (i : Nat),
          (smr_push_seq esz (pushes ++ [(Z, i)]) img).base_addr = X ∧
          (smr_push_seq esz (pushes ++ [(Z, i)]) img).next = X + smr_link_off esz i ∧
          (smr_freestack_pop Y (smr_push_seq esz (pushes ++ [(Z, i)]) img)).map Prod.fst =
            some (Y + (smr_link_off esz i + sizeof_ptr)) ∧
          Y + (smr_link_off esz i + sizeof_ptr) = smr_entry_buf Y esz i) := by
  have hinit : smr_name_init debug X esz img0 size =
      some (smr_name_init_loop X esz size
        { img0 with size := size, next := FREESTACK_EMPTY, base_addr := X }) := by
    unfold smr_name_init
    cases debug with
    | false => simp
    | true =>
      have h1 := hpow rfl
      have h2 := hesz rfl
      rw [if_neg (by simpa using h1), if_neg (by simp only [sizeof_ptr] at *; simp; omega)]
  have hb := smr_name_init_loop_base_addr X esz size
    { img0 with size := size, next := FREESTACK_EMPTY, base_addr := X }
  have hn := smr_name_init_loop_next X esz size
    { img0 with size := size, next := FREESTACK_EMPTY, base_addr := X } hsize
  simp only at hb hn
  have hoff0 : smr_link_off esz 0 = smr_header_size := by simp [smr_link_off]
  have hbuf : ∀ i : Nat, Y + (smr_link_off esz i + sizeof_ptr) = smr_entry_buf Y esz i := by
    intro i
    simp only [smr_link_off, smr_entry_buf]
    ring
  refine ⟨fun img o h1 h2 h3 => smr_freestack_pop_at Y img o h1 h2 h3, _, hinit, hb, ?_, ?_,
    hbuf 0, ?_⟩
  · rw [hn, hoff0]
  · rw [smr_freestack_pop_at Y _ (smr_link_off esz 0) (by rw [hn, hb, hoff0])
      (by rw [hn]; simp only [smr_header_size, sizeof_ptr]; omega)
      (by rw [hoff0]; exact ⟨3, by simp only [smr_header_size]; ring⟩)]
    rfl
  · intro h8 hpos pushes Z i
    have hba : (smr_push_seq esz (pushes ++ [(Z, i)])
        (smr_name_init_loop X esz size
          { img0 with size := size, next := FREESTACK_EMPTY, base_addr := X })).base_addr
          = X := by
      rw [smr_push_seq_base_addr, hb]
    have hnx : (smr_push_seq esz (pushes ++ [(Z, i)])
        (smr_name_init_loop X esz size
          { img0 with size := size, next := FREESTACK_EMPTY, base_addr := X })).next
          = X + smr_link_off esz i := by
      rw [smr_push_seq_append, smr_push_entry_eq Z esz i _ h8]
      show (smr_push_seq esz pushes _).base_addr + _ = _
      rw [smr_push_seq_base_addr, hb]
    refine ⟨hba, hnx, ?_, hbuf i⟩
    have hne : X + smr_link_off esz i ≠ 0 := by
      have : (0 : Int) ≤ (i : Int) * esz :=
        Int.mul_nonneg (Int.ofNat_nonneg i) (le_of_lt hpos)
      simp only [smr_link_off, smr_header_size, sizeof_ptr]
      omega
    rw [smr_freestack_pop_at Y _ (smr_link_off esz i) (by rw [hnx, hba])
      (by rw [hnx]; exact hne) (smr_link_off_dvd esz i h8)]
    rfl

theorem smr_pop_translates_to_local_witness :
    ∃ img,
      smr_name_init true 4096 16 smr_zero_image 2 = some img ∧
      (smr_freestack_pop 8192 img).map Prod.fst = some 8224 ∧
      (smr_push_seq 16 [(65536, 1)] img).next = 4136 ∧
      (smr_freestack_pop 8192 (smr_push_seq 16 [(65536, 1)] img)).map Prod.fst =
        some 8240 := by
  obtain ⟨img, h1, _, _, h2, _, h3⟩ :=
    (smr_pop_translates_to_local true 4096 8192 16 2 smr_zero_image (by decide) (by decide)
      (fun _ => by decide) (fun _ => by decide)).2
  obtain ⟨_, h4, h5, _⟩ := h3 (by decide) (by decide) [] 65536 1
  exact ⟨img, h1, h2, h4, h5⟩

/-- C18: for a shared-region free stack whose recorded base_addr is X, a push by a
process that maps it at any address Y of the entry whose link slot is at local
address Y + o stores X + o in the head field and the previous head value in that
link slot, and writes nothing else; and after name_init at X and any sequence of
pushes of entries of the stack, made through mappings at any addresses, the head
and the link slot of every entry hold NULL or X + (offset of an entry's link slot),
and the image is the one that the same pushes made through the mapping at X give. -/
theorem smr_push_stores_creation_relative (debug : Bool) (X esz : Int) (size : Nat)
    (img0 : smr_freestack) (h8 : sizeof_ptr ∣ esz) (hesz : 2 * sizeof_ptr ≤ esz)
    (hpow : debug = true → size = roundup_power_of_two size) :
    (∀ (Y o : Int) (img : smr_freestack), sizeof_ptr ∣ o → img.base_addr = X →
      (smr_freestack_push Y img (Y + o + sizeof_ptr)).next = X + o ∧
      (smr_freestack_push Y img (Y + o + sizeof_ptr)).words o = img.next ∧
      (∀ a : Int, a ≠ o →
        (smr_freestack_push Y img (Y + o + sizeof_ptr)).words a = img.words a) ∧
      (smr_freestack_push Y img (Y + o + sizeof_ptr)).base_addr = X ∧
      (smr_freestack_push Y img (Y + o + sizeof_ptr)).size = img.size) ∧
    ∃ img, smr_name_init debug X esz img0 size = some img ∧
      ∀ pushes : List (Int × Nat), (∀ p ∈ pushes, p.2 < size) →
        (smr_push_seq esz pushes img).base_addr = X ∧
        smr_link_ok X esz size (smr_push_seq esz pushes img).next ∧
        (∀ i : Nat, i < size →
          smr_link_ok X esz size
            ((smr_push_seq esz pushes img).words (smr_link_off esz i))) ∧
        smr_push_seq esz pushes img =
          smr_push_seq esz (pushes.map fun p => (X, p.2)) img := by
  have hpos : 0 < esz := by simp only [sizeof_ptr] at hesz; omega
  constructor
  · intro Y o img ho hb
    rw [smr_freestack_push_at Y img o ho]
    refine ⟨by rw [hb], mem_write_same _ _ _, ?_, hb, rfl⟩
    intro a ha
    exact mem_write_other _ _ ha
  · have hinit : smr_name_init debug X esz img0 size =
        some (smr_name_init_loop X esz size
          { img0 with size := size, next := FREESTACK_EMPTY, base_addr := X }) := by
      unfold smr_name_init
      cases debug with
      | false => simp
      | true =>
        have h1 := hpow rfl
        rw [if_neg (by simpa using h1),
          if_neg (by simp only [sizeof_ptr] at *; simp; omega)]
    refine ⟨_, hinit, ?_⟩
    intro pushes hp
    have hb := smr_name_init_loop_base_addr X esz size
      { img0 with size := size, next := FREESTACK_EMPTY, base_addr := X }
    have hn : smr_link_ok X esz size (smr_name_init_loop X esz size
        { img0 with size := size, next := FREESTACK_EMPTY, base_addr := X }).next := by
      rcases Nat.eq_zero_or_pos size with h0 | h0
      · subst h0
        exact Or.inl rfl
      · rw [smr_name_init_loop_next _ _ _ _ h0]
        exact Or.inr ⟨0, h0, by simp [smr_link_off]⟩
    have hw : ∀ i : Nat, i < size → smr_link_ok X esz size
        ((smr_name_init_loop X esz size
          { img0 with size := size, next := FREESTACK_EMPTY, base_addr := X }).words
          (smr_link_off esz i)) := by
      intro i hi
      rw [smr_name_init_loop_words X esz h8 hpos _ _ rfl i]
      split_ifs with h1 h2
      · exact Or.inr ⟨i + 1, h1, rfl⟩
      · exact Or.inl rfl
      · omega
    obtain ⟨r1, r2, r3⟩ := smr_push_seq_links X esz size h8 pushes hp _ hb hn hw
    exact ⟨r1, r2, r3, smr_push_seq_local esz h8 X pushes _⟩

theorem smr_push_stores_creation_relative_witness :
    ∃ img, smr_name_init true 4096 16 smr_zero_image 2 = some img ∧
      smr_link_ok 4096 16 2 (smr_push_seq 16 [(65536, 1), (8192, 0)] img).next ∧
      smr_push_seq 16 [(65536, 1), (8192, 0)] img =
        smr_push_seq 16 [(4096, 1), (4096, 0)] img := by
  obtain ⟨img, h1, h2⟩ :=
    (smr_push_stores_creation_relative true 4096 16 2 smr_zero_image (by decide) (by decide)
      (fun _ => by decide)).2
  obtain ⟨_, h3, _, h4⟩ := h2 [(65536, 1), (8192, 0)] (by decide)
  exact ⟨img, h1, h3, h4⟩

/-! ## Fixed-capacity free stack: creation -/

theorem name_entry_buf_link (fs esz : Int) (i : Nat) :
    freestack_get_next (name_entry_buf fs esz i) = name_link_addr fs esz i := by
  simp [freestack_get_next, name_entry_buf, name_link_addr]

theorem name_link_addr_buf (fs esz : Int) (i : Nat) :
    freestack_get_user_buf (name_link_addr fs esz i) = name_entry_buf fs esz i := by
  simp [freestack_get_user_buf, name_entry_buf, name_link_addr]

theorem name_link_addr_inj (fs esz : Int) (hpos : 0 < esz) (i j : Nat)
    (h : name_link_addr fs esz i = name_link_addr fs esz j) : i = j := by
  simp only [name_link_addr] at h
  have h1 : (i : Int) * esz = (j : Int) * esz := by omega
  have h2 := Int.eq_of_mul_eq_mul_right (by omega) h1
  exact_mod_cast h2

theorem name_link_addr_pos (fs esz : Int) (hfs : 0 < fs) (hpos : 0 < esz) (i : Nat) :
    0 < name_link_addr fs esz i := by
  simp only [name_link_addr, freestack_header_size, sizeof_ptr]
  have : (0 : Int) ≤ (i : Int) * esz :=
    Int.mul_nonneg (Int.ofNat_nonneg i) (le_of_lt hpos)
  omega

theorem name_entry_buf_inj (fs esz : Int) (hpos : 0 < esz) (i j : Nat)
    (h : name_entry_buf fs esz i = name_entry_buf fs esz j) : i = j := by
  apply name_link_addr_inj fs esz hpos
  rw [← name_entry_buf_link, ← name_entry_buf_link, h]

theorem name_init_loop_eq (debug init : Bool) (fs esz : Int) (hpos : 0 < esz) (n : Nat)
    (st : freestack) (calls : List Int)
    (hz : debug = true → ∀ i : Nat, i < n → st.mem (name_link_addr fs esz i) = 0) :
    ∃ st1, name_init_loop debug init fs esz n (st, calls) =
        some (st1, calls ++
          if init then ((List.range n).map (name_entry_buf fs esz)).reverse else []) ∧
      st1.size = st.size ∧
      st1.next = (if n = 0 then st.next else name_link_addr fs esz 0) ∧
      (∀ i : Nat, i < n → st1.mem (name_link_addr fs esz i) =
        if i + 1 < n then name_link_addr fs esz (i + 1) else st.next) ∧
      (∀ a : Int, (∀ i : Nat, i < n → a ≠ name_link_addr fs esz i) → st1.mem a = st.mem a) := by
  induction n generalizing st calls with
  | zero =>
    refine ⟨st, ?_, rfl, rfl, ?_, ?_⟩
    · cases init <;> simp [name_init_loop]
    · intro i hi; omega
    · intro a _; rfl
  | succ n ih =>
    have hpush := freestack_push_eq debug st (name_entry_buf fs esz n)
      (fun hd => by rw [name_entry_buf_link]; exact hz hd n (by omega))
    rw [name_entry_buf_link] at hpush
    obtain ⟨st1, h1, h2, h3, h4, h5⟩ := ih
      { st with mem := mem_write st.mem (name_link_addr fs esz n) st.next,
                next := name_link_addr fs esz n }
      (if init then calls ++ [name_entry_buf fs esz n] else calls)
      (fun hd i hi => by
        simp only
        rw [mem_write_other _ _ (fun he => by
          have := name_link_addr_inj fs esz hpos i n he
          omega)]
        exact hz hd i (by omega))
    refine ⟨st1, ?_, h2, ?_, ?_, ?_⟩
    · simp only [name_init_loop, hpush, h1]
      cases init
      · simp
      · simp [List.range_succ]
    · rw [h3]
      by_cases h0 : n = 0
      · subst h0; simp
      · simp [h0]
    · intro i hi
      by_cases hin : i < n
      · rw [h4 i hin]
        by_cases hin1 : i + 1 < n
        · rw [if_pos hin1, if_pos (by omega)]
        · rw [if_neg hin1, if_pos (by omega)]
          have : i + 1 = n := by omega
          rw [this]
      · have hi0 : i = n := by omega
        subst hi0
        rw [h5 _ (fun j hj he => by
          have := name_link_addr_inj fs esz hpos i j he
          omega)]
        rw [if_neg (by omega)]
        exact mem_write_same _ _ _
    · intro a ha
      rw [h5 a (fun i hi => ha i (by omega))]
      exact mem_write_other _ _ (ha n (by omega))

theorem freestack_pop_n_linked (debug : Bool) (fs esz : Int) (hfs : 0 < fs) (hpos : 0 < esz)
    (C m k : Nat) (st : freestack) (hk : k + m ≤ C)
    (hst : name_linked_from fs esz C k st) :
    ∃ st1, freestack_pop_n debug m st =
        some ((List.range m).map (fun t => name_entry_buf fs esz (k + t)), st1) ∧
      name_linked_from fs esz C (k + m) st1 := by
  induction m generalizing k st with
  | zero => exact ⟨st, rfl, hst⟩
  | succ m ih =>
    have hkC : k < C := by omega
    have hnext : st.next = name_link_addr fs esz k := by rw [hst.1, if_pos hkC]
    have hne : st.next ≠ 0 := by
      rw [hnext]
      exact ne_of_gt (name_link_addr_pos fs esz hfs hpos k)
    have hpop := freestack_pop_eq debug st hne
    rw [hnext, name_link_addr_buf] at hpop
    have hmem := hst.2 k (le_refl k) hkC
    obtain ⟨st1, h1, h2⟩ := ih (k + 1)
      { st with next := st.mem (name_link_addr fs esz k),
                mem := if debug then mem_write st.mem (name_link_addr fs esz k) 0
                       else st.mem }
      (by omega)
      (by
        constructor
        · simp only
          rw [hmem]
        · intro i hi hiC
          simp only
          have hother : (if debug then mem_write st.mem (name_link_addr fs esz k) 0
              else st.mem) (name_link_addr fs esz i) = st.mem (name_link_addr fs esz i) := by
            cases debug
            · rfl
            · simp only [if_true]
              exact mem_write_other _ _ (fun he => by
                have := name_link_addr_inj fs esz hpos i k he
                omega)
          rw [hother]
          exact hst.2 i (by omega) hiC)
    have hkm : k + 1 + m = k + (m + 1) := by omega
    rw [hkm] at h2
    refine ⟨st1, ?_, h2⟩
    simp only [freestack_pop_n, hpop, h1, List.range_succ_eq_map, List.map_cons, List.map_map]
    simp [Function.comp_def, Nat.add_assoc, Nat.add_comm 1]

theorem name_create_eq (debug init : Bool) (fs esz bsz : Int) (n : Nat) (hfs : 0 < fs)
    (hpos : 0 < esz) (hbuf : debug = true → sizeof_ptr ≤ bsz) :
    ∃ st, name_create debug init fs esz bsz n =
        some (some (st,
          if init then
            ((List.range (roundup_power_of_two n)).map (name_entry_buf fs esz)).reverse
          else [])) ∧
      st.size = roundup_power_of_two n ∧
      name_linked_from fs esz (roundup_power_of_two n) 0 st := by
  have hC := roundup_power_of_two_pos n
  obtain ⟨st, h1, h2, h3, h4, _⟩ := name_init_loop_eq debug init fs esz hpos
    (roundup_power_of_two n)
    { size := roundup_power_of_two n, next := FREESTACK_EMPTY, mem := fun _ => 0 } []
    (fun _ _ _ => rfl)
  refine ⟨st, ?_, h2, ?_, ?_⟩
  · unfold name_create name_init
    rw [if_neg (ne_of_gt hfs)]
    have e1 : ¬((debug && roundup_power_of_two n !=
        roundup_power_of_two (roundup_power_of_two n)) = true) := by
      rw [roundup_power_of_two_idem]
      simp
    have e2 : ¬((debug && decide (bsz < sizeof_ptr)) = true) := by
      cases debug with
      | false => simp
      | true =>
        have := hbuf rfl
        simp only [Bool.true_and, decide_eq_true_eq, not_lt]
        exact this
    rw [if_neg e1, if_neg e2]
    simp only [List.nil_append] at h1
    simp only [h1, Option.map_some']
  · rw [h3, if_neg (by omega), if_pos hC]
  · intro i _ hi
    rw [h4 i hi]
    rfl

theorem ptrdiff_to_int_small (k : Nat) (hk : k < 2 ^ 31) : ptrdiff_to_int k = k := by
  unfold ptrdiff_to_int
  have h1 : ((k : Int) + 2 ^ 31) % 2 ^ 32 = (k : Int) + 2 ^ 31 := by
    apply Int.emod_eq_of_lt
    · omega
    · have : (k : Int) < 2 ^ 31 := by exact_mod_cast hk
      omega
  rw [h1]
  ring

theorem name_index_entry_buf (fs esz : Int) (hpos : 0 < esz) (k : Nat) :
    name_index fs esz (name_entry_buf fs esz k) = ptrdiff_to_int k := by
  simp only [name_index, name_entry_buf_link, name_link_addr]
  have : fs + freestack_header_size + (k : Int) * esz - (fs + freestack_header_size) =
      (k : Int) * esz := by ring
  rw [this, Int.mul_ediv_cancel _ (ne_of_gt hpos)]

/-- C19 (as amended): name_create(n, init, arg) of the fixed-capacity free stack
with n > 0, for an entry type of bsz bytes (at least sizeof(void* ) in a debug
build, where name_init asserts it) in a struct name_entry of esz bytes, when the
byte count sizeof(*fs) + esz * C does not exceed size_t and calloc returns a block,
yields a stack whose size field is C = roundup_power_of_two(n), the smallest power
of two that is at least n, and whose C entries lie inside the byte count given to
calloc; for every m <= C, m consecutive freestack_pop calls succeed and return
&entry[0].buf, .., &entry[m-1].buf in this order, and freestack_isempty holds after
them exactly when m = C, so that one more pop fails its assertion only then;
name_index of &entry[k].buf is k converted to int, which is k for k < 2^31; and
init, when given, has been called once on each of the C entries, from entry[C-1]
down to entry[0]. -/
theorem name_create_pops_in_order (debug init : Bool) (fs esz bsz : Int) (n : Nat)
    (hn : 0 < n) (hfs : 0 < fs) (hb0 : 0 ≤ bsz) (hesz : sizeof_ptr + bsz ≤ esz)
    (hbuf : debug = true → sizeof_ptr ≤ bsz)
    (hfit : freestack_header_size + esz * (roundup_power_of_two n : Int) < 2 ^ 64) :
    ∃ (st : freestack) (calls : List Int) (j : Nat),
      name_create debug init fs esz bsz n = some (some (st, calls)) ∧
      st.size = roundup_power_of_two n ∧
      roundup_power_of_two n = 2 ^ j ∧ 0 < n ∧ n ≤ 2 ^ j ∧
      (∀ i : Nat, n ≤ 2 ^ i → 2 ^ j ≤ 2 ^ i) ∧
      (∀ k : Nat, k < roundup_power_of_two n →
        fs + freestack_header_size ≤ name_link_addr fs esz k ∧
        name_entry_buf fs esz k + bsz ≤ fs + name_create_size esz n) ∧
      (∀ m : Nat, m ≤ roundup_power_of_two n →
        ∃ st1, freestack_pop_n debug m st =
            some ((List.range m).map (name_entry_buf fs esz), st1) ∧
          (freestack_isempty st1 = true ↔ m = roundup_power_of_two n) ∧
          (freestack_pop debug st1 = none ↔ m = roundup_power_of_two n)) ∧
      (∀ k : Nat, name_index fs esz (name_entry_buf fs esz k) = ptrdiff_to_int k) ∧
      (∀ k : Nat, k < 2 ^ 31 → name_index fs esz (name_entry_buf fs esz k) = k) ∧
      calls = (if init then
        ((List.range (roundup_power_of_two n)).map (name_entry_buf fs esz)).reverse
        else []) ∧
      (init = true → ∀ k : Nat, k < roundup_power_of_two n →
        calls.count (name_entry_buf fs esz k) = 1) := by
  have hpos : 0 < esz := by simp only [sizeof_ptr] at hesz; omega
  obtain ⟨j, hj, hge, hmin⟩ := roundup_power_of_two_spec n
  obtain ⟨st, hc, hsize, hlink⟩ := name_create_eq debug init fs esz bsz n hfs hpos hbuf
  refine ⟨st, _, j, hc, hsize, hj, hn, hge, hmin, ?_, ?_, ?_, ?_, rfl, ?_⟩
  · intro k hk
    have hk1 : ((k : Int) + 1) * esz ≤ (roundup_power_of_two n : Int) * esz := by
      apply Int.mul_le_mul_of_nonneg_right _ (le_of_lt hpos)
      exact_mod_cast hk
    have hk0 : (0 : Int) ≤ (k : Int) * esz :=
      Int.mul_nonneg (Int.ofNat_nonneg k) (le_of_lt hpos)
    have hC0 : (0 : Int) ≤ esz * (roundup_power_of_two n : Int) :=
      Int.mul_nonneg (le_of_lt hpos) (Int.ofNat_nonneg _)
    have hsz : name_create_size esz n =
        freestack_header_size + esz * (roundup_power_of_two n : Int) := by
      unfold name_create_size
      apply Int.emod_eq_of_lt _ hfit
      simp only [freestack_header_size, sizeof_ptr]
      omega
    rw [hsz]
    have e1 : ((k : Int) + 1) * esz = (k : Int) * esz + esz := by ring
    have e2 : (roundup_power_of_two n : Int) * esz = esz * (roundup_power_of_two n : Int) := by
      ring
    simp only [name_link_addr, name_entry_buf, freestack_header_size, sizeof_ptr] at *
    constructor <;> omega
  · intro m hm
    obtain ⟨st1, h1, h2⟩ := freestack_pop_n_linked debug fs esz hfs hpos
      (roundup_power_of_two n) m 0 st (by omega) hlink
    simp only [Nat.zero_add] at h1 h2
    have hemp : freestack_isempty st1 = true ↔ m = roundup_power_of_two n := by
      simp only [freestack_isempty, FREESTACK_EMPTY, beq_iff_eq, h2.1]
      constructor
      · intro h
        by_contra hne
        rw [if_pos (by omega)] at h
        exact absurd h (ne_of_gt (name_link_addr_pos fs esz hfs hpos m))
      · intro h
        rw [if_neg (by omega)]
    refine ⟨st1, by simpa using h1, hemp, ?_⟩
    rw [← hemp]
    unfold freestack_pop freestack_pop_impl
    cases he : freestack_isempty st1 <;> simp
  · intro k
    exact name_index_entry_buf fs esz hpos k
  · intro k hk
    rw [name_index_entry_buf fs esz hpos k, ptrdiff_to_int_small k hk]
  · intro hi k hk
    subst hi
    simp only [if_true]
    apply List.count_eq_one_of_mem
    · rw [List.nodup_reverse]
      apply List.Nodup.map_on _ (List.nodup_range _)
      intro a _ b _ hab
      exact name_entry_buf_inj fs esz hpos a b hab
    · rw [List.mem_reverse]
      exact List.mem_map.mpr ⟨k, List.mem_range.mpr hk, rfl⟩

theorem name_create_pops_in_order_witness :
    ∃ (st : freestack) (calls : List Int),
      name_create true true 4096 16 8 3 = some (some (st, calls)) ∧
      st.size = 4 ∧
      (freestack_pop_n true 4 st).map Prod.fst = some [4120, 4136, 4152, 4168] ∧
      name_index 4096 16 4152 = 2 ∧
      calls = [4168, 4152, 4136, 4120] := by
  obtain ⟨st, calls, j, h1, h2, _, _, _, _, _, h3, _, h4, h5, _⟩ :=
    name_create_pops_in_order true true 4096 16 8 3 (by decide) (by decide) (by decide)
      (by decide) (fun _ => by decide) (by decide)
  obtain ⟨st1, h6, _⟩ := h3 4 (by decide)
  refine ⟨st, calls, h1, h2.trans (by decide), ?_, h4 2 (by decide), h5.trans (by decide)⟩
  rw [h6, Option.map_some']
  have hl : (List.range 4).map (name_entry_buf 4096 16) = [4120, 4136, 4152, 4168] := by
    decide
  exact congrArg some hl

theorem roundup_power_of_two_eq (n j : Nat) (hlo : 2 ^ j < 2 * n) (hhi : n ≤ 2 ^ j) :
    roundup_power_of_two n = 2 ^ j := by
  obtain ⟨j1, h1, hge, hmin⟩ := roundup_power_of_two_spec n
  rw [h1]
  have hle : 2 ^ j1 ≤ 2 ^ j := hmin j hhi
  rcases Nat.lt_or_ge j1 j with h | h
  · have : 2 ^ (j1 + 1) ≤ 2 ^ j := Nat.pow_le_pow_right (by decide) h
    rw [Nat.pow_succ] at this
    omega
  · have : 2 ^ j ≤ 2 ^ j1 := Nat.pow_le_pow_right (by decide) h
    omega

/-- C19 (as stated): name_create(n, init, arg) with n = 2^31 + 1 and 16-byte
entries, whose calloc byte count 16 + 16 * 2^32 is within size_t, yields the
capacity C = 2^32;
the first 2^31 + 1 pops succeed and return &entry[0].buf, .., &entry[2^31].buf,
and name_index of &entry[2^31].buf, the buffer returned by pop number 2^31 < C, is
-2^31: the element difference 2^31 does not fit the int that name_index returns. -/
theorem name_index_beyond_int_range :
    roundup_power_of_two (2 ^ 31 + 1) = 2 ^ 32 ∧
    name_create_size 16 (2 ^ 31 + 1) = 16 + 16 * 2 ^ 32 ∧
    (∃ (st : freestack) (calls : List Int) (st1 : freestack),
      name_create false false 4096 16 8 (2 ^ 31 + 1) = some (some (st, calls)) ∧
      st.size = 2 ^ 32 ∧
      freestack_pop_n false (2 ^ 31 + 1) st =
        some ((List.range (2 ^ 31 + 1)).map (name_entry_buf 4096 16), st1)) ∧
    name_index 4096 16 (name_entry_buf 4096 16 (2 ^ 31)) = -(2 ^ 31) := by
  have hC : roundup_power_of_two (2 ^ 31 + 1) = 2 ^ 32 :=
    roundup_power_of_two_eq (2 ^ 31 + 1) 32 (by norm_num) (by norm_num)
  refine ⟨hC, ?_, ?_, ?_⟩
  · rw [name_create_size, hC]
    norm_num [freestack_header_size, sizeof_ptr]
  · obtain ⟨st, hc, hsize, hlink⟩ :=
      name_create_eq false false 4096 16 8 (2 ^ 31 + 1) (by norm_num) (by norm_num)
        (fun h => by cases h)
    obtain ⟨st1, h1, _⟩ := freestack_pop_n_linked false 4096 16 (by norm_num) (by norm_num)
      (roundup_power_of_two (2 ^ 31 + 1)) (2 ^ 31 + 1) 0 st (by rw [hC]; norm_num) hlink
    refine ⟨st, _, st1, hc, hsize.trans hC, ?_⟩
    simpa using h1
  · rw [name_index_entry_buf 4096 16 (by norm_num) (2 ^ 31)]
    norm_num [ptrdiff_to_int]

/-! ## The number of provisioned buffers -/

theorem count_inv_grow (cfg : build_cfg) (env : grow_env) (s : pool_mem)
    (h : count_inv s) : count_inv (util_buf_grow cfg env s).2.1 := by
  by_cases h0 : (util_buf_grow cfg env s).1 = 0
  · obtain ⟨hlim, b, mem, size, _, hadd, _⟩ := util_buf_grow_ok cfg env s h0
    have hn : (util_buf_grow cfg env s).2.1.pool.num_allocated =
        s.pool.num_allocated + s.pool.attr.chunk_cnt := hadd.num_allocated
    have hc : (util_buf_grow cfg env s).2.1.pool.attr.chunk_cnt = s.pool.attr.chunk_cnt := by
      rw [hadd.attr]; rfl
    have hm : (util_buf_grow cfg env s).2.1.pool.attr.max_cnt = s.pool.attr.max_cnt := by
      rw [hadd.attr]; rfl
    have hl : (util_buf_grow cfg env s).2.1.pool.region_list.length =
        s.pool.region_list.length + 1 := by
      rw [hadd.region_list]
      simp [with_mmap]
    constructor
    · rw [hn, hc, hl, h.nalloc, Nat.mul_succ]
    · rw [hn, hc, hm]
      intro hne
      rcases hlim with hz | hlt
      · exact absurd hz hne
      · omega
  · obtain ⟨_, b, hb⟩ := util_buf_grow_fail cfg env s h0
    rw [hb]
    exact ⟨h.nalloc, h.bound⟩

theorem count_inv_get (cfg : build_cfg) (s s1 : pool_mem) (b : Nat)
    (h : count_inv s) (hg : util_buf_get cfg s = some (b, s1)) : count_inv s1 := by
  have ht := util_buf_get_took cfg s s1 b hg
  have hl : s1.pool.region_list.length = s.pool.region_list.length := by
    have := congrArg List.length ht.geom
    simpa using this
  constructor
  · rw [ht.num_allocated, ht.attr, hl]
    exact h.nalloc
  · rw [ht.num_allocated, ht.attr]
    exact h.bound

theorem count_inv_release (cfg : build_cfg) (s s1 : pool_mem) (b : Nat)
    (h : count_inv s) (hg : util_buf_release cfg s b = some s1) : count_inv s1 := by
  obtain ⟨_, _, hattr, _, hna, _, _, hgeom, _, _⟩ := util_buf_release_spec cfg s s1 b hg
  have hl : s1.pool.region_list.length = s.pool.region_list.length := by
    have := congrArg List.length hgeom
    simpa using this
  constructor
  · rw [hna, hattr, hl]
    exact h.nalloc
  · rw [hna, hattr]
    exact h.bound

theorem pool_reach_count (cfg : build_cfg) (s : pool_mem) (log : List grow_call)
    (held : List Nat) (hr : pool_reach cfg s log held) : count_inv s := by
  induction hr with
  | create env attr hc hf =>
    obtain ⟨rfl, _⟩ := util_buf_pool_create_attr_eq cfg _ _ _ _ hc
    apply count_inv_grow
    constructor
    · rfl
    · intro hne
      have hpos := Nat.pos_of_ne_zero hne
      show 0 < _
      exact Nat.lt_of_lt_of_le hpos (Nat.le_add_right _ _)
  | grow env _ hf ih => exact count_inv_grow cfg env _ ih
  | alloc env _ hf ha ih =>
    rcases util_buf_alloc_cases cfg env _ _ _ _ ha with ⟨_, hg⟩ | ⟨_, hc⟩
    · exact count_inv_get cfg _ _ _ ih hg
    · rcases hc with ⟨_, _, rfl⟩ | ⟨_, hget⟩
      · exact count_inv_grow cfg env _ ih
      · exact count_inv_get cfg _ _ _ (count_inv_grow cfg env _ ih) hget
  | get _ hg ih => exact count_inv_get cfg _ _ _ ih hg
  | release buf _ hb hrel ih => exact count_inv_release cfg _ _ buf ih hrel

theorem regions_end_ge (pool : util_buf_pool) (l : List util_buf_region) :
    ∀ r ∈ l, r.mem_region + pool.attr.chunk_cnt * pool.entry_sz ≤ regions_end pool l := by
  induction l with
  | nil => intro r hr; simp at hr
  | cons x xs ih =>
    intro r hr
    simp only [regions_end]
    rcases List.mem_cons.mp hr with h | h
    · subst h
      exact le_max_left _ _
    · exact le_trans (ih r h) (le_max_right _ _)

theorem fresh_grow_env_fresh (s : pool_mem) : grow_env_fresh s (fresh_grow_env s) := by
  have hb : block_fresh s (regions_end s.pool s.pool.region_list + 1) := by
    refine ⟨by omega, fun r hr => Or.inr ?_⟩
    have := regions_end_ge s.pool s.pool.region_list r hr
    omega
  exact ⟨fun _ => hb, fun _ => hb⟩

theorem fresh_grow_env_ok (s : pool_mem) : grow_env_ok (fresh_grow_env s) :=
  ⟨rfl, by simp [fresh_grow_env], rfl, by simp [fresh_grow_env], rfl,
   by simp [fresh_grow_env], rfl, rfl⟩

/-- From a state whose limit is not a multiple of `chunk_cnt`, growing reaches a
state that has provisioned more than `max_cnt` buffers. -/
theorem pool_reach_overshoot (cfg : build_cfg) (d : Nat) (s : pool_mem)
    (log : List grow_call) (held : List Nat) (hr : pool_reach cfg s log held)
    (hc : 0 < s.pool.attr.chunk_cnt) (hnd : ¬ s.pool.attr.chunk_cnt ∣ s.pool.attr.max_cnt)
    (hd : s.pool.attr.max_cnt - s.pool.num_allocated ≤ d) :
    ∃ s1 log1, pool_reach cfg s1 log1 held ∧
      s1.pool.attr.max_cnt = s.pool.attr.max_cnt ∧
      s1.pool.attr.chunk_cnt = s.pool.attr.chunk_cnt ∧
      s.pool.attr.max_cnt < s1.pool.num_allocated := by
  induction d generalizing s log with
  | zero =>
    have hinv := pool_reach_count cfg s log held hr
    refine ⟨s, log, hr, rfl, rfl, ?_⟩
    rcases Nat.lt_or_ge s.pool.attr.max_cnt s.pool.num_allocated with h | h
    · exact h
    · have he : s.pool.attr.max_cnt = s.pool.num_allocated := by omega
      exact absurd (by rw [he, hinv.nalloc]; exact Dvd.intro _ rfl) hnd
  | succ d ih =>
    rcases Nat.lt_or_ge s.pool.num_allocated s.pool.attr.max_cnt with hlt | hge
    · have h0 := util_buf_grow_succeeds cfg (fresh_grow_env s) s (fresh_grow_env_ok s)
        (Or.inr hlt)
      obtain ⟨_, b, mem, size, _, hadd, _⟩ := util_buf_grow_ok cfg (fresh_grow_env s) s h0
      have hcc : (util_buf_grow cfg (fresh_grow_env s) s).2.1.pool.attr.chunk_cnt =
          s.pool.attr.chunk_cnt := by rw [hadd.attr]; rfl
      have hmm : (util_buf_grow cfg (fresh_grow_env s) s).2.1.pool.attr.max_cnt =
          s.pool.attr.max_cnt := by rw [hadd.attr]; rfl
      have hn : (util_buf_grow cfg (fresh_grow_env s) s).2.1.pool.num_allocated =
          s.pool.num_allocated + s.pool.attr.chunk_cnt := hadd.num_allocated
      obtain ⟨s1, log1, h1, h2, h3, h4⟩ := ih _ _
        (pool_reach.grow (fresh_grow_env s) hr (fresh_grow_env_fresh s))
        (by rw [hcc]; exact hc) (by rw [hcc, hmm]; exact hnd) (by rw [hmm, hn]; omega)
      exact ⟨s1, log1, h1, h2.trans hmm, h3.trans hcc, by rw [← hmm]; exact h4⟩
    · exact ih s log hr hc hnd (by omega)

/-- C21: in every state a pool can be in after create and any sequence of grow,
alloc, get and release, num_allocated is chunk_cnt times the number of regions in
the region list; util_buf_get, util_buf_release and a util_buf_alloc that does not
call util_buf_grow leave it unchanged; and when max_cnt is not 0, num_allocated is
less than max_cnt + chunk_cnt, so it exceeds max_cnt by at most chunk_cnt - 1; it
never exceeds max_cnt when chunk_cnt divides max_cnt, and when chunk_cnt > 0 does
not divide max_cnt, growing the pool reaches a state in which it exceeds max_cnt. -/
theorem util_buf_num_allocated_bound (cfg : build_cfg) (s : pool_mem)
    (log : List grow_call) (held : List Nat) (hr : pool_reach cfg s log held) :
    s.pool.num_allocated = s.pool.attr.chunk_cnt * s.pool.region_list.length ∧
    (∀ (b : Nat) (s1 : pool_mem), util_buf_get cfg s = some (b, s1) →
      s1.pool.num_allocated = s.pool.num_allocated) ∧
    (∀ (env : grow_env) (b : Nat) (s1 : pool_mem),
      util_buf_alloc cfg env s = some (b, s1, []) →
      s1.pool.num_allocated = s.pool.num_allocated) ∧
    (∀ (b : Nat) (s1 : pool_mem), util_buf_release cfg s b = some s1 →
      s1.pool.num_allocated = s.pool.num_allocated) ∧
    (s.pool.attr.max_cnt ≠ 0 →
      s.pool.num_allocated < s.pool.attr.max_cnt + s.pool.attr.chunk_cnt ∧
      s.pool.num_allocated - s.pool.attr.max_cnt ≤ s.pool.attr.chunk_cnt - 1 ∧
      (s.pool.attr.chunk_cnt ∣ s.pool.attr.max_cnt →
        s.pool.num_allocated ≤ s.pool.attr.max_cnt) ∧
      (0 < s.pool.attr.chunk_cnt → ¬ s.pool.attr.chunk_cnt ∣ s.pool.attr.max_cnt →
        ∃ s1 log1, pool_reach cfg s1 log1 held ∧
          s1.pool.attr.max_cnt = s.pool.attr.max_cnt ∧
          s1.pool.attr.chunk_cnt = s.pool.attr.chunk_cnt ∧
          s.pool.attr.max_cnt < s1.pool.num_allocated)) := by
  have hinv := pool_reach_count cfg s log held hr
  refine ⟨hinv.nalloc, ?_, ?_, ?_, ?_⟩
  · intro b s1 hg
    exact (util_buf_get_took cfg s s1 b hg).num_allocated
  · intro env b s1 ha
    rcases util_buf_alloc_cases cfg env s s1 b [] ha with ⟨_, hg⟩ | ⟨hl, _⟩
    · exact (util_buf_get_took cfg s s1 b hg).num_allocated
    · cases hl
  · intro b s1 hrel
    exact (util_buf_release_spec cfg s s1 b hrel).2.2.2.2.1
  · intro hne
    have hb := hinv.bound hne
    refine ⟨hb, by omega, ?_, ?_⟩
    · intro hdvd
      obtain ⟨q, hq⟩ := hdvd
      rcases Nat.eq_zero_or_pos s.pool.attr.chunk_cnt with hz | hp
      · rw [hinv.nalloc, hz]
        simp
      · rw [hinv.nalloc, hq] at hb ⊢
        have h1 : s.pool.attr.chunk_cnt * s.pool.region_list.length <
            s.pool.attr.chunk_cnt * (q + 1) := by
          rw [Nat.mul_succ]; exact hb
        have h2 : s.pool.region_list.length < q + 1 := Nat.lt_of_mul_lt_mul_left h1
        exact Nat.mul_le_mul_left _ (by omega)
    · intro hc hnd
      exact pool_reach_overshoot cfg _ s log held hr hc hnd (le_refl _)

theorem util_buf_num_allocated_bound_witness :
    ∃ log, pool_reach (example_cfg false) example_pool_limited log [] ∧
      example_pool_limited.pool.attr.max_cnt = 3 ∧
      example_pool_limited.pool.attr.chunk_cnt = 2 ∧
      example_pool_limited.pool.num_allocated = 2 * 1 ∧
      ∃ s1 log1, pool_reach (example_cfg false) s1 log1 [] ∧
        3 < s1.pool.num_allocated := by
  have hr : pool_reach (example_cfg false) example_pool_limited _ [] :=
    pool_reach.create example_create_env (example_attr 3 2 false) rfl
      ⟨fun _ => ⟨by decide, fun r hr => by simp [util_buf_pool_create_init] at hr⟩,
       fun _ => ⟨by decide, fun r hr => by simp [util_buf_pool_create_init] at hr⟩⟩
  have h := util_buf_num_allocated_bound (example_cfg false) example_pool_limited _ [] hr
  obtain ⟨s1, log1, h1, _, _, h2⟩ := (h.2.2.2.2 (by decide)).2.2.2 (by decide) (by decide)
  exact ⟨_, hr, rfl, rfl, h.1.trans rfl, s1, log1, h1, h2⟩

end OfiMem
